import Mathlib

/-!
Verification development for the x86 ABI lowering core
(`cranelift-codegen/src/isa/x86/abi.rs`): a shallow embedding of the
signature legalizer, the argument classifier, the return-register
requirement estimator, the callee-saved register tracker and the
prologue/epilogue synthesizer, together with theorems about them.

Machine integers are modelled as `Nat`/`Int`; Rust panics and
`unreachable` arms are modelled as `Option.none`; the recursion of the
conversion loops is made structural with an explicit fuel argument
(`none` also results when the fuel runs out, and concrete witnesses show
the fuel bounds used are sufficient on the inputs considered).
-/

/-! ## Value types (`ir::Type`)

The scalar/vector lane structure of `ir::Type`: a lane kind, a lane
width in bits, and a lane count (1 for scalars).  `is_int`/`is_float`/
`is_bool` are the scalar-only tests of `ir/types.rs`; `bits` is
`lane_bits * lane_count`; `half_width` halves the lane width when a
half-width lane type exists and `half_vector` halves the lane count. -/

inductive LaneKind where
  | Int
  | Float
  | Bool
deriving DecidableEq, Repr

structure IrType where
  lane : LaneKind
  laneBits : Nat
  lanes : Nat
deriving DecidableEq, Repr

namespace IrType

def is_vector (t : IrType) : Bool := 1 < t.lanes

def is_int (t : IrType) : Bool := t.lane = LaneKind.Int && t.lanes = 1

def is_float (t : IrType) : Bool := t.lane = LaneKind.Float && t.lanes = 1

def is_bool (t : IrType) : Bool := t.lane = LaneKind.Bool && t.lanes = 1

def bits (t : IrType) : Nat := t.laneBits * t.lanes

/-- `Type::half_width`: `I16→I8 … I64→I32`, `F64→F32`, `B16→B8 …`,
none for the narrowest lane of each kind. -/
def half_width (t : IrType) : Option IrType :=
  match t.lane with
  | LaneKind.Float => if t.laneBits = 64 then some { t with laneBits := 32 } else none
  | _ => if 16 ≤ t.laneBits then some { t with laneBits := t.laneBits / 2 } else none

/-- `Type::half_vector`: halve the lane count of a vector. -/
def half_vector (t : IrType) : Option IrType :=
  if 2 ≤ t.lanes then some { t with lanes := t.lanes / 2 } else none

/-- `Type::int(bits)`, valid for the four scalar integer widths. -/
def intMk (bits : Nat) : Option IrType :=
  if bits = 8 || bits = 16 || bits = 32 || bits = 64 then
    some { lane := LaneKind.Int, laneBits := bits, lanes := 1 }
  else none

end IrType

def I32 : IrType := { lane := LaneKind.Int, laneBits := 32, lanes := 1 }
def I64 : IrType := { lane := LaneKind.Int, laneBits := 64, lanes := 1 }
def F32 : IrType := { lane := LaneKind.Float, laneBits := 32, lanes := 1 }
def F64 : IrType := { lane := LaneKind.Float, laneBits := 64, lanes := 1 }
def F64X2 : IrType := { lane := LaneKind.Float, laneBits := 64, lanes := 2 }
def I64X4 : IrType := { lane := LaneKind.Int, laneBits := 64, lanes := 4 }

/-! ## Abi parameters (`ir::AbiParam`) -/

inductive ArgumentExtension where
  | None
  | Uext
  | Sext
deriving DecidableEq, Repr

inductive ArgumentPurpose where
  | Normal
  | StructReturn
  | FramePointer
  | CalleeSaved
  | VMContext
  | SignatureId
  | StackLimit
deriving DecidableEq, Repr

/-- `ArgumentLoc`: register units are `Nat` (`RegUnit`), stack offsets
are `Int` (`i32` in the source). -/
inductive ArgumentLoc where
  | Unassigned
  | Reg (unit : Nat)
  | Stack (offset : Int)
deriving DecidableEq, Repr

def ArgumentLoc.is_assigned : ArgumentLoc → Bool
  | ArgumentLoc.Unassigned => false
  | _ => true

structure AbiParam where
  value_type : IrType
  purpose : ArgumentPurpose
  extension : ArgumentExtension
  location : ArgumentLoc
deriving DecidableEq, Repr

/-- `AbiParam::special_reg`. -/
def AbiParam.special_reg (ty : IrType) (purpose : ArgumentPurpose) (unit : Nat) : AbiParam :=
  { value_type := ty, purpose := purpose, extension := ArgumentExtension.None,
    location := ArgumentLoc.Reg unit }

/-! ## Calling conventions and flags -/

inductive CallConv where
  | Fast
  | Cold
  | SystemV
  | WindowsFastcall
  | BaldrdashSystemV
  | BaldrdashWindows
  | Probestack
deriving DecidableEq, Repr

namespace CallConv

/-- Modelled from the spec: the Windows-style conventions (the native
fastcall one and the embedder-extended Windows variant) share the
shadow-store and callee-saved rules. -/
def extends_windows_fastcall : CallConv → Bool
  | WindowsFastcall => true
  | BaldrdashWindows => true
  | _ => false

/-- Modelled from the spec: the two embedder-extended variants carry the
pinned special-purpose registers. -/
def extends_baldrdash : CallConv → Bool
  | BaldrdashSystemV => true
  | BaldrdashWindows => true
  | _ => false

end CallConv

/-- The shared/ISA settings read by this file: `enable_simd` drives the
vector branch of the classifier, the `probestack_*` flags and `is_pic`
drive the prologue, `baldrdash_prologue_words` the embedder frame. -/
structure Flags where
  enable_simd : Bool
  probestack_enabled : Bool
  probestack_size_log2 : Nat
  probestack_func_adjusts_sp : Bool
  is_pic : Bool
  probestack_colocated : Bool
  baldrdash_prologue_words : Nat
deriving DecidableEq, Repr

def defaultFlags : Flags :=
  { enable_simd := false, probestack_enabled := false, probestack_size_log2 := 12,
    probestack_func_adjusts_sp := false, is_pic := false, probestack_colocated := false,
    baldrdash_prologue_words := 0 }

/-! ## Register units

Modelled from the spec and the x86 register banks of `isa/x86/registers`
(not under `src/`): the GPR bank is units 0–15 in machine-encoding order
and the FPR bank follows at unit 16, so `FPR.unit i = 16 + i`. -/

def RU.rax : Nat := 0
def RU.rcx : Nat := 1
def RU.rdx : Nat := 2
def RU.rbx : Nat := 3
def RU.rsp : Nat := 4
def RU.rbp : Nat := 5
def RU.rsi : Nat := 6
def RU.rdi : Nat := 7
def RU.r8 : Nat := 8
def RU.r9 : Nat := 9
def RU.r10 : Nat := 10
def RU.r11 : Nat := 11
def RU.r12 : Nat := 12
def RU.r13 : Nat := 13
def RU.r14 : Nat := 14
def RU.r15 : Nat := 15

def FPR.unit (i : Nat) : Nat := 16 + i

/-- Argument registers for x86-64: rdi, rsi, rdx, rcx, r8, r9. -/
def ARG_GPRS : List Nat := [RU.rdi, RU.rsi, RU.rdx, RU.rcx, RU.r8, RU.r9]

/-- Return value registers: rax, rdx, rcx. -/
def RET_GPRS : List Nat := [RU.rax, RU.rdx, RU.rcx]

/-- Argument registers for windows fastcall: rcx, rdx, r8, r9. -/
def ARG_GPRS_WIN_FASTCALL_X64 : List Nat := [RU.rcx, RU.rdx, RU.r8, RU.r9]

/-- Return value register for windows fastcall: rax. -/
def RET_GPRS_WIN_FASTCALL_X64 : List Nat := [RU.rax]

/-! ## The argument classifier (`struct Args` and `Args::assign`) -/

inductive ValueConversion where
  | IntSplit
  | VectorSplit
  | IntBits
  | Sext (ty : IrType)
  | Uext (ty : IrType)
deriving DecidableEq, Repr

def ValueConversion.is_split : ValueConversion → Bool
  | ValueConversion.IntSplit => true
  | ValueConversion.VectorSplit => true
  | _ => false

/-- `ValueConversion::apply` from the abi driver module (panics are
`none`): splits halve the type, extensions replace it. -/
def ValueConversion.apply : ValueConversion → IrType → Option IrType
  | ValueConversion.IntSplit, t => t.half_width
  | ValueConversion.VectorSplit, t => t.half_vector
  | ValueConversion.IntBits, t => IrType.intMk t.bits
  | ValueConversion.Sext nty, _ => some nty
  | ValueConversion.Uext nty, _ => some nty

inductive ArgAction where
  | Assign (loc : ArgumentLoc)
  | Convert (conv : ValueConversion)
deriving DecidableEq, Repr

/-- The classifier cursor (`struct Args`). -/
structure Args where
  pointer_bytes : Nat
  pointer_bits : Nat
  pointer_type : IrType
  gpr : List Nat
  gpr_used : Nat
  fpr_limit : Nat
  fpr_used : Nat
  offset : Nat
  call_conv : CallConv
  shared_flags : Flags
deriving DecidableEq, Repr

/-- `Args::new`: the stack offset starts at the Windows shadow-store
bias (32) for fastcall-style conventions and at 0 otherwise. -/
def Args.new (bits : Nat) (gpr : List Nat) (fpr_limit : Nat) (call_conv : CallConv)
    (shared_flags : Flags) : Args :=
  { pointer_bytes := bits / 8
    pointer_bits := bits
    pointer_type := { lane := LaneKind.Int, laneBits := bits, lanes := 1 }
    gpr := gpr
    gpr_used := 0
    fpr_limit := fpr_limit
    fpr_used := 0
    offset := if call_conv.extends_windows_fastcall then 32 else 0
    call_conv := call_conv
    shared_flags := shared_flags }

/-- SpiderMonkey's `WasmTlsReg`: r14 on 64-bit, rsi on 32-bit. -/
def baldrdashVMContextReg (bits : Nat) : Nat := if bits = 64 then RU.r14 else RU.rsi

/-- SpiderMonkey's `WasmTableCallSigReg`: r10 on 64-bit, rcx on 32-bit. -/
def baldrdashSignatureIdReg (bits : Nat) : Nat := if bits = 64 then RU.r10 else RU.rcx

/-- Consume the next general-purpose argument slot. -/
def Args.bumpGpr (s : Args) : Args := { s with gpr_used := s.gpr_used + 1 }

/-- Consume the next float-register slot. -/
def Args.bumpFpr (s : Args) : Args := { s with fpr_used := s.fpr_used + 1 }

/-- Assign a stack location at the running offset and advance the
offset by one pointer width. -/
def Args.stackAssign (s : Args) : ArgAction × Args :=
  (ArgAction.Assign (ArgumentLoc.Stack (s.offset : Int)),
    { s with offset := s.offset + s.pointer_bytes })

/-- `Args::assign` (`impl ArgAssigner for Args`), translated branch by
branch; the `&mut self` mutation becomes an explicit output state. -/
def Args.assign (s : Args) (arg : AbiParam) : ArgAction × Args :=
  -- Vectors should stay in vector registers unless SIMD is not enabled--then they are split
  if arg.value_type.is_vector then
    if s.shared_flags.enable_simd then
      (ArgAction.Assign (ArgumentLoc.Reg (FPR.unit s.fpr_used)), s.bumpFpr)
    else
      (ArgAction.Convert ValueConversion.VectorSplit, s)
  -- Large integers and booleans are broken down to fit in a register.
  else if arg.value_type.is_float = false ∧ s.pointer_bits < arg.value_type.bits then
    (ArgAction.Convert ValueConversion.IntSplit, s)
  -- Small integers are extended to the size of a pointer register.
  else if arg.value_type.is_int ∧ arg.value_type.bits < s.pointer_bits ∧
      arg.extension = ArgumentExtension.Uext then
    (ArgAction.Convert (ValueConversion.Uext s.pointer_type), s)
  else if arg.value_type.is_int ∧ arg.value_type.bits < s.pointer_bits ∧
      arg.extension = ArgumentExtension.Sext then
    (ArgAction.Convert (ValueConversion.Sext s.pointer_type), s)
  -- Handle special-purpose arguments (SpiderMonkey pinned registers).
  else if arg.value_type.is_int ∧ s.call_conv.extends_baldrdash ∧
      arg.purpose = ArgumentPurpose.VMContext then
    (ArgAction.Assign (ArgumentLoc.Reg (baldrdashVMContextReg s.pointer_bits)), s)
  else if arg.value_type.is_int ∧ s.call_conv.extends_baldrdash ∧
      arg.purpose = ArgumentPurpose.SignatureId then
    (ArgAction.Assign (ArgumentLoc.Reg (baldrdashSignatureIdReg s.pointer_bits)), s)
  -- Try to use a GPR.
  else if arg.value_type.is_float = false ∧ s.gpr_used < s.gpr.length then
    (ArgAction.Assign (ArgumentLoc.Reg (s.gpr.getD s.gpr_used 0)), s.bumpGpr)
  -- Try to use an FPR; on windows fastcall the float index is the shared
  -- parameter index `gpr_used`, otherwise it is `fpr_used`.
  else if s.call_conv.extends_windows_fastcall then
    if arg.value_type.is_float ∧ s.gpr_used < s.fpr_limit then
      (ArgAction.Assign (ArgumentLoc.Reg (FPR.unit s.gpr_used)), s.bumpGpr)
    else
      -- Assign a stack location.
      s.stackAssign
  else
    if arg.value_type.is_float ∧ s.fpr_used < s.fpr_limit then
      (ArgAction.Assign (ArgumentLoc.Reg (FPR.unit s.fpr_used)), s.bumpFpr)
    else
      s.stackAssign

/-! ## The legalization driver (`crate::abi::legalize_args`)

Modelled from the spec (§4.1/§4.2): the driver module `crate::abi` is
not under `src/`.  The spec: "On Convert, the legalizer must re-present
the (possibly halved) value until Assign results; this may recurse",
pre-assigned arguments are left alone, and a split value is replaced by
exactly two half-width sub-values, each independently classified.
`legalize_one` handles one original argument to completion (the
conversion loop), `legalize_args` runs the list in order.  `none`
models a panic (a failing `half_width`/`half_vector` unwrap) or fuel
exhaustion. -/

def legalize_one : Nat → Args → AbiParam → Option (List AbiParam × Args)
  | fuel, s, p =>
    -- Leave the pre-assigned arguments alone.
    if p.location.is_assigned then some ([p], s)
    else
      match Args.assign s p with
      | (ArgAction.Assign loc, s1) => some ([{ p with location := loc }], s1)
      | (ArgAction.Convert conv, s1) =>
        match fuel with
        | 0 => none
        | f + 1 =>
          match conv.apply p.value_type with
          | none => none
          | some ty1 =>
            if conv.is_split then
              match legalize_one f s1 { p with value_type := ty1 } with
              | none => none
              | some (l1, s2) =>
                match legalize_one f s2 { p with value_type := ty1 } with
                | none => none
                | some (l2, s3) => some (l1 ++ l2, s3)
            else
              legalize_one f s1 { p with value_type := ty1 }

def legalize_args (fuel : Nat) (s : Args) : List AbiParam → Option (List AbiParam × Args)
  | [] => some ([], s)
  | p :: rest =>
      match legalize_one fuel s p with
      | none => none
      | some (l1, s1) =>
        match legalize_args fuel s1 rest with
        | none => none
        | some (l2, s2) => some (l1 ++ l2, s2)

/-- One unfolding of `legalize_one` (stated once so proofs can rewrite
a single step without looping on the recursive occurrences). -/
lemma legalize_one_eq (fuel : Nat) (s : Args) (p : AbiParam) :
    legalize_one fuel s p =
      (if p.location.is_assigned then some ([p], s)
      else
        match Args.assign s p with
        | (ArgAction.Assign loc, s1) => some ([{ p with location := loc }], s1)
        | (ArgAction.Convert conv, s1) =>
          match fuel with
          | 0 => none
          | f + 1 =>
            match conv.apply p.value_type with
            | none => none
            | some ty1 =>
              if conv.is_split then
                match legalize_one f s1 { p with value_type := ty1 } with
                | none => none
                | some (l1, s2) =>
                  match legalize_one f s2 { p with value_type := ty1 } with
                  | none => none
                  | some (l2, s3) => some (l1 ++ l2, s3)
              else
                legalize_one f s1 { p with value_type := ty1 }) := by
  rw [legalize_one]

/-! ## The return-register requirement estimator
(`num_return_registers_required`) -/

/-- The "infinite" register pool of the estimator: 128 copies of `rax`
and a `usize::MAX` float limit. -/
def ESTIMATOR_GPRS : List Nat := List.replicate 128 RU.rax

def USIZE_MAX : Nat := 2 ^ 64 - 1

/-- The inner `for _ in 1..split_factor` loop: call `assign` once per
remaining split piece, accepting an assignment or an extension
conversion and panicking (`none`) on anything else. -/
def estimate_inner : Nat → Args → AbiParam → Option Args
  | 0, a, _ => some a
  | n + 1, a, p =>
    match Args.assign a p with
    | (ArgAction.Assign _, a1) => estimate_inner n a1 p
    | (ArgAction.Convert ValueConversion.IntBits, a1) => estimate_inner n a1 p
    | (ArgAction.Convert (ValueConversion.Sext _), a1) => estimate_inner n a1 p
    | (ArgAction.Convert (ValueConversion.Uext _), a1) => estimate_inner n a1 p
    | _ => none

/-- The outer `loop` of the estimator: split until the (cloned) value
fits, then add `split_factor` registers of the value's class.  Returns
the updated simulated assigner and the (gpr, fpr) increments. -/
def estimate_loop : Nat → Args → AbiParam → Nat → Option (Args × Nat × Nat)
  | fuel, a, p, split_factor =>
    match Args.assign a p with
    | (ArgAction.Convert ValueConversion.IntSplit, a1) =>
      match fuel with
      | 0 => none
      | f + 1 =>
        match p.value_type.half_width with
        | none => none
        | some ty1 => estimate_loop f a1 { p with value_type := ty1 } (split_factor * 2)
    | (ArgAction.Convert ValueConversion.VectorSplit, a1) =>
      match fuel with
      | 0 => none
      | f + 1 =>
        match p.value_type.half_vector with
        | none => none
        | some ty1 => estimate_loop f a1 { p with value_type := ty1 } (split_factor * 2)
    | (ArgAction.Assign (ArgumentLoc.Reg _), a1)
    | (ArgAction.Convert ValueConversion.IntBits, a1)
    | (ArgAction.Convert (ValueConversion.Sext _), a1)
    | (ArgAction.Convert (ValueConversion.Uext _), a1) =>
      match estimate_inner (split_factor - 1) a1 p with
      | none => none
      | some a2 =>
        some (a2, if p.value_type.is_float then (0, split_factor) else (split_factor, 0))
    | (ArgAction.Assign _, _) => none

/-- The per-return-list fold of `num_return_registers_required`:
already-register-assigned returns are counted directly, non-register
assigned ones are skipped, unassigned ones are simulated. -/
def estimate_go : Args → List AbiParam → Nat → Nat → Nat → Option (Nat × Nat)
  | _, [], _, g, f => some (g, f)
  | a, p :: rest, fuel, g, f =>
    match p.location with
    | ArgumentLoc.Reg _ =>
      if p.value_type.is_float then estimate_go a rest fuel g (f + 1)
      else estimate_go a rest fuel (g + 1) f
    | ArgumentLoc.Stack _ => estimate_go a rest fuel g f
    | ArgumentLoc.Unassigned =>
      match estimate_loop fuel a p 1 with
      | none => none
      | some (a1, dg, df) => estimate_go a1 rest fuel (g + dg) (f + df)

/-- `num_return_registers_required`: simulate classification of the
return list against the unbounded pool and report the (gpr, fpr)
requirement. -/
def num_return_registers_required (fuel : Nat) (word_bit_size : Nat) (call_conv : CallConv)
    (shared_flags : Flags) (return_params : List AbiParam) : Option (Nat × Nat) :=
  estimate_go (Args.new word_bit_size ESTIMATOR_GPRS USIZE_MAX call_conv shared_flags)
    return_params fuel 0 0

/-! ## Signatures and `legalize_signature` -/

structure Signature where
  params : List AbiParam
  returns : List AbiParam
  call_conv : CallConv
deriving DecidableEq, Repr

/-- Modelled from the spec ("Multi-return handling", §4.2) and the
`ir::Signature` helper not under `src/`: a signature is multi-return
when more than one of its returns has `Normal` purpose. -/
def Signature.is_multi_return (sig : Signature) : Bool :=
  1 < (sig.returns.filter (fun r => r.purpose = ArgumentPurpose.Normal)).length

inductive PointerWidth where
  | U16
  | U32
  | U64
deriving DecidableEq, Repr

/-- The 32- or 64-bit word size picked by `legalize_signature` (the
16-bit case panics before this is read). -/
def widthBits (width : PointerWidth) : Nat :=
  if width = PointerWidth.U32 then 32 else 64

/-- The parameter assigner built by `legalize_signature`: no argument
registers on 32-bit, the fastcall or System V tables on 64-bit. -/
def paramsAssigner (width : PointerWidth) (call_conv : CallConv) (shared_flags : Flags) : Args :=
  if width = PointerWidth.U32 then
    Args.new 32 [] 0 call_conv shared_flags
  else if call_conv.extends_windows_fastcall then
    Args.new 64 ARG_GPRS_WIN_FASTCALL_X64 4 call_conv shared_flags
  else
    Args.new 64 ARG_GPRS 8 call_conv shared_flags

/-- The return-register table: fastcall only returns in rax/xmm0. -/
def retRegsOf (call_conv : CallConv) : List Nat :=
  if call_conv.extends_windows_fastcall then RET_GPRS_WIN_FASTCALL_X64 else RET_GPRS

def retFprLimitOf (call_conv : CallConv) : Nat :=
  if call_conv.extends_windows_fastcall then 1 else 2

/-- The return assigner built by `legalize_signature`. -/
def retsAssigner (width : PointerWidth) (call_conv : CallConv) (shared_flags : Flags) : Args :=
  Args.new (widthBits width) (retRegsOf call_conv) (retFprLimitOf call_conv)
    call_conv shared_flags

/-- The struct-return `AbiParam` the injection builds (for both the
injected parameter and the injected return value): pointer-typed,
unassigned, `StructReturn` purpose. -/
def sretTemplate (bits : Nat) : AbiParam :=
  { value_type := { lane := LaneKind.Int, laneBits := bits, lanes := 1 },
    purpose := ArgumentPurpose.StructReturn,
    extension := ArgumentExtension.None, location := ArgumentLoc.Unassigned }

/-- The `sig.is_multi_return() && { … estimator … }` decision:
`some true` when struct-return injection fires, `none` on estimator failure. -/
def injectionFires (fuel : Nat) (width : PointerWidth) (shared_flags : Flags)
    (sig : Signature) : Option Bool :=
  if sig.is_multi_return then
    match num_return_registers_required fuel (widthBits width) sig.call_conv shared_flags
        sig.returns with
    | none => none
    | some gf => some (decide ((retRegsOf sig.call_conv).length < gf.1) ||
        decide (retFprLimitOf sig.call_conv < gf.2))
  else some false

/-- The body of `legalize_signature` after the pointer-width dispatch
(the 16-bit case panics before reaching it). -/
def legalize_signature_core (fuel : Nat) (width : PointerWidth) (shared_flags : Flags)
    (sig : Signature) : Option Signature :=
    match injectionFires fuel width shared_flags sig with
    | none => none
    | some true =>
        -- We're using the first register for the return pointer parameter.
        match Args.assign (paramsAssigner width sig.call_conv shared_flags)
            (sretTemplate (widthBits width)) with
        | (ArgAction.Assign (ArgumentLoc.Reg reg), args1) =>
          -- We're using the first return register for the return pointer.
          match Args.assign (retsAssigner width sig.call_conv shared_flags)
              (sretTemplate (widthBits width)) with
          | (ArgAction.Assign (ArgumentLoc.Reg reg2), rets1) =>
            match legalize_args fuel args1 (sig.params ++
              [{ sretTemplate (widthBits width) with location := ArgumentLoc.Reg reg }]) with
            | none => none
            | some (params2, _) =>
              match legalize_args fuel rets1 ((sig.returns ++
                [{ sretTemplate (widthBits width) with location := ArgumentLoc.Reg reg2 }]).filter
                  (fun r => r.location.is_assigned)) with
              | none => none
              | some (returns2, _) =>
                some { params := params2, returns := returns2, call_conv := sig.call_conv }
          | _ => none     -- unreachable: return pointer should get a register
        | _ => none       -- unreachable: return pointer should get a register
    | some false =>
        match legalize_args fuel (paramsAssigner width sig.call_conv shared_flags)
            sig.params with
        | none => none
        | some (params2, _) =>
          match legalize_args fuel (retsAssigner width sig.call_conv shared_flags)
              sig.returns with
          | none => none
          | some (returns2, _) =>
            some { params := params2, returns := returns2, call_conv := sig.call_conv }

/-- `legalize_signature`.  `none` models the `panic` on 16-bit pointers,
the `unreachable` arms of struct-return injection and the panics of the
estimator, besides fuel exhaustion.  The `_current` flag of the source
is unused there and omitted. -/
def legalize_signature (fuel : Nat) (width : PointerWidth) (shared_flags : Flags)
    (sig : Signature) : Option Signature :=
  match width with
  | PointerWidth.U16 => none
  | _ => legalize_signature_core fuel width shared_flags sig

/-! ## Register sets (`regalloc::RegisterSet`)

Modelled from the spec ("set operations over machine registers",
a collaborator not under `src/`): the set of available units, with the
guarded `free` insertions the tracker performs and unit-ordered
iteration over the GPR bank. -/

abbrev RSet := List Nat

def RSet.emptySet : RSet := ([] : List Nat)

def RSet.is_avail (s : RSet) (r : Nat) : Bool := decide (r ∈ s)

/-- Guarded `free`: the tracker only frees a unit it has not freed yet. -/
def RSet.freeIfNew (s : RSet) (r : Nat) : RSet :=
  if RSet.is_avail s r then s else r :: s

def RSet.intersect (s t : RSet) : RSet := List.filter (fun r => RSet.is_avail t r) s

/-- `iter(GPR)`: the available units of the 16-unit GPR bank in unit
order. -/
def RSet.iterGPR (s : RSet) : List Nat := (List.range 16).filter (fun r => RSet.is_avail s r)

/-! ## Functions (`ir::Function`), reduced to what this file reads:
the signature, the value-location map, the instruction layout (only
regmove/regfill destinations and return opcodes matter here) and the
stack slots. -/

inductive ValueLoc where
  | Unassigned
  | Reg (unit : Nat)
  | Stack (slot : Nat)
deriving DecidableEq, Repr

inductive BodyInst where
  | RegMove (dst : Nat)
  | RegFill (dst : Nat)
  | Ret
  | Other
deriving DecidableEq, Repr

def BodyInst.is_return : BodyInst → Bool
  | BodyInst.Ret => true
  | _ => false

def BodyInst.moveFillDst : BodyInst → Option Nat
  | BodyInst.RegMove d => some d
  | BodyInst.RegFill d => some d
  | _ => none

inductive StackSlotKind where
  | IncomingArg
  | Other
deriving DecidableEq, Repr

structure StackSlotData where
  kind : StackSlotKind
  size : Nat
  offset : Option Int
deriving DecidableEq, Repr

structure Func where
  signature : Signature
  locations : List ValueLoc
  ebbs : List (List BodyInst)
  stack_slots : List StackSlotData
deriving DecidableEq, Repr

/-! ## The callee-saved register tracker -/

/-- `callee_saved_gprs`: the convention's static callee-saved list for
the pointer width (`none` models the 16-bit panic). -/
def callee_saved_gprs (width : PointerWidth) (call_conv : CallConv) : Option (List Nat) :=
  match width with
  | PointerWidth.U16 => none
  | PointerWidth.U32 => some [RU.rbx, RU.rsi, RU.rdi]
  | PointerWidth.U64 =>
    if call_conv.extends_windows_fastcall then
      some [RU.rbx, RU.rdi, RU.rsi, RU.r12, RU.r13, RU.r14, RU.r15]
    else
      some [RU.rbx, RU.r12, RU.r13, RU.r14, RU.r15]

/-- `callee_saved_gprs_used`: free every register any value location
uses, add the destinations of regmove/regfill instructions, intersect
with the convention's callee-saved list. -/
def callee_saved_gprs_used (width : PointerWidth) (func : Func) : Option RSet :=
  match callee_saved_gprs width func.signature.call_conv with
  | none => none
  | some csl =>
    let all_callee_saved : RSet := csl.foldl RSet.freeIfNew RSet.emptySet
    let used0 : RSet := func.locations.foldl
      (fun acc loc => match loc with
        | ValueLoc.Reg ru => RSet.freeIfNew acc ru
        | _ => acc) RSet.emptySet
    let used1 : RSet := func.ebbs.foldl
      (fun acc ebb => ebb.foldl
        (fun acc2 inst => match inst.moveFillDst with
          | some dst => RSet.freeIfNew acc2 dst
          | none => acc2) acc) used0
    some (RSet.intersect used1 all_callee_saved)

/-! ## The prologue/epilogue synthesizer

The inserted instruction sequences are modelled as lists of abstract
instructions; cursor insertion becomes list construction in program
order.  The probestack call is one instruction carrying the frame size
and whether the callee itself adjusts the stack pointer (semantics of
the external probestack routine, from the spec §4.5). -/

inductive IntCC where
  | UnsignedGreaterThanOrEqual
deriving DecidableEq, Repr

inductive TrapCode where
  | StackOverflow
deriving DecidableEq, Repr

inductive PInst where
  | Push (reg : Nat)
  | CopySpecial (src dst : Nat)
  | Copy (dstReg : Nat)
  | IaddImm (reg : Nat) (imm : Int)
  | IfcmpSp (reg : Nat)
  | Trapif (cc : IntCC) (code : TrapCode)
  | Iconst (reg : Nat) (imm : Int)
  | FuncAddr (reg : Nat)
  | ProbeCall (indirect : Bool) (size : Int) (adjustsSp : Bool)
  | AdjustSpDownImm (imm : Int)
  | AdjustSpDownVal (size : Int)
  | AdjustSpUpImm (imm : Int)
  | Pop (reg : Nat)
deriving DecidableEq, Repr

/-- `insert_stack_check`: copy the limit into rax, add the reserved
frame size, compare with the stack pointer, trap on unsigned ≥. -/
def insert_stack_check (stack_size : Int) : List PInst :=
  [PInst.Copy RU.rax, PInst.IaddImm RU.rax stack_size, PInst.IfcmpSp RU.rax,
   PInst.Trapif IntCC.UnsignedGreaterThanOrEqual TrapCode.StackOverflow]

/-- `insert_common_prologue`: the check (when a positive local frame and
a stack-limit parameter are both present), the frame-pointer push and
copy, one push per tracked callee-saved register, then the frame
allocation (plain decrement, or an out-of-line probe for large frames
when probing is enabled). -/
def insert_common_prologue (stack_size : Int) (csrs : List Nat) (has_stack_limit : Bool)
    (word_size : Nat) (flags : Flags) (width : PointerWidth) : List PInst :=
  (if 0 < stack_size ∧ has_stack_limit then
    insert_stack_check (((csrs.length + 1 + 1) * word_size : Nat) : Int)
  else []) ++
  [PInst.Push RU.rbp, PInst.CopySpecial RU.rsp RU.rbp] ++
  csrs.map PInst.Push ++
  (if 0 < stack_size then
    if flags.probestack_enabled ∧ ((2 : Int) ^ flags.probestack_size_log2) < stack_size then
      [PInst.Iconst RU.rax stack_size] ++
      (if flags.is_pic = false ∧ width = PointerWidth.U64 ∧ flags.probestack_colocated = false
       then [PInst.FuncAddr RU.r11,
             PInst.ProbeCall true stack_size flags.probestack_func_adjusts_sp]
       else [PInst.ProbeCall false stack_size flags.probestack_func_adjusts_sp]) ++
      (if flags.probestack_func_adjusts_sp then []
       else [PInst.AdjustSpDownVal stack_size])
    else
      [PInst.AdjustSpDownImm stack_size]
  else [])

/-- `insert_common_epilogue`, as the instruction sequence that ends up
before the return instruction: the local-frame increment, then the
pops.  The cursor steps backward after each pop, so the callee-saved
pops appear in reverse tracker order and the frame-pointer pop —
emitted first — ends up last, directly before the return. -/
def insert_common_epilogue (stack_size : Int) (csrs : List Nat) : List PInst :=
  (if 0 < stack_size then [PInst.AdjustSpUpImm stack_size] else []) ++
  (csrs.map PInst.Pop).reverse ++
  [PInst.Pop RU.rbp]

/-- `insert_common_epilogues`: one epilogue per block whose last
instruction is a return. -/
def insert_common_epilogues (stack_size : Int) (csrs : List Nat) (ebbs : List (List BodyInst)) :
    List (List PInst) :=
  ebbs.filterMap (fun ebb =>
    match ebb.getLast? with
    | some inst => if inst.is_return then some (insert_common_epilogue stack_size csrs) else none
    | none => none)

/-- Stack-pointer effect of one inserted instruction, in bytes (the
probestack callee decrements by the frame size when it adjusts sp
itself). -/
def PInst.spDelta (word_size : Nat) : PInst → Int
  | PInst.Push _ => -(word_size : Int)
  | PInst.Pop _ => (word_size : Int)
  | PInst.AdjustSpDownImm n => -n
  | PInst.AdjustSpDownVal n => -n
  | PInst.AdjustSpUpImm n => n
  | PInst.ProbeCall _ size adjusts => if adjusts then -size else 0
  | _ => 0

/-- Semantics of `trapif` on the flags of `ifcmp_sp x`: the flags
compare `x` (left) with the stack pointer (right), so the unsigned-≥
trap fires when `x ≥ sp`.  Modelled from the IR condition-code
semantics (a collaborator not under `src/`); unsigned comparison of
addresses is modelled on `Int` values. -/
def trapifFires : IntCC → Int → Int → Bool
  | IntCC.UnsignedGreaterThanOrEqual, x, y => decide (y ≤ x)

/-- The runtime condition under which the inserted stack check traps:
threshold = limit + reserved size, and `trapif uge` fires on
`threshold ≥ sp`. -/
def stackCheckFires (stack_limit reserved sp : Int) : Bool :=
  trapifFires IntCC.UnsignedGreaterThanOrEqual (stack_limit + reserved) sp

/-! ## The per-convention prologue/epilogue passes -/

/-- Modelled from the spec (§6): the Stack Layout collaborator
`layout_stack(slots, alignment) → total_size` is not under `src/`; the
total frame size covers all slot sizes, rounded up to the alignment. -/
def layout_stack (slots : List StackSlotData) (align : Nat) : Option Nat :=
  some (((slots.map (fun s => s.size)).sum + (align - 1)) / align * align)

/-- The result of a prologue/epilogue pass: the augmented signature, the
entry-block prologue, the per-return-site epilogues, and the laid-out
frame size. -/
structure PEResult where
  signature : Signature
  prologue : List PInst
  epilogues : List (List PInst)
  total_stack_size : Nat
deriving DecidableEq, Repr

/-- `Signature.special_param`: is there a parameter with the given
special purpose? -/
def Signature.has_special_param (sig : Signature) (purpose : ArgumentPurpose) : Bool :=
  sig.params.any (fun p => p.purpose = purpose)

def PointerWidth.bits : PointerWidth → Nat
  | PointerWidth.U16 => 16
  | PointerWidth.U32 => 32
  | PointerWidth.U64 => 64

def PointerWidth.bytes (w : PointerWidth) : Nat := w.bits / 8

/-- `system_v_prologue_epilogue`. -/
def system_v_prologue_epilogue (width : PointerWidth) (flags : Flags) (func : Func) :
    Option PEResult :=
  let word_size := width.bytes
  let reg_type : IrType := { lane := LaneKind.Int, laneBits := width.bits, lanes := 1 }
  match callee_saved_gprs_used width func with
  | none => none
  | some csrs =>
    let csrList := RSet.iterGPR csrs
    let csr_stack_size := (csrList.length + 2) * word_size
    let slots := func.stack_slots ++
      [{ kind := StackSlotKind.IncomingArg, size := csr_stack_size,
         offset := some (-(csr_stack_size : Int)) }]
    match layout_stack slots 16 with
    | none => none
    | some total =>
      let local_stack_size : Int := (total : Int) - (csr_stack_size : Int)
      let fp_arg := AbiParam.special_reg reg_type ArgumentPurpose.FramePointer RU.rbp
      let csr_args := csrList.map
        (fun r => AbiParam.special_reg reg_type ArgumentPurpose.CalleeSaved r)
      let sig1 : Signature :=
        { params := func.signature.params ++ [fp_arg] ++ csr_args,
          returns := func.signature.returns ++ [fp_arg] ++ csr_args,
          call_conv := func.signature.call_conv }
      -- `layout.entry_block().expect("missing entry block")`
      if func.ebbs.isEmpty then none
      else
        some { signature := sig1,
               prologue := insert_common_prologue local_stack_size csrList
                 (sig1.has_special_param ArgumentPurpose.StackLimit) word_size flags width,
               epilogues := insert_common_epilogues local_stack_size csrList func.ebbs,
               total_stack_size := total }

/-- `fastcall_prologue_epilogue`: panics off 64-bit; reserves the
32-byte shadow store in front of the callee-saved area. -/
def fastcall_prologue_epilogue (width : PointerWidth) (flags : Flags) (func : Func) :
    Option PEResult :=
  if width ≠ PointerWidth.U64 then none
  else
    let word_size := width.bytes
    let reg_type : IrType := { lane := LaneKind.Int, laneBits := width.bits, lanes := 1 }
    match callee_saved_gprs_used width func with
    | none => none
    | some csrs =>
      let csrList := RSet.iterGPR csrs
      let csr_stack_size := (csrList.length + 2) * word_size
      let slots := func.stack_slots ++
        [{ kind := StackSlotKind.IncomingArg, size := csr_stack_size,
           offset := some (-(32 + (csr_stack_size : Int))) }]
      match layout_stack slots 16 with
      | none => none
      | some total =>
        let local_stack_size : Int := (total : Int) - (csr_stack_size : Int)
        let fp_arg := AbiParam.special_reg reg_type ArgumentPurpose.FramePointer RU.rbp
        let csr_args := csrList.map
          (fun r => AbiParam.special_reg reg_type ArgumentPurpose.CalleeSaved r)
        let sig1 : Signature :=
          { params := func.signature.params ++ [fp_arg] ++ csr_args,
            returns := func.signature.returns ++ [fp_arg] ++ csr_args,
            call_conv := func.signature.call_conv }
        if func.ebbs.isEmpty then none
        else
          some { signature := sig1,
                 prologue := insert_common_prologue local_stack_size csrList
                   (sig1.has_special_param ArgumentPurpose.StackLimit) word_size flags width,
                 epilogues := insert_common_epilogues local_stack_size csrList func.ebbs,
                 total_stack_size := total }

/-- `baldrdash_prologue_epilogue`: the embedder manages the frame — only
an incoming-arg slot is created and laid out. -/
def baldrdash_prologue_epilogue (width : PointerWidth) (flags : Flags) (func : Func) :
    Option PEResult :=
  let word_size := width.bytes
  let shadow_store_size : Nat :=
    if func.signature.call_conv.extends_windows_fastcall then 32 else 0
  let bytes := flags.baldrdash_prologue_words * word_size + shadow_store_size
  let slots := func.stack_slots ++
    [{ kind := StackSlotKind.IncomingArg, size := bytes, offset := some (-(bytes : Int)) }]
  match layout_stack slots 16 with
  | none => none
  | some total =>
    some { signature := func.signature, prologue := [], epilogues := [],
           total_stack_size := total }

/-- `prologue_epilogue`: dispatch on the calling convention; the
Probestack convention is unimplemented and panics. -/
def prologue_epilogue (width : PointerWidth) (flags : Flags) (func : Func) :
    Option PEResult :=
  match func.signature.call_conv with
  | CallConv.Fast => system_v_prologue_epilogue width flags func
  | CallConv.Cold => system_v_prologue_epilogue width flags func
  | CallConv.SystemV => system_v_prologue_epilogue width flags func
  | CallConv.WindowsFastcall => fastcall_prologue_epilogue width flags func
  | CallConv.BaldrdashSystemV => baldrdash_prologue_epilogue width flags func
  | CallConv.BaldrdashWindows => baldrdash_prologue_epilogue width flags func
  | CallConv.Probestack => none

/-! ## Observation helpers -/

/-- The register units assigned in a parameter list, in list order. -/
def regUnitsOf (l : List AbiParam) : List Nat :=
  l.filterMap (fun p => match p.location with
    | ArgumentLoc.Reg r => some r
    | _ => none)

/-- The stack offsets assigned in a parameter list, in list order. -/
def stackOffsOf (l : List AbiParam) : List Int :=
  l.filterMap (fun p => match p.location with
    | ArgumentLoc.Stack o => some o
    | _ => none)

/-- Entries assigned a register whose value type is not a scalar
float (counted as general-purpose by the estimator). -/
def isRegNonFloat (q : AbiParam) : Bool :=
  (match q.location with | ArgumentLoc.Reg _ => true | _ => false) && !q.value_type.is_float

/-- Entries assigned a register whose value type is a scalar float. -/
def isRegFloat (q : AbiParam) : Bool :=
  (match q.location with | ArgumentLoc.Reg _ => true | _ => false) && q.value_type.is_float

def cntNF (l : List AbiParam) : Nat := l.countP isRegNonFloat

def cntF (l : List AbiParam) : Nat := l.countP isRegFloat

def countSret (l : List AbiParam) : Nat :=
  l.countP (fun p => p.purpose = ArgumentPurpose.StructReturn)

/-- A `Normal`-purpose unassigned parameter of the given type — the
shape every argument and return value has before legalization. -/
def normalParam (t : IrType) : AbiParam :=
  { value_type := t, purpose := ArgumentPurpose.Normal,
    extension := ArgumentExtension.None, location := ArgumentLoc.Unassigned }

def simdFlags : Flags := { defaultFlags with enable_simd := true }

def Func.withConv (f : Func) (cc : CallConv) : Func :=
  { f with signature := { f.signature with call_conv := cc } }

/-! ## Concrete signatures used by scenario claims and counterexamples -/

def sigSixParams : Signature :=
  { params := List.replicate 6 (normalParam I64), returns := [normalParam I64],
    call_conv := CallConv.SystemV }

def sigEightParams : Signature :=
  { params := List.replicate 8 (normalParam I64), returns := [normalParam I64],
    call_conv := CallConv.SystemV }

set_option maxHeartbeats 2000000 in
set_option maxRecDepth 8000 in
/-- C8: six pointer-width integer parameters land in rdi, rsi, rdx, rcx,
r8, r9 in that order, the return in rax, and no stack
parameters; with eight parameters the last two go to the stack at
offsets 0 and 8 (one pointer width apart, from base offset 0). -/
theorem c8_system_v_scenarios :
    ((legalize_signature 10 PointerWidth.U64 defaultFlags sigSixParams).map
        (fun s => (s.params.map (fun p => p.location), s.returns.map (fun p => p.location))) =
      some ([ArgumentLoc.Reg RU.rdi, ArgumentLoc.Reg RU.rsi, ArgumentLoc.Reg RU.rdx,
             ArgumentLoc.Reg RU.rcx, ArgumentLoc.Reg RU.r8, ArgumentLoc.Reg RU.r9],
            [ArgumentLoc.Reg RU.rax]) ∧
      (legalize_signature 10 PointerWidth.U64 defaultFlags sigSixParams).map
        (fun s => stackOffsOf s.params) = some []) ∧
    ((legalize_signature 10 PointerWidth.U64 defaultFlags sigEightParams).map
        (fun s => (s.params.map (fun p => p.location), s.returns.map (fun p => p.location))) =
      some ([ArgumentLoc.Reg RU.rdi, ArgumentLoc.Reg RU.rsi, ArgumentLoc.Reg RU.rdx,
             ArgumentLoc.Reg RU.rcx, ArgumentLoc.Reg RU.r8, ArgumentLoc.Reg RU.r9,
             ArgumentLoc.Stack 0, ArgumentLoc.Stack 8],
            [ArgumentLoc.Reg RU.rax])) := by
  refine ⟨⟨?_, ?_⟩, ?_⟩ <;> rfl

/-- C10: the Probestack calling convention is unimplemented
(`prologue_epilogue` panics on it unconditionally), while Fast and Cold
are dispatched to exactly the System V prologue/epilogue path. -/
theorem c10_dispatch (width : PointerWidth) (flags : Flags) (func : Func) :
    prologue_epilogue width flags (func.withConv CallConv.Probestack) = none ∧
    prologue_epilogue width flags (func.withConv CallConv.Fast) =
      system_v_prologue_epilogue width flags (func.withConv CallConv.Fast) ∧
    prologue_epilogue width flags (func.withConv CallConv.Cold) =
      system_v_prologue_epilogue width flags (func.withConv CallConv.Cold) ∧
    prologue_epilogue width flags (func.withConv CallConv.SystemV) =
      system_v_prologue_epilogue width flags (func.withConv CallConv.SystemV) := by
  refine ⟨rfl, rfl, rfl, rfl⟩

/-- C2 (amended): the classifier sends every vector value to the next
float-register unit whenever SIMD is enabled — without consulting the
remaining float-register budget — and requests a vector split whenever
SIMD is disabled. -/
theorem c2_vector_branch (s : Args) (arg : AbiParam)
    (h : arg.value_type.is_vector = true) :
    Args.assign s arg =
      (if s.shared_flags.enable_simd then
        (ArgAction.Assign (ArgumentLoc.Reg (FPR.unit s.fpr_used)),
          { s with fpr_used := s.fpr_used + 1 })
      else
        (ArgAction.Convert ValueConversion.VectorSplit, s)) := by
  unfold Args.assign
  simp [h, Args.bumpFpr]

theorem c2_vector_branch_witness :
    Args.assign (Args.new 64 RET_GPRS 2 CallConv.SystemV simdFlags) (normalParam F64X2) =
      (ArgAction.Assign (ArgumentLoc.Reg 16),
        { Args.new 64 RET_GPRS 2 CallConv.SystemV simdFlags with fpr_used := 1 }) := by
  have h := c2_vector_branch (Args.new 64 RET_GPRS 2 CallConv.SystemV simdFlags)
    (normalParam F64X2) (by decide)
  simpa using h

set_option maxHeartbeats 2000000 in
set_option maxRecDepth 8000 in
/-- C2 counterexample: with SIMD enabled and the return float budget
(`fpr_limit = 2`) already exhausted, a third vector return is still
assigned a float register (`FPR.unit 2 = 18`) instead of the split the
claim requires — vectors are assigned past the float-register
budget. -/
theorem c2_counterexample :
    (legalize_args 10 (Args.new 64 RET_GPRS 2 CallConv.SystemV simdFlags)
        [normalParam F64X2, normalParam F64X2, normalParam F64X2]).map
      (fun r => r.1.map (fun p => p.location)) =
      some [ArgumentLoc.Reg 16, ArgumentLoc.Reg 17, ArgumentLoc.Reg 18] ∧
    (Args.new 64 RET_GPRS 2 CallConv.SystemV simdFlags).fpr_limit = 2 ∧
    FPR.unit 2 = 18 ∧
    Args.assign { Args.new 64 RET_GPRS 2 CallConv.SystemV simdFlags with fpr_used := 2 }
        (normalParam F64X2) ≠
      (ArgAction.Convert ValueConversion.VectorSplit,
        { Args.new 64 RET_GPRS 2 CallConv.SystemV simdFlags with fpr_used := 2 }) := by
  refine ⟨rfl, rfl, rfl, by decide⟩

/-! ## C9: the struct-return injection's `unreachable` arm is reachable
on 32-bit.

On a 32-bit target the parameter assigner has no argument registers at
all (`Args::new(bits, &[], 0, …)`), so when struct-return injection
fires the injected return pointer parameter is classified to a stack
slot and `legalize_signature` hits the
`unreachable!("return pointer should always get a register assignment")`
arm. -/

def sigFourI32Returns : Signature :=
  { params := [],
    returns := [normalParam I32, normalParam I32, normalParam I32, normalParam I32],
    call_conv := CallConv.SystemV }

set_option maxHeartbeats 2000000 in
set_option maxRecDepth 8000 in
/-- C9 failing input: four 32-bit integer returns on a 32-bit System V
target.  The estimator demands 4 > 3 general registers, injection
fires, and the injected struct-return parameter is classified to
`Stack 0` — the arm the source marks `unreachable` — so
`legalize_signature` panics (`none`). -/
theorem c9_unreachable_is_reachable :
    sigFourI32Returns.is_multi_return = true ∧
    num_return_registers_required 10 32 CallConv.SystemV defaultFlags
        sigFourI32Returns.returns = some (4, 0) ∧
    (retRegsOf CallConv.SystemV).length = 3 ∧
    Args.assign (paramsAssigner PointerWidth.U32 CallConv.SystemV defaultFlags)
        (sretTemplate 32) =
      (ArgAction.Assign (ArgumentLoc.Stack 0),
        { paramsAssigner PointerWidth.U32 CallConv.SystemV defaultFlags with offset := 4 }) ∧
    legalize_signature 10 PointerWidth.U32 defaultFlags sigFourI32Returns = none := by
  refine ⟨rfl, rfl, rfl, by decide, rfl⟩

/-! ## Prologue/epilogue balance -/

def pushesOf (l : List PInst) : List Nat :=
  l.filterMap (fun i => match i with | PInst.Push r => some r | _ => none)

def popsOf (l : List PInst) : List Nat :=
  l.filterMap (fun i => match i with | PInst.Pop r => some r | _ => none)

lemma pushesOf_append (a b : List PInst) : pushesOf (a ++ b) = pushesOf a ++ pushesOf b :=
  List.filterMap_append a b _

lemma popsOf_append (a b : List PInst) : popsOf (a ++ b) = popsOf a ++ popsOf b :=
  List.filterMap_append a b _

lemma pushesOf_check (c : Prop) [Decidable c] (v : Int) :
    pushesOf (if c then insert_stack_check v else []) = [] := by
  split <;> rfl

lemma pushesOf_map_push (csrs : List Nat) : pushesOf (csrs.map PInst.Push) = csrs := by
  induction csrs with
  | nil => rfl
  | cons x xs ih => simpa [pushesOf, List.filterMap_cons] using ih

/-- The prologue pushes the frame pointer and then each tracked
callee-saved register, in tracker order. -/
lemma pushesOf_prologue (stack_size : Int) (csrs : List Nat) (hsl : Bool) (w : Nat)
    (flags : Flags) (width : PointerWidth) :
    pushesOf (insert_common_prologue stack_size csrs hsl w flags width) =
      RU.rbp :: csrs := by
  unfold insert_common_prologue
  rw [pushesOf_append, pushesOf_append, pushesOf_append, pushesOf_check, pushesOf_map_push]
  have h2 : pushesOf [PInst.Push RU.rbp, PInst.CopySpecial RU.rsp RU.rbp] = [RU.rbp] := rfl
  rw [h2]
  split_ifs <;>
    simp [pushesOf, List.filterMap_append, List.filterMap_cons]

/-- The epilogue pops the callee-saved registers in reverse tracker
order and the frame pointer last. -/
lemma popsOf_epilogue (stack_size : Int) (csrs : List Nat) :
    popsOf (insert_common_epilogue stack_size csrs) = csrs.reverse ++ [RU.rbp] := by
  unfold insert_common_epilogue
  rw [popsOf_append, popsOf_append]
  have h1 : popsOf (if 0 < stack_size then [PInst.AdjustSpUpImm stack_size] else []) = [] := by
    split <;> rfl
  have h2 : ∀ l : List Nat, popsOf (l.map PInst.Pop) = l := by
    intro l
    induction l with
    | nil => rfl
    | cons x xs ih => simpa [popsOf, List.filterMap_cons] using ih
  rw [h1]
  have h3 : (csrs.map PInst.Pop).reverse = csrs.reverse.map PInst.Pop := by
    rw [List.map_reverse]
  rw [h3, h2]
  rfl

lemma spDelta_pushes (w : Nat) (l : List Nat) :
    ((l.map PInst.Push).map (PInst.spDelta w)).sum = -((w : Int) * l.length) := by
  induction l with
  | nil => simp
  | cons x xs ih =>
    simp only [List.map_cons, List.sum_cons, ih, PInst.spDelta, List.length_cons]
    push_cast
    ring

lemma spDelta_pops (w : Nat) (l : List Nat) :
    ((l.map PInst.Pop).map (PInst.spDelta w)).sum = (w : Int) * l.length := by
  induction l with
  | nil => simp
  | cons x xs ih =>
    simp only [List.map_cons, List.sum_cons, ih, PInst.spDelta, List.length_cons]
    push_cast
    ring

/-- Net stack-pointer effect of the prologue: the pushed words plus the
local frame allocation (via direct decrement or via the probe). -/
lemma spDelta_prologue (stack_size : Int) (csrs : List Nat) (hsl : Bool) (w : Nat)
    (flags : Flags) (width : PointerWidth) :
    ((insert_common_prologue stack_size csrs hsl w flags width).map (PInst.spDelta w)).sum =
      -(w : Int) * (csrs.length + 1) - (if 0 < stack_size then stack_size else 0) := by
  unfold insert_common_prologue
  rw [List.map_append, List.map_append, List.map_append, List.sum_append, List.sum_append,
    List.sum_append]
  have hcheck : ((if 0 < stack_size ∧ hsl = true then
      insert_stack_check (((csrs.length + 1 + 1) * w : Nat) : Int) else []).map
        (PInst.spDelta w)).sum = 0 := by
    split <;> simp [insert_stack_check, PInst.spDelta]
  have hpush : (([PInst.Push RU.rbp, PInst.CopySpecial RU.rsp RU.rbp]).map
      (PInst.spDelta w)).sum = -(w : Int) := by
    simp [PInst.spDelta]
  rw [hcheck, hpush, spDelta_pushes]
  split_ifs <;> simp_all [PInst.spDelta, List.map_append] <;> ring

/-- Net stack-pointer effect of one epilogue: the local frame increment
plus the popped words. -/
lemma spDelta_epilogue (stack_size : Int) (csrs : List Nat) (w : Nat) :
    ((insert_common_epilogue stack_size csrs).map (PInst.spDelta w)).sum =
      (w : Int) * (csrs.length + 1) + (if 0 < stack_size then stack_size else 0) := by
  unfold insert_common_epilogue
  rw [List.map_append, List.map_append, List.sum_append, List.sum_append]
  have h1 : ((if 0 < stack_size then [PInst.AdjustSpUpImm stack_size] else []).map
      (PInst.spDelta w)).sum = (if 0 < stack_size then stack_size else 0) := by
    split <;> simp [PInst.spDelta]
  have h2 : (((csrs.map PInst.Pop).reverse).map (PInst.spDelta w)).sum =
      (w : Int) * csrs.length := by
    rw [List.map_reverse, List.sum_reverse, spDelta_pops]
  rw [h1, h2]
  simp [PInst.spDelta]
  ring

/-- C4: in the common prologue/epilogue (used by the System V, Fast,
Cold and fastcall paths) the pushes of the prologue are the frame
pointer followed by the tracked callee-saved registers; each epilogue
pops exactly those registers in reverse order with the frame pointer
last; push and pop counts agree; and the net stack-pointer delta of
the prologue plus any one epilogue is zero. -/
theorem c4_prologue_epilogue_balance (stack_size : Int) (csrs : List Nat) (hsl : Bool)
    (w : Nat) (flags : Flags) (width : PointerWidth) :
    pushesOf (insert_common_prologue stack_size csrs hsl w flags width) = RU.rbp :: csrs ∧
    popsOf (insert_common_epilogue stack_size csrs) = csrs.reverse ++ [RU.rbp] ∧
    popsOf (insert_common_epilogue stack_size csrs) =
      (pushesOf (insert_common_prologue stack_size csrs hsl w flags width)).reverse ∧
    (popsOf (insert_common_epilogue stack_size csrs)).length =
      (pushesOf (insert_common_prologue stack_size csrs hsl w flags width)).length ∧
    ((insert_common_prologue stack_size csrs hsl w flags width).map (PInst.spDelta w)).sum +
      ((insert_common_epilogue stack_size csrs).map (PInst.spDelta w)).sum = 0 := by
  refine ⟨pushesOf_prologue _ _ _ _ _ _, popsOf_epilogue _ _, ?_, ?_, ?_⟩
  · rw [pushesOf_prologue, popsOf_epilogue, List.reverse_cons]
  · rw [pushesOf_prologue, popsOf_epilogue]
    simp
  · rw [spDelta_prologue, spDelta_epilogue]
    ring

/-! ## C3: the stack-limit check -/

/-- The trap instructions of an inserted sequence. -/
def trapsOf (l : List PInst) : List (IntCC × TrapCode) :=
  l.filterMap (fun i => match i with | PInst.Trapif cc tc => some (cc, tc) | _ => none)

lemma trapsOf_append (a b : List PInst) : trapsOf (a ++ b) = trapsOf a ++ trapsOf b :=
  List.filterMap_append a b _

/-- C3 (amended): the prologue inserts the stack check exactly when the
local stack size is positive and a stack-limit parameter is present
— when it does, the whole check sequence with threshold
`limit + (csr_count + 2) · word_size` is prepended and it contains the
single trap of the prologue; otherwise the prologue contains no trap
at all.  The inserted `trapif` fires when the *threshold is at or above
the stack pointer* (that is, the stack pointer is at or below the
threshold), not the other way around. -/
theorem c3_stack_check (stack_size : Int) (csrs : List Nat) (hsl : Bool) (w : Nat)
    (flags : Flags) (width : PointerWidth) :
    ((0 < stack_size ∧ hsl = true) →
      insert_common_prologue stack_size csrs hsl w flags width =
        insert_stack_check (((csrs.length + 2) * w : Nat) : Int) ++
          insert_common_prologue stack_size csrs false w flags width) ∧
    trapsOf (insert_common_prologue stack_size csrs hsl w flags width) =
      (if 0 < stack_size ∧ hsl = true then
        [(IntCC.UnsignedGreaterThanOrEqual, TrapCode.StackOverflow)]
      else []) ∧
    (∀ stack_limit sp,
      stackCheckFires stack_limit (((csrs.length + 2) * w : Nat) : Int) sp = true ↔
        sp ≤ stack_limit + ((csrs.length + 2) * w : Nat)) := by
  refine ⟨?_, ?_, ?_⟩
  · intro hc
    have harith : ((csrs.length + 1 + 1) * w : Nat) = ((csrs.length + 2) * w : Nat) := by ring
    unfold insert_common_prologue
    rw [if_pos hc, harith, if_neg (by simp : ¬(0 < stack_size ∧ false = true))]
    simp
  · unfold insert_common_prologue
    rw [trapsOf_append, trapsOf_append, trapsOf_append]
    split_ifs <;>
      simp [trapsOf, insert_stack_check, List.filterMap_append, List.filterMap_cons,
        List.filterMap_map]
  · intro stack_limit sp
    simp [stackCheckFires, trapifFires]

theorem c3_stack_check_witness :
    insert_common_prologue 16 [RU.rbx] true 8 defaultFlags PointerWidth.U64 =
      insert_stack_check 24 ++
        insert_common_prologue 16 [RU.rbx] false 8 defaultFlags PointerWidth.U64 ∧
    (stackCheckFires 0 24 0 = true ↔ (0 : Int) ≤ 0 + 24) := by
  have h := c3_stack_check 16 [RU.rbx] true 8 defaultFlags PointerWidth.U64
  refine ⟨?_, ?_⟩
  · have := h.1 ⟨by norm_num, rfl⟩
    simpa using this
  · simpa using h.2.2 0 0

/-- C3 counterexample: the claim says the check traps when the stack
pointer is *at or above* the threshold.  With limit 0 and reserved size
24 the threshold is 24; at stack pointer 0 (below the threshold) the
claim predicts no trap, but the generated check fires. -/
theorem c3_counterexample :
    stackCheckFires 0 24 0 = true ∧ ¬ ((0 : Int) ≥ 0 + 24) := by
  refine ⟨rfl, by norm_num⟩

/-! ## C5: callee-saved tracking -/

lemma is_avail_iff (s : RSet) (r : Nat) : RSet.is_avail s r = true ↔ r ∈ s := by
  simp [RSet.is_avail]

lemma mem_freeIfNew (s : RSet) (x r : Nat) : r ∈ RSet.freeIfNew s x ↔ r = x ∨ r ∈ s := by
  unfold RSet.freeIfNew
  split
  · rename_i hx
    rw [is_avail_iff] at hx
    constructor
    · exact Or.inr
    · rintro (rfl | hr) <;> [exact hx; exact hr]
  · simp [List.mem_cons]

lemma mem_foldl_free (l : List Nat) (init : RSet) (r : Nat) :
    r ∈ l.foldl RSet.freeIfNew init ↔ r ∈ l ∨ r ∈ init := by
  induction l generalizing init with
  | nil => simp
  | cons x xs ih =>
    simp only [List.foldl_cons, ih, mem_freeIfNew, List.mem_cons]
    tauto

lemma mem_foldl_locs (locs : List ValueLoc) (init : RSet) (r : Nat) :
    r ∈ locs.foldl
        (fun acc loc => match loc with
          | ValueLoc.Reg ru => RSet.freeIfNew acc ru
          | _ => acc) init ↔
      ValueLoc.Reg r ∈ locs ∨ r ∈ init := by
  induction locs generalizing init with
  | nil => simp
  | cons x xs ih =>
    cases x with
    | Unassigned => simp [ih]
    | Reg u =>
      simp only [List.foldl_cons, ih, mem_freeIfNew, List.mem_cons, ValueLoc.Reg.injEq]
      tauto
    | Stack s => simp [ih]

lemma mem_foldl_ebb (ebb : List BodyInst) (init : RSet) (r : Nat) :
    r ∈ ebb.foldl
        (fun acc2 inst => match inst.moveFillDst with
          | some dst => RSet.freeIfNew acc2 dst
          | none => acc2) init ↔
      (∃ i ∈ ebb, i.moveFillDst = some r) ∨ r ∈ init := by
  induction ebb generalizing init with
  | nil => simp
  | cons x xs ih =>
    simp only [List.foldl_cons]
    cases hx : x.moveFillDst with
    | none =>
      rw [ih]
      constructor
      · rintro (⟨i, hi, hir⟩ | h)
        · exact Or.inl ⟨i, List.mem_cons_of_mem _ hi, hir⟩
        · exact Or.inr h
      · rintro (⟨i, hi, hir⟩ | h)
        · rcases List.mem_cons.mp hi with rfl | hi
          · rw [hx] at hir
            cases hir
          · exact Or.inl ⟨i, hi, hir⟩
        · exact Or.inr h
    | some dst =>
      rw [ih]
      constructor
      · rintro (⟨i, hi, hir⟩ | h)
        · exact Or.inl ⟨i, List.mem_cons_of_mem _ hi, hir⟩
        · rw [mem_freeIfNew] at h
          rcases h with rfl | h
          · exact Or.inl ⟨x, List.mem_cons_self _ _, hx⟩
          · exact Or.inr h
      · rintro (⟨i, hi, hir⟩ | h)
        · rcases List.mem_cons.mp hi with rfl | hi
          · rw [hx] at hir
            rw [mem_freeIfNew]
            exact Or.inr (Or.inl (Option.some_inj.mp hir).symm)
          · exact Or.inl ⟨i, hi, hir⟩
        · rw [mem_freeIfNew]
          exact Or.inr (Or.inr h)

lemma mem_foldl_ebbs (ebbs : List (List BodyInst)) (init : RSet) (r : Nat) :
    r ∈ ebbs.foldl
        (fun acc ebb => ebb.foldl
          (fun acc2 inst => match inst.moveFillDst with
            | some dst => RSet.freeIfNew acc2 dst
            | none => acc2) acc) init ↔
      (∃ ebb ∈ ebbs, ∃ i ∈ ebb, i.moveFillDst = some r) ∨ r ∈ init := by
  induction ebbs generalizing init with
  | nil => simp
  | cons e es ih =>
    simp only [List.foldl_cons, ih, mem_foldl_ebb, List.mem_cons]
    constructor
    · rintro (⟨ebb, he, hi⟩ | ⟨hi | h⟩)
      · exact Or.inl ⟨ebb, Or.inr he, hi⟩
      · exact Or.inl ⟨e, Or.inl rfl, hi⟩
      · exact Or.inr h
    · rintro (⟨ebb, rfl | he, hi⟩ | h)
      · exact Or.inr (Or.inl hi)
      · exact Or.inl ⟨ebb, he, hi⟩
      · exact Or.inr (Or.inr h)

lemma mem_intersect (s t : RSet) (r : Nat) :
    r ∈ RSet.intersect s t ↔ r ∈ s ∧ r ∈ t := by
  simp [RSet.intersect, List.mem_filter, is_avail_iff]

/-- C5: the tracked callee-saved set is exactly the intersection of the
registers referenced anywhere — value locations plus regmove/regfill
destinations — with the convention's static callee-saved list for the
pointer width. -/
theorem c5_callee_saved_exact (width : PointerWidth) (func : Func) (csl : List Nat)
    (used : RSet) (r : Nat)
    (h1 : callee_saved_gprs width func.signature.call_conv = some csl)
    (h2 : callee_saved_gprs_used width func = some used) :
    RSet.is_avail used r = true ↔
      ((ValueLoc.Reg r ∈ func.locations ∨
          ∃ ebb ∈ func.ebbs, ∃ i ∈ ebb, i.moveFillDst = some r) ∧ r ∈ csl) := by
  unfold callee_saved_gprs_used at h2
  rw [h1] at h2
  simp only [Option.bind_eq_bind, Option.some_bind, Option.pure_def, Option.some_inj] at h2
  subst h2
  rw [is_avail_iff, mem_intersect, mem_foldl_ebbs, mem_foldl_locs, mem_foldl_free]
  constructor
  · rintro ⟨h1', h2'⟩
    refine ⟨?_, ?_⟩
    · rcases h1' with h | h | h
      · exact Or.inr h
      · exact Or.inl h
      · exact absurd h (by simp [RSet.emptySet])
    · rcases h2' with h | h
      · exact h
      · exact absurd h (by simp [RSet.emptySet])
  · rintro ⟨h | h, hc⟩
    · exact ⟨Or.inr (Or.inl h), Or.inl hc⟩
    · exact ⟨Or.inl h, Or.inl hc⟩

/-- Witness for C5: a 64-bit System V function whose locations use rbx
and rax and whose body regmoves into r12; the tracked set contains rbx
(location ∩ callee-saved), r12 (regmove ∩ callee-saved) and not rax. -/
def funcC5 : Func :=
  { signature := { params := [], returns := [], call_conv := CallConv.SystemV },
    locations := [ValueLoc.Reg RU.rbx, ValueLoc.Reg RU.rax],
    ebbs := [[BodyInst.RegMove RU.r12, BodyInst.Ret]],
    stack_slots := [] }

theorem c5_callee_saved_exact_witness :
    callee_saved_gprs PointerWidth.U64 funcC5.signature.call_conv =
      some [RU.rbx, RU.r12, RU.r13, RU.r14, RU.r15] ∧
    ((ValueLoc.Reg RU.rbx ∈ funcC5.locations ∨
        ∃ ebb ∈ funcC5.ebbs, ∃ i ∈ ebb, i.moveFillDst = some RU.rbx) ∧
      RU.rbx ∈ [RU.rbx, RU.r12, RU.r13, RU.r14, RU.r15]) := by
  refine ⟨rfl, ?_⟩
  have h := c5_callee_saved_exact PointerWidth.U64 funcC5
    [RU.rbx, RU.r12, RU.r13, RU.r14, RU.r15]
    (RSet.intersect (RSet.freeIfNew (RSet.freeIfNew (RSet.freeIfNew RSet.emptySet RU.rbx)
      RU.rax) RU.r12)
      (([RU.rbx, RU.r12, RU.r13, RU.r14, RU.r15] : List Nat).foldl RSet.freeIfNew
        RSet.emptySet))
    RU.rbx rfl (by decide)
  exact h.mp (by decide)

/-! ## Classifier run invariants

The register-availability window of a classifier state: the unconsumed
suffix of the GPR table, and the float-register units from the current
float index up (the shared `gpr_used` index under fastcall, `fpr_used`
otherwise).  Every register the classifier hands out is taken from this
window and removed from it, which yields the no-double-assignment
invariant. -/

def StaticPres (s s1 : Args) : Prop :=
  s1.gpr = s.gpr ∧ s1.fpr_limit = s.fpr_limit ∧ s1.call_conv = s.call_conv ∧
  s1.shared_flags = s.shared_flags ∧ s1.pointer_bits = s.pointer_bits ∧
  s1.pointer_bytes = s.pointer_bytes ∧ s1.pointer_type = s.pointer_type ∧
  s.gpr_used ≤ s1.gpr_used ∧ s.fpr_used ≤ s1.fpr_used ∧ s.offset ≤ s1.offset

lemma StaticPres.refl (s : Args) : StaticPres s s :=
  ⟨rfl, rfl, rfl, rfl, rfl, rfl, rfl, le_refl _, le_refl _, le_refl _⟩

lemma StaticPres.trans {s1 s2 s3 : Args} (h1 : StaticPres s1 s2) (h2 : StaticPres s2 s3) :
    StaticPres s1 s3 := by
  obtain ⟨a1, b1, c1, d1, e1, f1, g1, p1, q1, r1⟩ := h1
  obtain ⟨a2, b2, c2, d2, e2, f2, g2, p2, q2, r2⟩ := h2
  exact ⟨a2.trans a1, b2.trans b1, c2.trans c1, d2.trans d1, e2.trans e1, f2.trans f1,
    g2.trans g1, p1.trans p2, q1.trans q2, r1.trans r2⟩

lemma assign_staticPres (s : Args) (arg : AbiParam) :
    StaticPres s (Args.assign s arg).2 := by
  unfold Args.assign
  split_ifs <;>
    simp only [Args.bumpGpr, Args.bumpFpr, Args.stackAssign] <;>
    refine ⟨rfl, rfl, rfl, rfl, rfl, rfl, rfl, ?_, ?_, ?_⟩ <;>
    first
      | exact le_refl _
      | exact Nat.le_succ _
      | exact Nat.le_add_right _ _

def fprIdx (s : Args) : Nat :=
  if s.call_conv.extends_windows_fastcall then s.gpr_used else s.fpr_used

/-- Which running index the float-register window of a run tracks:
the shared parameter index `gpr_used` (`w = true`, the fastcall float
branch) or `fpr_used` (`w = false`, the vector branch and the System V
float branch).  A run is analysed with whichever index covers every
float-bank assignment it can make. -/
def fprIdxW (w : Bool) (s : Args) : Nat :=
  if w then s.gpr_used else s.fpr_used

def availReg (w : Bool) (s : Args) (r : Nat) : Prop :=
  (∃ i, s.gpr_used ≤ i ∧ i < s.gpr.length ∧ s.gpr.getD i 0 = r) ∨
  (∃ j, fprIdxW w s ≤ j ∧ r = 16 + j)

def GoodGpr (g : List Nat) : Prop := g.Nodup ∧ ∀ r ∈ g, r < 16

lemma availReg_iff_of_eqFields (w : Bool) {s s1 : Args} (hgpr : s1.gpr = s.gpr)
    (hgu : s1.gpr_used = s.gpr_used) (hfu : s1.fpr_used = s.fpr_used)
    (x : Nat) : availReg w s1 x ↔ availReg w s x := by
  unfold availReg fprIdxW
  rw [hgpr, hgu, hfu]

lemma getD_eq_getElem_of_lt {g : List Nat} {i : Nat} (hi : i < g.length) :
    g.getD i 0 = g[i] := by
  rw [List.getD_eq_getElem?_getD, List.getElem?_eq_getElem hi]
  rfl

lemma gpr_elem_lt {g : List Nat} (hg : GoodGpr g) {i : Nat} (hi : i < g.length) :
    g.getD i 0 < 16 := by
  rw [getD_eq_getElem_of_lt hi]
  exact hg.2 _ (List.getElem_mem hi)

/-- Postcondition of one `assign` step: a register taken from (and
removed from) the availability window, the next stack slot, or a
conversion request leaving the state untouched. -/
def AssignStep (w : Bool) (s : Args) (res : ArgAction × Args) : Prop :=
  (∃ r, res.1 = ArgAction.Assign (ArgumentLoc.Reg r) ∧ availReg w s r ∧
    ¬ availReg w res.2 r ∧
    (∀ x, availReg w res.2 x → availReg w s x) ∧ res.2.offset = s.offset) ∨
  (res = (ArgAction.Assign (ArgumentLoc.Stack (s.offset : Int)),
    { s with offset := s.offset + s.pointer_bytes })) ∨
  (∃ c, res = (ArgAction.Convert c, s))

/-- Consuming float index `k` hands out unit `16 + k`, fresh before and
consumed afterwards. -/
lemma assignStep_fpr (w : Bool) (s t : Args) (hg : GoodGpr s.gpr) (k : Nat)
    (hfi : fprIdxW w s = k) (hfi' : fprIdxW w t = k + 1)
    (hgpr : t.gpr = s.gpr) (hguge : s.gpr_used ≤ t.gpr_used) :
    availReg w s (16 + k) ∧ ¬ availReg w t (16 + k) ∧
      (∀ x, availReg w t x → availReg w s x) := by
  refine ⟨Or.inr ⟨k, le_of_eq hfi, rfl⟩, ?_, ?_⟩
  · rintro (⟨i, hgi, hi, hrei⟩ | ⟨j, hj, hrj⟩)
    · rw [hgpr] at hi hrei
      have := gpr_elem_lt hg (g := s.gpr) hi
      omega
    · rw [hfi'] at hj
      omega
  · rintro x (⟨i, hgi, hi, hrei⟩ | ⟨j, hj, hrj⟩)
    · rw [hgpr] at hi hrei
      exact Or.inl ⟨i, le_trans hguge hgi, hi, hrei⟩
    · refine Or.inr ⟨j, ?_, hrj⟩
      rw [hfi'] at hj
      rw [hfi]
      omega

/-- Consuming the general index hands out the next table register,
fresh before and consumed afterwards. -/
lemma assignStep_gpr (w : Bool) (s t : Args) (hg : GoodGpr s.gpr)
    (hlt : s.gpr_used < s.gpr.length)
    (hgu : t.gpr_used = s.gpr_used + 1) (hgpr : t.gpr = s.gpr)
    (hfige : fprIdxW w s ≤ fprIdxW w t) :
    availReg w s (s.gpr.getD s.gpr_used 0) ∧ ¬ availReg w t (s.gpr.getD s.gpr_used 0) ∧
      (∀ x, availReg w t x → availReg w s x) := by
  refine ⟨Or.inl ⟨s.gpr_used, le_refl _, hlt, rfl⟩, ?_, ?_⟩
  · rintro (⟨i, hgi, hi, hrei⟩ | ⟨j, hj, hrj⟩)
    · rw [hgpr] at hi hrei
      rw [hgu] at hgi
      rw [getD_eq_getElem_of_lt hi, getD_eq_getElem_of_lt hlt] at hrei
      have := (hg.1.getElem_inj_iff).mp hrei
      omega
    · have := gpr_elem_lt hg (g := s.gpr) hlt
      omega
  · rintro x (⟨i, hgi, hi, hrei⟩ | ⟨j, hj, hrj⟩)
    · rw [hgpr] at hi hrei
      rw [hgu] at hgi
      exact Or.inl ⟨i, Nat.le_of_succ_le hgi, hi, hrei⟩
    · exact Or.inr ⟨j, le_trans hfige hj, hrj⟩

/-- Branch analysis of one `assign` step: away from the embedder pinned
registers, every step satisfies `AssignStep` for a float-window index
`w` that covers the float-bank branches the value can take: `w = true`
(the shared fastcall index) excludes the vector branch, `w = false`
excludes the fastcall float branch. -/
lemma assign_cases (w : Bool) (s : Args) (arg : AbiParam)
    (hb : s.call_conv.extends_baldrdash = false)
    (hw1 : w = true → s.call_conv.extends_windows_fastcall = true)
    (hw2 : w = true → arg.value_type.is_vector = false ∨ s.shared_flags.enable_simd = false)
    (hw3 : w = false → s.call_conv.extends_windows_fastcall = false ∨
      arg.value_type.is_float = false)
    (hg : GoodGpr s.gpr) :
    AssignStep w s (Args.assign s arg) := by
  unfold Args.assign
  split_ifs with h1 h2 h3 h4 h5 h6 h7 h8 h9 h10 h11
  -- vector, simd on: the float window must be tracking fpr_used
  · cases w with
    | true =>
      rcases hw2 rfl with hv | hs
      · rw [h1] at hv
        cases hv
      · rw [h2] at hs
        cases hs
    | false =>
      have h := assignStep_fpr false s s.bumpFpr hg s.fpr_used rfl rfl rfl (le_refl _)
      exact Or.inl ⟨FPR.unit s.fpr_used, rfl, h.1, h.2.1, h.2.2, rfl⟩
  -- vector, simd off: split
  · exact Or.inr (Or.inr ⟨ValueConversion.VectorSplit, rfl⟩)
  -- int split
  · exact Or.inr (Or.inr ⟨ValueConversion.IntSplit, rfl⟩)
  -- uext
  · exact Or.inr (Or.inr ⟨ValueConversion.Uext s.pointer_type, rfl⟩)
  -- sext
  · exact Or.inr (Or.inr ⟨ValueConversion.Sext s.pointer_type, rfl⟩)
  -- baldrdash pins, excluded
  · rw [h6.2.1] at hb
    cases hb
  · rw [h7.2.1] at hb
    cases hb
  -- gpr
  · have h := assignStep_gpr w s s.bumpGpr hg h8.2 rfl rfl
      (by unfold fprIdxW Args.bumpGpr; split <;> simp)
    exact Or.inl ⟨s.gpr.getD s.gpr_used 0, rfl, h.1, h.2.1, h.2.2, rfl⟩
  -- fastcall float: the float window must be tracking gpr_used
  · cases w with
    | false =>
      rcases hw3 rfl with hf | hf
      · rw [h9] at hf
        cases hf
      · rw [h10.1] at hf
        cases hf
    | true =>
      have h := assignStep_fpr true s s.bumpGpr hg s.gpr_used rfl rfl rfl (Nat.le_succ _)
      exact Or.inl ⟨FPR.unit s.gpr_used, rfl, h.1, h.2.1, h.2.2, rfl⟩
  -- fastcall stack
  · exact Or.inr (Or.inl rfl)
  -- non-fastcall float: the float window must be tracking fpr_used
  · cases w with
    | true =>
      have := hw1 rfl
      rw [this] at h9
      exact absurd rfl h9
    | false =>
      have h := assignStep_fpr false s s.bumpFpr hg s.fpr_used rfl rfl rfl (le_refl _)
      exact Or.inl ⟨FPR.unit s.fpr_used, rfl, h.1, h.2.1, h.2.2, rfl⟩
  -- non-fastcall stack
  · exact Or.inr (Or.inl rfl)

/-- What a conversion request tells us: the state is untouched, a
vector split happens only for vectors with SIMD disabled, every other
conversion only for non-vectors, and the conversion is one of the four
the classifier issues. -/
lemma assign_convert_info (s : Args) (arg : AbiParam) (c : ValueConversion) (s1 : Args)
    (h : Args.assign s arg = (ArgAction.Convert c, s1)) :
    s1 = s ∧
    (c = ValueConversion.VectorSplit →
      arg.value_type.is_vector = true ∧ s.shared_flags.enable_simd = false) ∧
    (c ≠ ValueConversion.VectorSplit → arg.value_type.is_vector = false) ∧
    (c = ValueConversion.IntSplit ∨ c = ValueConversion.VectorSplit ∨
      c = ValueConversion.Uext s.pointer_type ∨ c = ValueConversion.Sext s.pointer_type) := by
  unfold Args.assign at h
  split_ifs at h with h1 h2 h3 h4 h5 h6 h7 h8 h9 h10 h11 <;>
    simp only [Prod.mk.injEq, Args.stackAssign] at h <;>
    obtain ⟨hc, hs⟩ := h
  · exact ArgAction.noConfusion hc
  · obtain rfl : c = ValueConversion.VectorSplit := by
      injection hc with h'
      exact h'.symm
    refine ⟨hs.symm, fun _ => ⟨h1, by simpa using h2⟩, fun hne => absurd rfl hne, ?_⟩
    exact Or.inr (Or.inl rfl)
  · obtain rfl : c = ValueConversion.IntSplit := by
      injection hc with h'
      exact h'.symm
    refine ⟨hs.symm, ?_, fun _ => by simpa using h1, Or.inl rfl⟩
    intro hvs
    exact ValueConversion.noConfusion hvs
  · obtain rfl : c = ValueConversion.Uext s.pointer_type := by
      injection hc with h'
      exact h'.symm
    refine ⟨hs.symm, ?_, fun _ => by simpa using h1, Or.inr (Or.inr (Or.inl rfl))⟩
    intro hvs
    exact ValueConversion.noConfusion hvs
  · obtain rfl : c = ValueConversion.Sext s.pointer_type := by
      injection hc with h'
      exact h'.symm
    refine ⟨hs.symm, ?_, fun _ => by simpa using h1, Or.inr (Or.inr (Or.inr rfl))⟩
    intro hvs
    exact ValueConversion.noConfusion hvs
  · exact ArgAction.noConfusion hc
  · exact ArgAction.noConfusion hc
  · exact ArgAction.noConfusion hc
  · exact ArgAction.noConfusion hc
  · exact ArgAction.noConfusion hc
  · exact ArgAction.noConfusion hc
  · exact ArgAction.noConfusion hc

lemma regUnitsOf_append (a b : List AbiParam) :
    regUnitsOf (a ++ b) = regUnitsOf a ++ regUnitsOf b :=
  List.filterMap_append a b _

lemma stackOffsOf_append (a b : List AbiParam) :
    stackOffsOf (a ++ b) = stackOffsOf a ++ stackOffsOf b :=
  List.filterMap_append a b _

/-- Invariant of a classifier run from state `s` to state `s1`
producing the entries `out`: state statics are preserved, every entry
is assigned, the handed-out registers are distinct and taken from the
availability window (which only shrinks), and the stack offsets form
the arithmetic progression that advances the running offset. -/
structure RunOk (w : Bool) (s : Args) (out : List AbiParam) (s1 : Args) : Prop where
  static : StaticPres s s1
  assigned : ∀ q ∈ out, q.location.is_assigned = true
  nodup : (regUnitsOf out).Nodup
  consumed : ∀ r ∈ regUnitsOf out, availReg w s r ∧ ¬ availReg w s1 r
  mono : ∀ x, availReg w s1 x → availReg w s x
  stack : ∃ k, stackOffsOf out =
      (List.range k).map (fun i => ((s.offset + i * s.pointer_bytes : Nat) : Int)) ∧
    s1.offset = s.offset + k * s.pointer_bytes

lemma runOk_nil (w : Bool) (s : Args) : RunOk w s [] s := by
  refine ⟨StaticPres.refl s, by simp, by simp [regUnitsOf], by simp [regUnitsOf],
    fun x h => h, ⟨0, by simp [stackOffsOf], by simp⟩⟩

lemma runOk_comp {w : Bool} {s s1 s2 : Args} {l1 l2 : List AbiParam}
    (h1 : RunOk w s l1 s1) (h2 : RunOk w s1 l2 s2) : RunOk w s (l1 ++ l2) s2 := by
  obtain ⟨st1, as1, nd1, co1, mo1, k1, sp1, so1⟩ := h1
  obtain ⟨st2, as2, nd2, co2, mo2, k2, sp2, so2⟩ := h2
  refine ⟨st1.trans st2, ?_, ?_, ?_, fun x hx => mo1 x (mo2 x hx), ?_⟩
  · intro q hq
    rcases List.mem_append.mp hq with hq | hq
    · exact as1 q hq
    · exact as2 q hq
  · rw [regUnitsOf_append]
    refine List.Nodup.append nd1 nd2 ?_
    intro r hr1 hr2
    exact (co1 r hr1).2 ((co2 r hr2).1)
  · rw [regUnitsOf_append]
    intro r hr
    rcases List.mem_append.mp hr with hr | hr
    · refine ⟨(co1 r hr).1, fun hx => (co1 r hr).2 (mo2 r hx)⟩
    · exact ⟨mo1 r (co2 r hr).1, (co2 r hr).2⟩
  · refine ⟨k1 + k2, ?_, ?_⟩
    · rw [stackOffsOf_append, sp1, sp2, List.range_add, List.map_append, List.map_map]
      congr 1
      have hb : s1.pointer_bytes = s.pointer_bytes := st1.2.2.2.2.2.1
      apply List.map_congr_left
      intro i _
      simp only [Function.comp_apply]
      rw [so1, hb]
      push_cast
      ring_nf
    · have hb : s1.pointer_bytes = s.pointer_bytes := st1.2.2.2.2.2.1
      rw [so2, so1, hb]
      ring
  
lemma RunOk.single_reg {w : Bool} {s s1 : Args} {q : AbiParam} {r : Nat}
    (hloc : q.location = ArgumentLoc.Reg r)
    (hst : StaticPres s s1)
    (hav : availReg w s r) (hcon : ¬ availReg w s1 r)
    (hmo : ∀ x, availReg w s1 x → availReg w s x)
    (hoff : s1.offset = s.offset) : RunOk w s [q] s1 := by
  refine ⟨hst, ?_, ?_, ?_, hmo, ⟨0, ?_, by simpa using hoff⟩⟩
  · intro p hp
    rcases List.mem_singleton.mp hp with rfl
    simp [hloc, ArgumentLoc.is_assigned]
  · simp [regUnitsOf, hloc, List.filterMap_cons]
  · intro x hx
    simp only [regUnitsOf, List.filterMap_cons, hloc, List.filterMap_nil] at hx
    rcases List.mem_singleton.mp hx with rfl
    exact ⟨hav, hcon⟩
  · simp [stackOffsOf, hloc, List.filterMap_cons]

lemma RunOk.single_stack {w : Bool} {s : Args} {q : AbiParam}
    (hloc : q.location = ArgumentLoc.Stack (s.offset : Int)) :
    RunOk w s [q] { s with offset := s.offset + s.pointer_bytes } := by
  refine ⟨⟨rfl, rfl, rfl, rfl, rfl, rfl, rfl, le_refl _, le_refl _, Nat.le_add_right _ _⟩,
    ?_, ?_, ?_, ?_, ⟨1, ?_, by simp⟩⟩
  · intro p hp
    rcases List.mem_singleton.mp hp with rfl
    simp [hloc, ArgumentLoc.is_assigned]
  · simp [regUnitsOf, hloc, List.filterMap_cons]
  · intro x hx
    simp [regUnitsOf, hloc, List.filterMap_cons] at hx
  · intro x hx
    exact (availReg_iff_of_eqFields w rfl rfl rfl x).mp hx
  · have h1 : List.range 1 = [0] := rfl
    simp [stackOffsOf, hloc, List.filterMap_cons, h1]

lemma half_width_lanes {t t' : IrType} (h : t.half_width = some t') : t'.lanes = t.lanes := by
  unfold IrType.half_width at h
  split at h <;> split at h <;> simp_all <;> rw [← h]

lemma intMk_lanes {b : Nat} {t' : IrType} (h : IrType.intMk b = some t') : t'.lanes = 1 := by
  unfold IrType.intMk at h
  split at h <;> simp_all
  rw [← h]

/-- Non-vectors stay non-vectors under `IntSplit` and `IntBits`. -/
lemma apply_not_vector {c : ValueConversion} {t t' : IrType}
    (h : ValueConversion.apply c t = some t')
    (hc : c = ValueConversion.IntSplit ∨ c = ValueConversion.IntBits)
    (ht : t.is_vector = false) : t'.is_vector = false := by
  rcases hc with rfl | rfl
  · unfold ValueConversion.apply at h
    have := half_width_lanes h
    simp only [IrType.is_vector] at ht ⊢
    rw [this]
    exact ht
  · unfold ValueConversion.apply at h
    have := intMk_lanes h
    simp only [IrType.is_vector]
    rw [this]
    simp

/-- `half_width` preserves the lane kind and count, hence `is_float`. -/
lemma half_width_float {t t' : IrType} (h : t.half_width = some t') :
    t'.is_float = t.is_float := by
  unfold IrType.half_width at h
  split at h <;> split at h <;>
    first
      | exact Option.noConfusion h
      | (obtain rfl := Option.some_inj.mp h
         simp_all [IrType.is_float])

/-- A vector (more than one lane) is never a scalar float. -/
lemma vector_not_float {t : IrType} (h : t.is_vector = true) : t.is_float = false := by
  unfold IrType.is_vector at h
  unfold IrType.is_float
  simp only [decide_eq_true_eq] at h
  simp only [Bool.and_eq_false_iff, decide_eq_false_iff_not]
  right
  omega

/-- A scalar integer is not a scalar float. -/
lemma is_int_not_float {t : IrType} (h : t.is_int = true) : t.is_float = false := by
  unfold IrType.is_int at h
  simp only [Bool.and_eq_true, decide_eq_true_eq] at h
  simp [IrType.is_float, h.1]

/-- The `Assign` half of one classifier step, as a one-entry run. -/
lemma runOk_of_assign (w : Bool) (s : Args) (p : AbiParam) (loc : ArgumentLoc) (st : Args)
    (hA : Args.assign s p = (ArgAction.Assign loc, st))
    (hb : s.call_conv.extends_baldrdash = false)
    (hw1 : w = true → s.call_conv.extends_windows_fastcall = true)
    (hw2 : w = true → p.value_type.is_vector = false ∨ s.shared_flags.enable_simd = false)
    (hw3 : w = false → s.call_conv.extends_windows_fastcall = false ∨
      p.value_type.is_float = false)
    (hg : GoodGpr s.gpr) :
    RunOk w s [{ p with location := loc }] st := by
  have step := assign_cases w s p hb hw1 hw2 hw3 hg
  rw [hA] at step
  have hst : StaticPres s st := by
    have h0 := assign_staticPres s p
    rw [hA] at h0
    exact h0
  rcases step with ⟨r, hact, hav, hcon, hmo, hoff⟩ | heq | ⟨c, heq⟩
  · simp only at hact
    injection hact with h'
    subst h'
    exact RunOk.single_reg rfl hst hav hcon hmo hoff
  · simp only [Prod.mk.injEq] at heq
    obtain ⟨hact, hstq⟩ := heq
    injection hact with h'
    subst h'
    subst hstq
    exact RunOk.single_stack rfl
  · simp only [Prod.mk.injEq] at heq
    exact absurd heq.1 (fun hh => ArgAction.noConfusion hh)

/-- The conversion loop of `legalize_one` preserves the run invariant:
every completed legalization of one unassigned value is a valid run,
for any float-window index `w` covering the branches the value (and
everything it converts into) can take. -/
lemma legalize_one_runOk (fuel : Nat) :
    ∀ (w : Bool) (s : Args) (p : AbiParam) (out : List AbiParam) (s1 : Args),
      legalize_one fuel s p = some (out, s1) →
      p.location = ArgumentLoc.Unassigned →
      s.call_conv.extends_baldrdash = false →
      (w = true → s.call_conv.extends_windows_fastcall = true) →
      (w = true → p.value_type.is_vector = false ∨ s.shared_flags.enable_simd = false) →
      (w = false → s.call_conv.extends_windows_fastcall = false ∨
        (p.value_type.is_float = false ∧ s.shared_flags.enable_simd = true)) →
      s.pointer_type.is_vector = false →
      s.pointer_type.is_float = false →
      GoodGpr s.gpr →
      RunOk w s out s1 := by
  induction fuel with
  | zero =>
    intro w s p out s1 h hun hb hw1 hw2 hw3 hpt hptf hg
    have hass : p.location.is_assigned = false := by rw [hun]; rfl
    rw [legalize_one_eq] at h
    simp only [hass, Bool.false_eq_true, if_false] at h
    split at h
    · rename_i loc st hA
      simp only [Option.some_inj, Prod.mk.injEq] at h
      obtain ⟨rfl, rfl⟩ := h.symm
      exact runOk_of_assign w s p loc st hA hb hw1 hw2
        (fun hw => (hw3 hw).imp id And.left) hg
    · exact Option.noConfusion h
  | succ f ih =>
    intro w s p out s1 h hun hb hw1 hw2 hw3 hpt hptf hg
    have hass : p.location.is_assigned = false := by rw [hun]; rfl
    rw [legalize_one_eq] at h
    simp only [hass, Bool.false_eq_true, if_false] at h
    split at h
    · rename_i loc st hA
      simp only [Option.some_inj, Prod.mk.injEq] at h
      obtain ⟨rfl, rfl⟩ := h.symm
      exact runOk_of_assign w s p loc st hA hb hw1 hw2
        (fun hw => (hw3 hw).imp id And.left) hg
    · rename_i conv st hA
      obtain ⟨rfl, hvsplit, hnvsplit, hkinds⟩ := assign_convert_info s p conv st hA
      have h' : (match conv.apply p.value_type with
        | none => (none : Option (List AbiParam × Args))
        | some ty1 =>
          if conv.is_split then
            match legalize_one f st { p with value_type := ty1 } with
            | none => none
            | some (l1, s2) =>
              match legalize_one f s2 { p with value_type := ty1 } with
              | none => none
              | some (l2, s3) => some (l1 ++ l2, s3)
          else
            legalize_one f st { p with value_type := ty1 }) = some (out, s1) := h
      clear h
      split at h'
      · exact Option.noConfusion h'
      · rename_i ty1 happ
        have hchildvec : ty1.is_vector = false ∨ st.shared_flags.enable_simd = false := by
          rcases hkinds with rfl | rfl | rfl | rfl
          · exact Or.inl (apply_not_vector happ (Or.inl rfl)
              (hnvsplit (fun hh => ValueConversion.noConfusion hh)))
          · exact Or.inr (hvsplit rfl).2
          · refine Or.inl ?_
            simp only [ValueConversion.apply, Option.some_inj] at happ
            rw [← happ]
            exact hpt
          · refine Or.inl ?_
            simp only [ValueConversion.apply, Option.some_inj] at happ
            rw [← happ]
            exact hpt
        have hw2c : w = true →
            ({ p with value_type := ty1 } : AbiParam).value_type.is_vector = false ∨
              st.shared_flags.enable_simd = false := fun _ => hchildvec
        have hw3c : w = false → st.call_conv.extends_windows_fastcall = false ∨
            (({ p with value_type := ty1 } : AbiParam).value_type.is_float = false ∧
              st.shared_flags.enable_simd = true) := by
          intro hwf
          rcases hw3 hwf with hf | ⟨hfl, hs⟩
          · exact Or.inl hf
          · refine Or.inr ⟨?_, hs⟩
            rcases hkinds with rfl | rfl | rfl | rfl
            · simp only [ValueConversion.apply] at happ
              rw [half_width_float happ]
              exact hfl
            · have := (hvsplit rfl).2
              rw [hs] at this
              exact Bool.noConfusion this
            · simp only [ValueConversion.apply, Option.some_inj] at happ
              rw [← happ]
              exact hptf
            · simp only [ValueConversion.apply, Option.some_inj] at happ
              rw [← happ]
              exact hptf
        split at h'
        · -- split conversion: both halves are legalized in sequence
          split at h'
          · exact Option.noConfusion h'
          · rename_i l1 sA hL1
            split at h'
            · exact Option.noConfusion h'
            · rename_i l2 sB hL2
              obtain ⟨rfl, rfl⟩ := (Prod.mk.injEq _ _ _ _).mp (Option.some_inj.mp h')
              have run1 := ih w st { p with value_type := ty1 } l1 sA hL1 hun hb
                hw1 hw2c hw3c hpt hptf hg
              have hstA : StaticPres st sA := run1.static
              have run2 := ih w sA { p with value_type := ty1 } l2 sB hL2 hun
                (by rw [hstA.2.2.1]; exact hb)
                (by rw [hstA.2.2.1]; exact hw1)
                (by rw [hstA.2.2.2.1]; exact hw2c)
                (by rw [hstA.2.2.1, hstA.2.2.2.1]; exact hw3c)
                (by rw [hstA.2.2.2.2.2.2.1]; exact hpt)
                (by rw [hstA.2.2.2.2.2.2.1]; exact hptf)
                (by rw [hstA.1]; exact hg)
              exact runOk_comp run1 run2
        · exact ih w st { p with value_type := ty1 } out s1 h' hun hb hw1 hw2c hw3c
            hpt hptf hg

lemma assign_loc_assigned (s : Args) (p : AbiParam) (loc : ArgumentLoc) (st : Args)
    (hA : Args.assign s p = (ArgAction.Assign loc, st)) : loc.is_assigned = true := by
  unfold Args.assign at hA
  split_ifs at hA <;>
    simp only [Prod.mk.injEq, Args.stackAssign] at hA <;>
    first
      | exact ArgAction.noConfusion hA.1
      | (obtain ⟨hact, _⟩ := hA
         injection hact with h'
         rw [← h']
         rfl)

/-- Every entry a completed legalization produces keeps the original
purpose and carries an assigned location (hypothesis-free). -/
lemma legalize_one_out (fuel : Nat) :
    ∀ (s : Args) (p : AbiParam) (out : List AbiParam) (s1 : Args),
      legalize_one fuel s p = some (out, s1) →
      ∀ q ∈ out, q.purpose = p.purpose ∧ q.location.is_assigned = true := by
  induction fuel with
  | zero =>
    intro s p out s1 h q hq
    rw [legalize_one_eq] at h
    split at h
    · rename_i hass
      simp only [Option.some_inj, Prod.mk.injEq] at h
      obtain ⟨rfl, rfl⟩ := h.symm
      rcases List.mem_singleton.mp hq with rfl
      exact ⟨rfl, hass⟩
    · split at h
      · rename_i loc st hA
        simp only [Option.some_inj, Prod.mk.injEq] at h
        obtain ⟨rfl, rfl⟩ := h.symm
        rcases List.mem_singleton.mp hq with rfl
        exact ⟨rfl, assign_loc_assigned s p loc st hA⟩
      · exact Option.noConfusion h
  | succ f ih =>
    intro s p out s1 h q hq
    rw [legalize_one_eq] at h
    split at h
    · rename_i hass
      simp only [Option.some_inj, Prod.mk.injEq] at h
      obtain ⟨rfl, rfl⟩ := h.symm
      rcases List.mem_singleton.mp hq with rfl
      exact ⟨rfl, hass⟩
    · split at h
      · rename_i loc st hA
        simp only [Option.some_inj, Prod.mk.injEq] at h
        obtain ⟨rfl, rfl⟩ := h.symm
        rcases List.mem_singleton.mp hq with rfl
        exact ⟨rfl, assign_loc_assigned s p loc st hA⟩
      · rename_i conv st hA
        have h' : (match conv.apply p.value_type with
          | none => (none : Option (List AbiParam × Args))
          | some ty1 =>
            if conv.is_split then
              match legalize_one f st { p with value_type := ty1 } with
              | none => none
              | some (l1, s2) =>
                match legalize_one f s2 { p with value_type := ty1 } with
                | none => none
                | some (l2, s3) => some (l1 ++ l2, s3)
            else
              legalize_one f st { p with value_type := ty1 }) = some (out, s1) := h
        clear h
        split at h'
        · exact Option.noConfusion h'
        · rename_i ty1 happ
          split at h'
          · split at h'
            · exact Option.noConfusion h'
            · rename_i l1 sA hL1
              split at h'
              · exact Option.noConfusion h'
              · rename_i l2 sB hL2
                obtain ⟨rfl, rfl⟩ := (Prod.mk.injEq _ _ _ _).mp (Option.some_inj.mp h')
                rcases List.mem_append.mp hq with hq | hq
                · exact ih st { p with value_type := ty1 } l1 sA hL1 q hq
                · exact ih sA { p with value_type := ty1 } l2 sB hL2 q hq
          · exact ih st { p with value_type := ty1 } out s1 h' q hq

lemma legalize_args_out (fuel : Nat) (ps : List AbiParam) :
    ∀ (s : Args) (out : List AbiParam) (s1 : Args),
      legalize_args fuel s ps = some (out, s1) →
      ∀ q ∈ out, (∃ p ∈ ps, q.purpose = p.purpose) ∧ q.location.is_assigned = true := by
  induction ps with
  | nil =>
    intro s out s1 h q hq
    simp only [legalize_args, Option.some_inj, Prod.mk.injEq] at h
    obtain ⟨rfl, rfl⟩ := h.symm
    cases hq
  | cons p rest ih =>
    intro s out s1 h q hq
    rw [legalize_args] at h
    split at h
    · exact Option.noConfusion h
    · rename_i l1 sA hL1
      split at h
      · exact Option.noConfusion h
      · rename_i l2 sB hL2
        obtain ⟨rfl, rfl⟩ := (Prod.mk.injEq _ _ _ _).mp (Option.some_inj.mp h)
        rcases List.mem_append.mp hq with hq | hq
        · obtain ⟨hp, hass⟩ := legalize_one_out fuel s p l1 sA hL1 q hq
          exact ⟨⟨p, List.mem_cons_self _ _, hp⟩, hass⟩
        · obtain ⟨⟨pp, hpp, hp⟩, hass⟩ := ih sA l2 sB hL2 q hq
          exact ⟨⟨pp, List.mem_cons_of_mem _ hpp, hp⟩, hass⟩

/-- Legalizing a list of already-assigned entries is the identity. -/
lemma legalize_args_id (fuel : Nat) (ps : List AbiParam) :
    ∀ (s : Args), (∀ p ∈ ps, p.location.is_assigned = true) →
      legalize_args fuel s ps = some (ps, s) := by
  induction ps with
  | nil => intro s _; rfl
  | cons p rest ih =>
    intro s hall
    have h1 : legalize_one fuel s p = some ([p], s) := by
      rw [legalize_one_eq]
      rw [if_pos (hall p (List.mem_cons_self _ _))]
    have h2 := ih s (fun q hq => hall q (List.mem_cons_of_mem _ hq))
    rw [legalize_args, h1]
    simp [h2]

/-- Decomposition of a run over an appended list. -/
lemma legalize_args_append (fuel : Nat) (xs ys : List AbiParam) :
    ∀ (s : Args), legalize_args fuel s (xs ++ ys) =
      match legalize_args fuel s xs with
      | none => none
      | some (l1, s1) =>
        match legalize_args fuel s1 ys with
        | none => none
        | some (l2, s2) => some (l1 ++ l2, s2) := by
  induction xs with
  | nil =>
    intro s
    simp only [List.nil_append, legalize_args]
    rcases legalize_args fuel s ys with _ | ⟨l2, s2⟩ <;> rfl
  | cons p rest ih =>
    intro s
    rcases hL1 : legalize_one fuel s p with _ | ⟨l1, sA⟩
    · show legalize_args fuel s (p :: (rest ++ ys)) = _
      rw [legalize_args, legalize_args, hL1]
    · show legalize_args fuel s (p :: (rest ++ ys)) = _
      rw [legalize_args, legalize_args, hL1]
      simp only []
      rw [ih sA]
      rcases h2 : legalize_args fuel sA rest with _ | ⟨l2, sB⟩
      · rfl
      · simp only []
        rcases h3 : legalize_args fuel sB ys with _ | ⟨l3, sC⟩
        · rfl
        · simp [List.append_assoc]

/-- The run invariant for a whole parameter list. -/
lemma legalize_args_runOk (fuel : Nat) (ps : List AbiParam) :
    ∀ (w : Bool) (s : Args) (out : List AbiParam) (s1 : Args),
      legalize_args fuel s ps = some (out, s1) →
      (∀ p ∈ ps, p.location = ArgumentLoc.Unassigned) →
      s.call_conv.extends_baldrdash = false →
      (w = true → s.call_conv.extends_windows_fastcall = true) →
      (w = true →
        (∀ p ∈ ps, p.value_type.is_vector = false) ∨ s.shared_flags.enable_simd = false) →
      (w = false → s.call_conv.extends_windows_fastcall = false ∨
        ((∀ p ∈ ps, p.value_type.is_float = false) ∧ s.shared_flags.enable_simd = true)) →
      s.pointer_type.is_vector = false →
      s.pointer_type.is_float = false →
      GoodGpr s.gpr →
      RunOk w s out s1 := by
  induction ps with
  | nil =>
    intro w s out s1 h _ _ _ _ _ _ _ _
    simp only [legalize_args, Option.some_inj, Prod.mk.injEq] at h
    obtain ⟨rfl, rfl⟩ := h.symm
    exact runOk_nil w s
  | cons p rest ih =>
    intro w s out s1 h hun hb hw1 hw2 hw3 hpt hptf hg
    rw [legalize_args] at h
    split at h
    · exact Option.noConfusion h
    · rename_i l1 sA hL1
      split at h
      · exact Option.noConfusion h
      · rename_i l2 sB hL2
        obtain ⟨rfl, rfl⟩ := (Prod.mk.injEq _ _ _ _).mp (Option.some_inj.mp h)
        have run1 := legalize_one_runOk fuel w s p l1 sA hL1
          (hun p (List.mem_cons_self _ _)) hb hw1
          (fun hw => (hw2 hw).elim
            (fun hall => Or.inl (hall p (List.mem_cons_self _ _))) Or.inr)
          (fun hw => (hw3 hw).imp id
            (fun hc => ⟨hc.1 p (List.mem_cons_self _ _), hc.2⟩))
          hpt hptf hg
        have hstA : StaticPres s sA := run1.static
        have run2 := ih w sA l2 sB hL2 (fun q hq => hun q (List.mem_cons_of_mem _ hq))
          (by rw [hstA.2.2.1]; exact hb)
          (by rw [hstA.2.2.1]; exact hw1)
          (by
            rw [hstA.2.2.2.1]
            intro hw
            exact (hw2 hw).elim
              (fun hall => Or.inl (fun q hq => hall q (List.mem_cons_of_mem _ hq))) Or.inr)
          (by
            rw [hstA.2.2.1, hstA.2.2.2.1]
            intro hw
            exact (hw3 hw).imp id
              (fun hc => ⟨fun q hq => hc.1 q (List.mem_cons_of_mem _ hq), hc.2⟩))
          (by rw [hstA.2.2.2.2.2.2.1]; exact hpt)
          (by rw [hstA.2.2.2.2.2.2.1]; exact hptf)
          (by rw [hstA.1]; exact hg)
        exact runOk_comp run1 run2

/-! ## Register-count bounds (used to show re-legalization cannot
re-fire struct-return injection) -/

/-- Postcondition of one step on a `Normal`-purpose non-vector value:
a conversion (state unchanged), a register from the class counter that
guards it, or a stack slot (counters unchanged). -/
def CntStep (s : Args) (fl : Bool) (res : ArgAction × Args) : Prop :=
  (∃ c, res = (ArgAction.Convert c, s)) ∨
  ((∃ r, res.1 = ArgAction.Assign (ArgumentLoc.Reg r)) ∧
    ((fl = false ∧ res.2 = s.bumpGpr ∧ s.gpr_used < s.gpr.length) ∨
     (fl = true ∧
       ((s.call_conv.extends_windows_fastcall = true ∧ res.2 = s.bumpGpr ∧
          s.gpr_used < s.fpr_limit) ∨
        (s.call_conv.extends_windows_fastcall = false ∧ res.2 = s.bumpFpr ∧
          s.fpr_used < s.fpr_limit))))) ∨
  ((∃ o, res.1 = ArgAction.Assign (ArgumentLoc.Stack o)) ∧
    res.2.gpr_used = s.gpr_used ∧ res.2.fpr_used = s.fpr_used)

lemma assign_cnt_cases (s : Args) (p : AbiParam)
    (hnorm : p.purpose = ArgumentPurpose.Normal)
    (hnv : p.value_type.is_vector = false ∨ s.shared_flags.enable_simd = false) :
    CntStep s p.value_type.is_float (Args.assign s p) := by
  unfold Args.assign
  split_ifs with h1 h2 h3 h4 h5 h6 h7 h8 h9 h10 h11
  · rcases hnv with hnv | hs
    · rw [h1] at hnv
      cases hnv
    · rw [h2] at hs
      cases hs
  · exact Or.inl ⟨ValueConversion.VectorSplit, rfl⟩
  · exact Or.inl ⟨ValueConversion.IntSplit, rfl⟩
  · exact Or.inl ⟨ValueConversion.Uext s.pointer_type, rfl⟩
  · exact Or.inl ⟨ValueConversion.Sext s.pointer_type, rfl⟩
  · rw [hnorm] at h6
    exact ArgumentPurpose.noConfusion h6.2.2
  · rw [hnorm] at h7
    exact ArgumentPurpose.noConfusion h7.2.2
  · exact Or.inr (Or.inl ⟨⟨_, rfl⟩, Or.inl ⟨h8.1, rfl, h8.2⟩⟩)
  · exact Or.inr (Or.inl ⟨⟨_, rfl⟩, Or.inr ⟨h10.1, Or.inl ⟨h9, rfl, h10.2⟩⟩⟩)
  · exact Or.inr (Or.inr ⟨⟨_, rfl⟩, rfl, rfl⟩)
  · have hnf : s.call_conv.extends_windows_fastcall = false := by
      simpa using h9
    exact Or.inr (Or.inl ⟨⟨_, rfl⟩, Or.inr ⟨h11.1, Or.inr ⟨hnf, rfl, h11.2⟩⟩⟩)
  · exact Or.inr (Or.inr ⟨⟨_, rfl⟩, rfl, rfl⟩)

/-- Count invariant of a run over `Normal`, non-vector values: each
class count is bounded by the movement of its guarded counter, and the
counters stay below their limits (or their starting point). -/
structure CntOk (s : Args) (out : List AbiParam) (s1 : Args) : Prop where
  static : StaticPres s s1
  nf : cntNF out + s.gpr_used ≤ s1.gpr_used
  ff : cntF out + fprIdx s ≤ fprIdx s1
  gbound : s1.gpr_used ≤ max s.gpr_used (max s.gpr.length s.fpr_limit)
  fbound : s1.fpr_used ≤ max s.fpr_used s.fpr_limit

lemma cntNF_append (a b : List AbiParam) : cntNF (a ++ b) = cntNF a + cntNF b :=
  List.countP_append _ _ _

lemma cntF_append (a b : List AbiParam) : cntF (a ++ b) = cntF a + cntF b :=
  List.countP_append _ _ _

lemma cntOk_nil (s : Args) : CntOk s [] s :=
  ⟨StaticPres.refl s, by simp [cntNF], by simp [cntF], by simp, by simp⟩

lemma cntOk_comp {s s1 s2 : Args} {l1 l2 : List AbiParam}
    (h1 : CntOk s l1 s1) (h2 : CntOk s1 l2 s2) : CntOk s (l1 ++ l2) s2 := by
  obtain ⟨st1, nf1, ff1, gb1, fb1⟩ := h1
  obtain ⟨st2, nf2, ff2, gb2, fb2⟩ := h2
  have hlen : s1.gpr = s.gpr := st1.1
  have hlim : s1.fpr_limit = s.fpr_limit := st1.2.1
  refine ⟨st1.trans st2, ?_, ?_, ?_, ?_⟩
  · rw [cntNF_append]
    omega
  · rw [cntF_append]
    omega
  · rw [hlen, hlim] at gb2
    omega
  · rw [hlim] at fb2
    omega

/-- `fprIdx` moves together with the counters. -/
lemma fprIdx_bumpGpr (s : Args) : fprIdx s ≤ fprIdx s.bumpGpr := by
  unfold fprIdx Args.bumpGpr
  split <;> simp

/-- Count invariant of one `Assign` step. -/
lemma cntOk_of_assign (s : Args) (p : AbiParam) (loc : ArgumentLoc) (st : Args)
    (hA : Args.assign s p = (ArgAction.Assign loc, st))
    (hnorm : p.purpose = ArgumentPurpose.Normal)
    (hnv : p.value_type.is_vector = false ∨ s.shared_flags.enable_simd = false) :
    CntOk s [{ p with location := loc }] st := by
  have step := assign_cnt_cases s p hnorm hnv
  rw [hA] at step
  have hst : StaticPres s st := by
    have h0 := assign_staticPres s p
    rw [hA] at h0
    exact h0
  rcases step with ⟨c, hc⟩ | ⟨⟨r, hr⟩, hcase⟩ | ⟨⟨o, ho⟩, hgu, hfu⟩
  · exact absurd (congrArg Prod.fst hc) (fun hh => ArgAction.noConfusion hh)
  · simp only at hr
    injection hr with hr'
    rcases hcase with ⟨hfl, hst_eq, hlt⟩ | ⟨hfl, ⟨hfc', hst_eq, hlt⟩ | ⟨hfc', hst_eq, hlt⟩⟩
    · -- non-float GPR assignment
      simp only at hst_eq
      refine ⟨hst, ?_, ?_, ?_, ?_⟩
      · have hcnt : cntNF [{ p with location := loc }] = 1 := by
          simp [cntNF, List.countP_cons, isRegNonFloat, hr', hfl]
        rw [hcnt, hst_eq]
        simp only [Args.bumpGpr]
        omega
      · have hcnt : cntF [{ p with location := loc }] = 0 := by
          simp [cntF, List.countP_cons, isRegFloat, hr', hfl]
        rw [hcnt, hst_eq]
        simpa using fprIdx_bumpGpr s
      · rw [hst_eq]
        simp only [Args.bumpGpr]
        omega
      · rw [hst_eq]
        simp [Args.bumpGpr]
    · -- fastcall float
      simp only at hst_eq
      refine ⟨hst, ?_, ?_, ?_, ?_⟩
      · have hcnt : cntNF [{ p with location := loc }] = 0 := by
          simp [cntNF, List.countP_cons, isRegNonFloat, hr', hfl]
        rw [hcnt, hst_eq]
        simp [Args.bumpGpr]
      · have hcnt : cntF [{ p with location := loc }] = 1 := by
          simp [cntF, List.countP_cons, isRegFloat, hr', hfl]
        rw [hcnt, hst_eq]
        have hi1 : fprIdx s = s.gpr_used := by simp [fprIdx, hfc']
        have hi2 : fprIdx s.bumpGpr = s.gpr_used + 1 := by simp [fprIdx, Args.bumpGpr, hfc']
        omega
      · rw [hst_eq]
        simp only [Args.bumpGpr]
        omega
      · rw [hst_eq]
        simp [Args.bumpGpr]
    · -- non-fastcall float
      simp only at hst_eq
      refine ⟨hst, ?_, ?_, ?_, ?_⟩
      · have hcnt : cntNF [{ p with location := loc }] = 0 := by
          simp [cntNF, List.countP_cons, isRegNonFloat, hr', hfl]
        rw [hcnt, hst_eq]
        simp [Args.bumpFpr]
      · have hcnt : cntF [{ p with location := loc }] = 1 := by
          simp [cntF, List.countP_cons, isRegFloat, hr', hfl]
        rw [hcnt, hst_eq]
        have hi1 : fprIdx s = s.fpr_used := by simp [fprIdx, hfc']
        have hi2 : fprIdx s.bumpFpr = s.fpr_used + 1 := by simp [fprIdx, Args.bumpFpr, hfc']
        omega
      · rw [hst_eq]
        simp [Args.bumpFpr]
      · rw [hst_eq]
        simp only [Args.bumpFpr]
        omega
  · -- stack
    simp only at ho
    injection ho with ho'
    have hgu' : st.gpr_used = s.gpr_used := hgu
    have hfu' : st.fpr_used = s.fpr_used := hfu
    refine ⟨hst, ?_, ?_, ?_, ?_⟩
    · have hcnt : cntNF [{ p with location := loc }] = 0 := by
        simp [cntNF, List.countP_cons, isRegNonFloat, ho']
      omega
    · have hcnt : cntF [{ p with location := loc }] = 0 := by
        simp [cntF, List.countP_cons, isRegFloat, ho']
      have hIdx : fprIdx st = fprIdx s := by
        unfold fprIdx
        rw [hst.2.2.1, hgu', hfu']
      omega
    · omega
    · omega

lemma legalize_one_cnt (fuel : Nat) :
    ∀ (s : Args) (p : AbiParam) (out : List AbiParam) (s1 : Args),
      legalize_one fuel s p = some (out, s1) →
      p.location = ArgumentLoc.Unassigned →
      p.purpose = ArgumentPurpose.Normal →
      p.value_type.is_vector = false ∨ s.shared_flags.enable_simd = false →
      s.pointer_type.is_vector = false →
      CntOk s out s1 := by
  induction fuel with
  | zero =>
    intro s p out s1 h hun hnorm hnv hpt
    have hass : p.location.is_assigned = false := by rw [hun]; rfl
    rw [legalize_one_eq] at h
    simp only [hass, Bool.false_eq_true, if_false] at h
    split at h
    · rename_i loc st hA
      simp only [Option.some_inj, Prod.mk.injEq] at h
      obtain ⟨rfl, rfl⟩ := h.symm
      exact cntOk_of_assign s p loc st hA hnorm hnv
    · exact Option.noConfusion h
  | succ f ih =>
    intro s p out s1 h hun hnorm hnv hpt
    have hass : p.location.is_assigned = false := by rw [hun]; rfl
    rw [legalize_one_eq] at h
    simp only [hass, Bool.false_eq_true, if_false] at h
    split at h
    · rename_i loc st hA
      simp only [Option.some_inj, Prod.mk.injEq] at h
      obtain ⟨rfl, rfl⟩ := h.symm
      exact cntOk_of_assign s p loc st hA hnorm hnv
    · rename_i conv st hA
      obtain ⟨rfl, hvsplit, hnvsplit, hkinds⟩ := assign_convert_info s p conv st hA
      have h' : (match conv.apply p.value_type with
        | none => (none : Option (List AbiParam × Args))
        | some ty1 =>
          if conv.is_split then
            match legalize_one f st { p with value_type := ty1 } with
            | none => none
            | some (l1, s2) =>
              match legalize_one f s2 { p with value_type := ty1 } with
              | none => none
              | some (l2, s3) => some (l1 ++ l2, s3)
          else
            legalize_one f st { p with value_type := ty1 }) = some (out, s1) := h
      clear h
      split at h'
      · exact Option.noConfusion h'
      · rename_i ty1 happ
        have hchildnv : ty1.is_vector = false ∨ st.shared_flags.enable_simd = false := by
          rcases hnv with hnv | hs
          · rcases hkinds with rfl | rfl | rfl | rfl
            · exact Or.inl (apply_not_vector happ (Or.inl rfl) hnv)
            · rw [(hvsplit rfl).1] at hnv
              exact Bool.noConfusion hnv
            · refine Or.inl ?_
              simp only [ValueConversion.apply, Option.some_inj] at happ
              rw [← happ]
              exact hpt
            · refine Or.inl ?_
              simp only [ValueConversion.apply, Option.some_inj] at happ
              rw [← happ]
              exact hpt
          · exact Or.inr hs
        split at h'
        · split at h'
          · exact Option.noConfusion h'
          · rename_i l1 sA hL1
            split at h'
            · exact Option.noConfusion h'
            · rename_i l2 sB hL2
              obtain ⟨rfl, rfl⟩ := (Prod.mk.injEq _ _ _ _).mp (Option.some_inj.mp h')
              have run1 := ih st { p with value_type := ty1 } l1 sA hL1 hun hnorm hchildnv hpt
              have hstA : StaticPres st sA := run1.static
              have run2 := ih sA { p with value_type := ty1 } l2 sB hL2 hun hnorm
                (hchildnv.imp id (fun hs => by rw [hstA.2.2.2.1]; exact hs))
                (by rw [hstA.2.2.2.2.2.2.1]; exact hpt)
              exact cntOk_comp run1 run2
        · exact ih st { p with value_type := ty1 } out s1 h' hun hnorm hchildnv hpt

lemma legalize_args_cnt (fuel : Nat) (ps : List AbiParam) :
    ∀ (s : Args) (out : List AbiParam) (s1 : Args),
      legalize_args fuel s ps = some (out, s1) →
      (∀ p ∈ ps, p.location = ArgumentLoc.Unassigned ∧
        p.purpose = ArgumentPurpose.Normal) →
      ((∀ p ∈ ps, p.value_type.is_vector = false) ∨ s.shared_flags.enable_simd = false) →
      s.pointer_type.is_vector = false →
      CntOk s out s1 := by
  induction ps with
  | nil =>
    intro s out s1 h _ _ _
    simp only [legalize_args, Option.some_inj, Prod.mk.injEq] at h
    obtain ⟨rfl, rfl⟩ := h.symm
    exact cntOk_nil s
  | cons p rest ih =>
    intro s out s1 h hall hnvs hpt
    rw [legalize_args] at h
    split at h
    · exact Option.noConfusion h
    · rename_i l1 sA hL1
      split at h
      · exact Option.noConfusion h
      · rename_i l2 sB hL2
        obtain ⟨rfl, rfl⟩ := (Prod.mk.injEq _ _ _ _).mp (Option.some_inj.mp h)
        obtain ⟨hun, hnorm⟩ := hall p (List.mem_cons_self _ _)
        have run1 := legalize_one_cnt fuel s p l1 sA hL1 hun hnorm
          (hnvs.imp (fun hall' => hall' p (List.mem_cons_self _ _)) id) hpt
        have hstA : StaticPres s sA := run1.static
        have run2 := ih sA l2 sB hL2 (fun q hq => hall q (List.mem_cons_of_mem _ hq))
          (hnvs.imp (fun hall' q hq => hall' q (List.mem_cons_of_mem _ hq))
            (fun hs => by rw [hstA.2.2.2.1]; exact hs))
          (by rw [hstA.2.2.2.2.2.2.1]; exact hpt)
        exact cntOk_comp run1 run2

/-- On a fully assigned return list the estimator never simulates: it
just counts the register-assigned entries by class. -/
lemma estimate_go_assigned (l : List AbiParam) :
    ∀ (a : Args) (fuel g f : Nat),
      (∀ p ∈ l, p.location.is_assigned = true) →
      estimate_go a l fuel g f = some (g + cntNF l, f + cntF l) := by
  induction l with
  | nil =>
    intro a fuel g f _
    simp [estimate_go, cntNF, cntF]
  | cons p rest ih =>
    intro a fuel g f hall
    have hp := hall p (List.mem_cons_self _ _)
    have hrest : ∀ q ∈ rest, q.location.is_assigned = true :=
      fun q hq => hall q (List.mem_cons_of_mem _ hq)
    rcases hloc : p.location with _ | u | o
    · rw [hloc] at hp
      exact Bool.noConfusion hp
    · rcases hf : p.value_type.is_float with _ | _
      · have h1 : estimate_go a (p :: rest) fuel g f = estimate_go a rest fuel (g + 1) f := by
          rw [estimate_go, hloc]
          simp [hf]
        rw [h1, ih a fuel (g + 1) f hrest]
        have h2 : g + 1 + cntNF rest = g + cntNF (p :: rest) := by
          simp [cntNF, List.countP_cons, isRegNonFloat, hloc, hf]
          omega
        have h3 : f + cntF rest = f + cntF (p :: rest) := by
          simp [cntF, List.countP_cons, isRegFloat, hloc, hf]
        rw [h2, h3]
      · have h1 : estimate_go a (p :: rest) fuel g f = estimate_go a rest fuel g (f + 1) := by
          rw [estimate_go, hloc]
          simp [hf]
        rw [h1, ih a fuel g (f + 1) hrest]
        have h2 : g + cntNF rest = g + cntNF (p :: rest) := by
          simp [cntNF, List.countP_cons, isRegNonFloat, hloc, hf]
        have h3 : f + 1 + cntF rest = f + cntF (p :: rest) := by
          simp [cntF, List.countP_cons, isRegFloat, hloc, hf]
          omega
        rw [h2, h3]
    · have h1 : estimate_go a (p :: rest) fuel g f = estimate_go a rest fuel g f := by
        rw [estimate_go, hloc]
      rw [h1, ih a fuel g f hrest]
      have h2 : g + cntNF rest = g + cntNF (p :: rest) := by
        simp [cntNF, List.countP_cons, isRegNonFloat, hloc]
      have h3 : f + cntF rest = f + cntF (p :: rest) := by
        simp [cntF, List.countP_cons, isRegFloat, hloc]
      rw [h2, h3]

lemma num_return_registers_required_assigned (fuel : Nat) (bits : Nat) (cc : CallConv)
    (flags : Flags) (l : List AbiParam)
    (hall : ∀ p ∈ l, p.location.is_assigned = true) :
    num_return_registers_required fuel bits cc flags l = some (cntNF l, cntF l) := by
  unfold num_return_registers_required
  rw [estimate_go_assigned l _ fuel 0 0 hall]
  simp

/-! ## Relating the real classification run to the estimator

`pieces` counts the scalar pieces one value decomposes into, by
register class.  The split branches of `Args.assign` are selected by
the value type, the SIMD flag and the pointer width alone, so the
count is shared by the real run and the estimator's simulation: the
real run register-assigns at most `pieces` entries of each class
(stack spills count for nothing), while the estimator, whose pool is
unbounded, counts exactly `pieces`. -/

def pieces : Nat → Bool → Nat → IrType → Option (Nat × Nat)
  | fuel, simd, ptrBits, ty =>
    if ty.is_vector = true ∧ simd = false then
      match fuel with
      | 0 => none
      | f + 1 =>
        match ty.half_vector with
        | none => none
        | some ty1 =>
          match pieces f simd ptrBits ty1 with
          | none => none
          | some (nf, ff) => some (2 * nf, 2 * ff)
    else if ty.is_vector = false ∧ ty.is_float = false ∧ ptrBits < ty.bits then
      match fuel with
      | 0 => none
      | f + 1 =>
        match ty.half_width with
        | none => none
        | some ty1 =>
          match pieces f simd ptrBits ty1 with
          | none => none
          | some (nf, ff) => some (2 * nf, 2 * ff)
    else some (if ty.is_float then (0, 1) else (1, 0))

lemma pieces_eq (fuel : Nat) (simd : Bool) (ptrBits : Nat) (ty : IrType) :
    pieces fuel simd ptrBits ty =
      if ty.is_vector = true ∧ simd = false then
        match fuel with
        | 0 => none
        | f + 1 =>
          match ty.half_vector with
          | none => none
          | some ty1 =>
            match pieces f simd ptrBits ty1 with
            | none => none
            | some (nf, ff) => some (2 * nf, 2 * ff)
      else if ty.is_vector = false ∧ ty.is_float = false ∧ ptrBits < ty.bits then
        match fuel with
        | 0 => none
        | f + 1 =>
          match ty.half_width with
          | none => none
          | some ty1 =>
            match pieces f simd ptrBits ty1 with
            | none => none
            | some (nf, ff) => some (2 * nf, 2 * ff)
      else some (if ty.is_float then (0, 1) else (1, 0)) := by
  rw [pieces.eq_def]

lemma pieces_terminal (fuel : Nat) (simd : Bool) (ptrBits : Nat) (ty : IrType)
    (h1 : ¬(ty.is_vector = true ∧ simd = false))
    (h2 : ¬(ty.is_vector = false ∧ ty.is_float = false ∧ ptrBits < ty.bits)) :
    pieces fuel simd ptrBits ty = some (if ty.is_float then (0, 1) else (1, 0)) := by
  rw [pieces_eq, if_neg h1, if_neg h2]

lemma pieces_terminal_nf (fuel : Nat) (simd : Bool) (ptrBits : Nat) (ty : IrType)
    (h1 : ¬(ty.is_vector = true ∧ simd = false))
    (h2 : ¬(ty.is_vector = false ∧ ty.is_float = false ∧ ptrBits < ty.bits))
    (hfl : ty.is_float = false) :
    pieces fuel simd ptrBits ty = some (1, 0) := by
  rw [pieces_terminal fuel simd ptrBits ty h1 h2, hfl]
  rfl

lemma pieces_terminal_ff (fuel : Nat) (simd : Bool) (ptrBits : Nat) (ty : IrType)
    (h1 : ¬(ty.is_vector = true ∧ simd = false))
    (h2 : ¬(ty.is_vector = false ∧ ty.is_float = false ∧ ptrBits < ty.bits))
    (hfl : ty.is_float = true) :
    pieces fuel simd ptrBits ty = some (0, 1) := by
  rw [pieces_terminal fuel simd ptrBits ty h1 h2, hfl]
  rfl

/-- The case split of one `assign` step against the split conditions
of `pieces`: a vector split, an integer split, a width-preserving
extension request, or an assignment. -/
def PiecesCase (s : Args) (arg : AbiParam) (res : ArgAction × Args) : Prop :=
  (res = (ArgAction.Convert ValueConversion.VectorSplit, s) ∧
    arg.value_type.is_vector = true ∧ s.shared_flags.enable_simd = false) ∨
  (res = (ArgAction.Convert ValueConversion.IntSplit, s) ∧
    arg.value_type.is_vector = false ∧ arg.value_type.is_float = false ∧
    s.pointer_bits < arg.value_type.bits) ∨
  ((∃ c, res = (ArgAction.Convert c, s) ∧
      (c = ValueConversion.Uext s.pointer_type ∨
        c = ValueConversion.Sext s.pointer_type)) ∧
    ¬(arg.value_type.is_vector = true ∧ s.shared_flags.enable_simd = false) ∧
    ¬(arg.value_type.is_vector = false ∧ arg.value_type.is_float = false ∧
      s.pointer_bits < arg.value_type.bits) ∧
    arg.value_type.is_float = false) ∨
  ((∃ loc s1, res = (ArgAction.Assign loc, s1)) ∧
    ¬(arg.value_type.is_vector = true ∧ s.shared_flags.enable_simd = false) ∧
    ¬(arg.value_type.is_vector = false ∧ arg.value_type.is_float = false ∧
      s.pointer_bits < arg.value_type.bits))

lemma assign_pieces_cases (s : Args) (arg : AbiParam) :
    PiecesCase s arg (Args.assign s arg) := by
  unfold Args.assign
  split_ifs with h1 h2 h3 h4 h5 h6 h7 h8 h9 h10 h11
  · refine Or.inr (Or.inr (Or.inr ⟨⟨_, _, rfl⟩, ?_, ?_⟩))
    · rintro ⟨-, hc2⟩
      rw [h2] at hc2
      exact Bool.noConfusion hc2
    · rintro ⟨hc1, -⟩
      rw [h1] at hc1
      exact Bool.noConfusion hc1
  · exact Or.inl ⟨rfl, h1, by simpa using h2⟩
  · exact Or.inr (Or.inl ⟨rfl, by simpa using h1, h3.1, h3.2⟩)
  · refine Or.inr (Or.inr (Or.inl ⟨⟨_, rfl, Or.inl rfl⟩, ?_, ?_, is_int_not_float h4.1⟩))
    · rintro ⟨hc1, -⟩
      exact absurd hc1 h1
    · rintro ⟨-, hc2, hc3⟩
      exact h3 ⟨hc2, hc3⟩
  · refine Or.inr (Or.inr (Or.inl ⟨⟨_, rfl, Or.inr rfl⟩, ?_, ?_, is_int_not_float h5.1⟩))
    · rintro ⟨hc1, -⟩
      exact absurd hc1 h1
    · rintro ⟨-, hc2, hc3⟩
      exact h3 ⟨hc2, hc3⟩
  · refine Or.inr (Or.inr (Or.inr ⟨⟨_, _, rfl⟩, fun hc => absurd hc.1 h1,
      fun hc => h3 ⟨hc.2.1, hc.2.2⟩⟩))
  · refine Or.inr (Or.inr (Or.inr ⟨⟨_, _, rfl⟩, fun hc => absurd hc.1 h1,
      fun hc => h3 ⟨hc.2.1, hc.2.2⟩⟩))
  · refine Or.inr (Or.inr (Or.inr ⟨⟨_, _, rfl⟩, fun hc => absurd hc.1 h1,
      fun hc => h3 ⟨hc.2.1, hc.2.2⟩⟩))
  · refine Or.inr (Or.inr (Or.inr ⟨⟨_, _, rfl⟩, fun hc => absurd hc.1 h1,
      fun hc => h3 ⟨hc.2.1, hc.2.2⟩⟩))
  · refine Or.inr (Or.inr (Or.inr ⟨⟨_, _, rfl⟩, fun hc => absurd hc.1 h1,
      fun hc => h3 ⟨hc.2.1, hc.2.2⟩⟩))
  · refine Or.inr (Or.inr (Or.inr ⟨⟨_, _, rfl⟩, fun hc => absurd hc.1 h1,
      fun hc => h3 ⟨hc.2.1, hc.2.2⟩⟩))
  · refine Or.inr (Or.inr (Or.inr ⟨⟨_, _, rfl⟩, fun hc => absurd hc.1 h1,
      fun hc => h3 ⟨hc.2.1, hc.2.2⟩⟩))

lemma cntNF_singleton (q : AbiParam) : cntNF [q] = if isRegNonFloat q then 1 else 0 := by
  unfold cntNF
  rw [List.countP_cons, List.countP_nil]
  simp

lemma cntF_singleton (q : AbiParam) : cntF [q] = if isRegFloat q then 1 else 0 := by
  unfold cntF
  rw [List.countP_cons, List.countP_nil]
  simp

lemma estimate_inner_succ (n : Nat) (a : Args) (p : AbiParam) :
    estimate_inner (n + 1) a p =
      match Args.assign a p with
      | (ArgAction.Assign _, a1) => estimate_inner n a1 p
      | (ArgAction.Convert ValueConversion.IntBits, a1) => estimate_inner n a1 p
      | (ArgAction.Convert (ValueConversion.Sext _), a1) => estimate_inner n a1 p
      | (ArgAction.Convert (ValueConversion.Uext _), a1) => estimate_inner n a1 p
      | _ => none := rfl

lemma estimate_inner_static (n : Nat) :
    ∀ (a : Args) (p : AbiParam) (a1 : Args),
      estimate_inner n a p = some a1 → StaticPres a a1 := by
  induction n with
  | zero =>
    intro a p a1 h
    obtain rfl := Option.some_inj.mp h
    exact StaticPres.refl a
  | succ n ih =>
    intro a p a1 h
    rw [estimate_inner_succ] at h
    split at h
    all_goals
      first
        | exact Option.noConfusion h
        | (rename_i a2 hA
           have h0 := assign_staticPres a p
           rw [hA] at h0
           exact h0.trans (ih a2 p a1 h))

lemma estimate_loop_eq (fuel : Nat) (a : Args) (p : AbiParam) (sf : Nat) :
    estimate_loop fuel a p sf =
      match Args.assign a p with
      | (ArgAction.Convert ValueConversion.IntSplit, a1) =>
        match fuel with
        | 0 => none
        | f + 1 =>
          match p.value_type.half_width with
          | none => none
          | some ty1 => estimate_loop f a1 { p with value_type := ty1 } (sf * 2)
      | (ArgAction.Convert ValueConversion.VectorSplit, a1) =>
        match fuel with
        | 0 => none
        | f + 1 =>
          match p.value_type.half_vector with
          | none => none
          | some ty1 => estimate_loop f a1 { p with value_type := ty1 } (sf * 2)
      | (ArgAction.Assign (ArgumentLoc.Reg _), a1)
      | (ArgAction.Convert ValueConversion.IntBits, a1)
      | (ArgAction.Convert (ValueConversion.Sext _), a1)
      | (ArgAction.Convert (ValueConversion.Uext _), a1) =>
        match estimate_inner (sf - 1) a1 p with
        | none => none
        | some a2 =>
          some (a2, if p.value_type.is_float then (0, sf) else (sf, 0))
      | (ArgAction.Assign _, _) => none := by
  rw [estimate_loop]

lemma estimate_loop_static (fuel : Nat) :
    ∀ (a : Args) (p : AbiParam) (sf : Nat) (a1 : Args) (dg df : Nat),
      estimate_loop fuel a p sf = some (a1, dg, df) → StaticPres a a1 := by
  induction fuel with
  | zero =>
    intro a p sf a1 dg df h
    rw [estimate_loop_eq] at h
    split at h
    all_goals
      first
        | exact Option.noConfusion h
        | (rename_i a2 hA
           split at h
           · exact Option.noConfusion h
           · rename_i a3 hInner
             obtain ⟨h1, -⟩ := (Prod.mk.injEq _ _ _ _).mp (Option.some_inj.mp h)
             rw [← h1]
             have h0 := assign_staticPres a p
             rw [hA] at h0
             exact h0.trans (estimate_inner_static (sf - 1) a2 p a3 hInner))
  | succ f ih =>
    intro a p sf a1 dg df h
    rw [estimate_loop_eq] at h
    split at h
    case h_1 a2 hA =>
      rcases hhw : p.value_type.half_width with _ | ty1
      · rw [hhw] at h
        exact Option.noConfusion h
      · rw [hhw] at h
        have h' : estimate_loop f a2 { p with value_type := ty1 } (sf * 2) =
            some (a1, dg, df) := h
        have h0 := assign_staticPres a p
        rw [hA] at h0
        exact h0.trans (ih a2 _ (sf * 2) a1 dg df h')
    case h_2 a2 hA =>
      rcases hhv : p.value_type.half_vector with _ | ty1
      · rw [hhv] at h
        exact Option.noConfusion h
      · rw [hhv] at h
        have h' : estimate_loop f a2 { p with value_type := ty1 } (sf * 2) =
            some (a1, dg, df) := h
        have h0 := assign_staticPres a p
        rw [hA] at h0
        exact h0.trans (ih a2 _ (sf * 2) a1 dg df h')
    all_goals
      first
        | exact Option.noConfusion h
        | (rename_i a2 hA
           split at h
           · exact Option.noConfusion h
           · rename_i a3 hInner
             obtain ⟨h1, -⟩ := (Prod.mk.injEq _ _ _ _).mp (Option.some_inj.mp h)
             rw [← h1]
             have h0 := assign_staticPres a p
             rw [hA] at h0
             exact h0.trans (estimate_inner_static (sf - 1) a2 p a3 hInner))

lemma legalize_one_static (fuel : Nat) :
    ∀ (s : Args) (p : AbiParam) (out : List AbiParam) (s1 : Args),
      legalize_one fuel s p = some (out, s1) → StaticPres s s1 := by
  induction fuel with
  | zero =>
    intro s p out s1 h
    rw [legalize_one_eq] at h
    split at h
    · obtain ⟨-, h2⟩ := (Prod.mk.injEq _ _ _ _).mp (Option.some_inj.mp h)
      rw [← h2]
      exact StaticPres.refl s
    · split at h
      · rename_i loc st hA
        obtain ⟨-, h2⟩ := (Prod.mk.injEq _ _ _ _).mp (Option.some_inj.mp h)
        rw [← h2]
        have h0 := assign_staticPres s p
        rw [hA] at h0
        exact h0
      · exact Option.noConfusion h
  | succ f ih =>
    intro s p out s1 h
    rw [legalize_one_eq] at h
    split at h
    · obtain ⟨-, h2⟩ := (Prod.mk.injEq _ _ _ _).mp (Option.some_inj.mp h)
      rw [← h2]
      exact StaticPres.refl s
    · split at h
      · rename_i loc st hA
        obtain ⟨-, h2⟩ := (Prod.mk.injEq _ _ _ _).mp (Option.some_inj.mp h)
        rw [← h2]
        have h0 := assign_staticPres s p
        rw [hA] at h0
        exact h0
      · rename_i conv st hA
        have hst0 : StaticPres s st := by
          have h0 := assign_staticPres s p
          rw [hA] at h0
          exact h0
        have h' : (match conv.apply p.value_type with
          | none => (none : Option (List AbiParam × Args))
          | some ty1 =>
            if conv.is_split then
              match legalize_one f st { p with value_type := ty1 } with
              | none => none
              | some (l1, s2) =>
                match legalize_one f s2 { p with value_type := ty1 } with
                | none => none
                | some (l2, s3) => some (l1 ++ l2, s3)
            else
              legalize_one f st { p with value_type := ty1 }) = some (out, s1) := h
        clear h
        split at h'
        · exact Option.noConfusion h'
        · rename_i ty1 happ
          split at h'
          · split at h'
            · exact Option.noConfusion h'
            · rename_i l1 sA hL1
              split at h'
              · exact Option.noConfusion h'
              · rename_i l2 sB hL2
                obtain ⟨-, h2⟩ := (Prod.mk.injEq _ _ _ _).mp (Option.some_inj.mp h')
                rw [← h2]
                exact hst0.trans ((ih st _ l1 sA hL1).trans (ih sA _ l2 sB hL2))
          · exact hst0.trans (ih st _ out s1 h')

/-- An `Assign` step lands on a `pieces`-terminal type, and the one
resulting entry is bounded by the terminal piece count of its class. -/
lemma assign_le_pieces (fuel : Nat) (s : Args) (p : AbiParam) (loc : ArgumentLoc) (st : Args)
    (hA : Args.assign s p = (ArgAction.Assign loc, st)) :
    ∃ nf ff, pieces fuel s.shared_flags.enable_simd s.pointer_bits p.value_type =
        some (nf, ff) ∧
      cntNF [{ p with location := loc }] ≤ nf ∧ cntF [{ p with location := loc }] ≤ ff := by
  rcases assign_pieces_cases s p with ⟨he, -⟩ | ⟨he, -⟩ | ⟨⟨c, he, -⟩, -⟩ |
      ⟨⟨loc', s', he⟩, hn1, hn2⟩
  · exact ArgAction.noConfusion (congrArg Prod.fst (hA.symm.trans he))
  · exact ArgAction.noConfusion (congrArg Prod.fst (hA.symm.trans he))
  · exact ArgAction.noConfusion (congrArg Prod.fst (hA.symm.trans he))
  · rcases hfl : p.value_type.is_float with _ | _
    · refine ⟨1, 0, ?_, ?_, ?_⟩
      · exact pieces_terminal_nf fuel _ _ _ hn1 hn2 hfl
      · rw [cntNF_singleton]
        split_ifs <;> omega
      · rw [cntF_singleton]
        have hq : isRegFloat { p with location := loc } = false := by
          unfold isRegFloat
          simp [hfl]
        rw [hq]
        simp
    · refine ⟨0, 1, ?_, ?_, ?_⟩
      · exact pieces_terminal_ff fuel _ _ _ hn1 hn2 hfl
      · rw [cntNF_singleton]
        have hq : isRegNonFloat { p with location := loc } = false := by
          unfold isRegNonFloat
          simp [hfl]
        rw [hq]
        simp
      · rw [cntF_singleton]
        split_ifs <;> omega

/-- The entries a real legalization produces are bounded, per register
class, by the `pieces` decomposition of the value type. -/
lemma legalize_one_le_pieces (fuel : Nat) :
    ∀ (s : Args) (p : AbiParam) (out : List AbiParam) (s1 : Args),
      legalize_one fuel s p = some (out, s1) →
      p.location = ArgumentLoc.Unassigned →
      s.pointer_type.is_vector = false →
      s.pointer_type.is_float = false →
      IrType.bits s.pointer_type = s.pointer_bits →
      ∃ nf ff, pieces fuel s.shared_flags.enable_simd s.pointer_bits p.value_type =
          some (nf, ff) ∧ cntNF out ≤ nf ∧ cntF out ≤ ff := by
  induction fuel with
  | zero =>
    intro s p out s1 h hun hpt hptf hptb
    have hass : p.location.is_assigned = false := by rw [hun]; rfl
    rw [legalize_one_eq] at h
    simp only [hass, Bool.false_eq_true, if_false] at h
    split at h
    · rename_i loc st hA
      simp only [Option.some_inj, Prod.mk.injEq] at h
      obtain ⟨rfl, rfl⟩ := h.symm
      exact assign_le_pieces 0 s p loc st hA
    · exact Option.noConfusion h
  | succ f ih =>
    intro s p out s1 h hun hpt hptf hptb
    have hass : p.location.is_assigned = false := by rw [hun]; rfl
    rw [legalize_one_eq] at h
    simp only [hass, Bool.false_eq_true, if_false] at h
    split at h
    · rename_i loc st hA
      simp only [Option.some_inj, Prod.mk.injEq] at h
      obtain ⟨rfl, rfl⟩ := h.symm
      exact assign_le_pieces (f + 1) s p loc st hA
    · rename_i conv st hA
      have h' : (match conv.apply p.value_type with
        | none => (none : Option (List AbiParam × Args))
        | some ty1 =>
          if conv.is_split then
            match legalize_one f st { p with value_type := ty1 } with
            | none => none
            | some (l1, s2) =>
              match legalize_one f s2 { p with value_type := ty1 } with
              | none => none
              | some (l2, s3) => some (l1 ++ l2, s3)
          else
            legalize_one f st { p with value_type := ty1 }) = some (out, s1) := h
      clear h
      rcases assign_pieces_cases s p with ⟨he, hv, hs⟩ | ⟨he, hnv, hfl, hlt⟩ |
          ⟨⟨c, he, hor⟩, hn1, hn2, hflp⟩ | ⟨⟨loc', s', he⟩, -, -⟩
      · obtain ⟨hc1, hc2⟩ := (Prod.mk.injEq _ _ _ _).mp (hA.symm.trans he)
        injection hc1 with hcv
        subst hcv
        rw [hc2] at h'
        split at h'
        · exact Option.noConfusion h'
        · rename_i ty1 happ
          have hhv : p.value_type.half_vector = some ty1 := happ
          have h'' : (match legalize_one f s { p with value_type := ty1 } with
            | none => (none : Option (List AbiParam × Args))
            | some (l1, s2) =>
              match legalize_one f s2 { p with value_type := ty1 } with
              | none => none
              | some (l2, s3) => some (l1 ++ l2, s3)) = some (out, s1) := h'
          clear h'
          split at h''
          · exact Option.noConfusion h''
          · rename_i l1 sA hL1
            split at h''
            · exact Option.noConfusion h''
            · rename_i l2 sB hL2
              obtain ⟨rfl, rfl⟩ := (Prod.mk.injEq _ _ _ _).mp (Option.some_inj.mp h'')
              obtain ⟨nf1, ff1, hp1, hb1, hc1⟩ := ih s { p with value_type := ty1 }
                l1 sA hL1 hun hpt hptf hptb
              have hp1' : pieces f s.shared_flags.enable_simd s.pointer_bits ty1 =
                  some (nf1, ff1) := hp1
              have hstA : StaticPres s sA := legalize_one_static f s _ l1 sA hL1
              obtain ⟨nf2, ff2, hp2, hb2, hc2⟩ := ih sA { p with value_type := ty1 }
                l2 sB hL2 hun
                (by rw [hstA.2.2.2.2.2.2.1]; exact hpt)
                (by rw [hstA.2.2.2.2.2.2.1]; exact hptf)
                (by rw [hstA.2.2.2.2.2.2.1, hstA.2.2.2.2.1]; exact hptb)
              have hp2' : pieces f s.shared_flags.enable_simd s.pointer_bits ty1 =
                  some (nf2, ff2) := by
                rw [← hstA.2.2.2.1, ← hstA.2.2.2.2.1]
                exact hp2
              rw [hp1'] at hp2'
              obtain ⟨rfl, rfl⟩ := (Prod.mk.injEq _ _ _ _).mp (Option.some_inj.mp hp2')
              refine ⟨2 * nf1, 2 * ff1, ?_, ?_, ?_⟩
              · rw [pieces_eq, if_pos ⟨hv, hs⟩]
                show (match p.value_type.half_vector with
                  | none => none
                  | some ty2 =>
                    match pieces f s.shared_flags.enable_simd s.pointer_bits ty2 with
                    | none => none
                    | some (nf, ff) => some (2 * nf, 2 * ff)) = some (2 * nf1, 2 * ff1)
                rw [hhv]
                show (match pieces f s.shared_flags.enable_simd s.pointer_bits ty1 with
                  | none => none
                  | some (nf, ff) => some (2 * nf, 2 * ff)) = some (2 * nf1, 2 * ff1)
                rw [hp1']
              · rw [cntNF_append]
                omega
              · rw [cntF_append]
                omega
      · obtain ⟨hc1, hc2⟩ := (Prod.mk.injEq _ _ _ _).mp (hA.symm.trans he)
        injection hc1 with hcv
        subst hcv
        rw [hc2] at h'
        split at h'
        · exact Option.noConfusion h'
        · rename_i ty1 happ
          have hhw : p.value_type.half_width = some ty1 := happ
          have h'' : (match legalize_one f s { p with value_type := ty1 } with
            | none => (none : Option (List AbiParam × Args))
            | some (l1, s2) =>
              match legalize_one f s2 { p with value_type := ty1 } with
              | none => none
              | some (l2, s3) => some (l1 ++ l2, s3)) = some (out, s1) := h'
          clear h'
          split at h''
          · exact Option.noConfusion h''
          · rename_i l1 sA hL1
            split at h''
            · exact Option.noConfusion h''
            · rename_i l2 sB hL2
              obtain ⟨rfl, rfl⟩ := (Prod.mk.injEq _ _ _ _).mp (Option.some_inj.mp h'')
              obtain ⟨nf1, ff1, hp1, hb1, hc1⟩ := ih s { p with value_type := ty1 }
                l1 sA hL1 hun hpt hptf hptb
              have hp1' : pieces f s.shared_flags.enable_simd s.pointer_bits ty1 =
                  some (nf1, ff1) := hp1
              have hstA : StaticPres s sA := legalize_one_static f s _ l1 sA hL1
              obtain ⟨nf2, ff2, hp2, hb2, hc2⟩ := ih sA { p with value_type := ty1 }
                l2 sB hL2 hun
                (by rw [hstA.2.2.2.2.2.2.1]; exact hpt)
                (by rw [hstA.2.2.2.2.2.2.1]; exact hptf)
                (by rw [hstA.2.2.2.2.2.2.1, hstA.2.2.2.2.1]; exact hptb)
              have hp2' : pieces f s.shared_flags.enable_simd s.pointer_bits ty1 =
                  some (nf2, ff2) := by
                rw [← hstA.2.2.2.1, ← hstA.2.2.2.2.1]
                exact hp2
              rw [hp1'] at hp2'
              obtain ⟨rfl, rfl⟩ := (Prod.mk.injEq _ _ _ _).mp (Option.some_inj.mp hp2')
              refine ⟨2 * nf1, 2 * ff1, ?_, ?_, ?_⟩
              · rw [pieces_eq,
                  if_neg (fun hc => Bool.noConfusion (hnv.symm.trans hc.1)),
                  if_pos ⟨hnv, hfl, hlt⟩]
                show (match p.value_type.half_width with
                  | none => none
                  | some ty2 =>
                    match pieces f s.shared_flags.enable_simd s.pointer_bits ty2 with
                    | none => none
                    | some (nf, ff) => some (2 * nf, 2 * ff)) = some (2 * nf1, 2 * ff1)
                rw [hhw]
                show (match pieces f s.shared_flags.enable_simd s.pointer_bits ty1 with
                  | none => none
                  | some (nf, ff) => some (2 * nf, 2 * ff)) = some (2 * nf1, 2 * ff1)
                rw [hp1']
              · rw [cntNF_append]
                omega
              · rw [cntF_append]
                omega
      · obtain ⟨hc1, hc2⟩ := (Prod.mk.injEq _ _ _ _).mp (hA.symm.trans he)
        injection hc1 with hcv
        subst hcv
        rw [hc2] at h'
        have hptp : pieces f s.shared_flags.enable_simd s.pointer_bits s.pointer_type =
            some (1, 0) :=
          pieces_terminal_nf f _ _ _
            (fun hc => Bool.noConfusion (hpt.symm.trans hc.1))
            (fun hc => absurd hc.2.2 (by rw [hptb]; exact lt_irrefl _)) hptf
        rcases hor with rfl | rfl
        · split at h'
          · exact Option.noConfusion h'
          · rename_i ty1 happ
            have happ' : some s.pointer_type = some ty1 := happ
            obtain rfl := Option.some_inj.mp happ'
            have h'' : legalize_one f s { p with value_type := s.pointer_type } =
                some (out, s1) := h'
            clear h'
            obtain ⟨nf1, ff1, hp1, hb1, hc1⟩ := ih s { p with value_type := s.pointer_type }
              out s1 h'' hun hpt hptf hptb
            have hp1' : pieces f s.shared_flags.enable_simd s.pointer_bits s.pointer_type =
                some (nf1, ff1) := hp1
            rw [hptp] at hp1'
            obtain ⟨h1, h2⟩ := (Prod.mk.injEq _ _ _ _).mp (Option.some_inj.mp hp1')
            refine ⟨1, 0, ?_, ?_, ?_⟩
            · exact pieces_terminal_nf (f + 1) _ _ _ hn1 hn2 hflp
            · omega
            · omega
        · split at h'
          · exact Option.noConfusion h'
          · rename_i ty1 happ
            have happ' : some s.pointer_type = some ty1 := happ
            obtain rfl := Option.some_inj.mp happ'
            have h'' : legalize_one f s { p with value_type := s.pointer_type } =
                some (out, s1) := h'
            clear h'
            obtain ⟨nf1, ff1, hp1, hb1, hc1⟩ := ih s { p with value_type := s.pointer_type }
              out s1 h'' hun hpt hptf hptb
            have hp1' : pieces f s.shared_flags.enable_simd s.pointer_bits s.pointer_type =
                some (nf1, ff1) := hp1
            rw [hptp] at hp1'
            obtain ⟨h1, h2⟩ := (Prod.mk.injEq _ _ _ _).mp (Option.some_inj.mp hp1')
            refine ⟨1, 0, ?_, ?_, ?_⟩
            · exact pieces_terminal_nf (f + 1) _ _ _ hn1 hn2 hflp
            · omega
            · omega
      · exact ArgAction.noConfusion (congrArg Prod.fst (hA.symm.trans he))

/-- The estimator loop produces exactly `split_factor` times the
`pieces` decomposition of the value type, in each register class. -/
lemma estimate_loop_pieces (fuel : Nat) :
    ∀ (a : Args) (p : AbiParam) (sf : Nat) (a1 : Args) (dg df : Nat),
      estimate_loop fuel a p sf = some (a1, dg, df) →
      ∃ nf ff, pieces fuel a.shared_flags.enable_simd a.pointer_bits p.value_type =
          some (nf, ff) ∧ dg = sf * nf ∧ df = sf * ff := by
  induction fuel with
  | zero =>
    intro a p sf a1 dg df h
    rw [estimate_loop_eq] at h
    rcases assign_pieces_cases a p with ⟨he, hv, hs⟩ | ⟨he, hnv, hfl, hlt⟩ |
        ⟨⟨c, he, hor⟩, hn1, hn2, hflp⟩ | ⟨⟨loc', s', he⟩, hn1, hn2⟩
    · rw [he] at h
      exact Option.noConfusion h
    · rw [he] at h
      exact Option.noConfusion h
    · rw [he] at h
      rcases hor with rfl | rfl
      all_goals
        (have h2 : (match estimate_inner (sf - 1) a p with
            | none => (none : Option (Args × Nat × Nat))
            | some a2 => some (a2, if p.value_type.is_float then (0, sf) else (sf, 0))) =
            some (a1, dg, df) := h
         clear h
         rcases hInner : estimate_inner (sf - 1) a p with _ | a2
         · rw [hInner] at h2
           exact Option.noConfusion h2
         · rw [hInner] at h2
           rw [hflp, if_neg (fun hh => Bool.noConfusion hh)] at h2
           simp only [Option.some_inj, Prod.mk.injEq] at h2
           obtain ⟨-, h4, h5⟩ := h2
           refine ⟨1, 0, ?_, by omega, by omega⟩
           exact pieces_terminal_nf 0 _ _ _ hn1 hn2 hflp)
    · rw [he] at h
      rcases loc' with _ | r | o
      · exact Option.noConfusion h
      · have h2 : (match estimate_inner (sf - 1) s' p with
            | none => (none : Option (Args × Nat × Nat))
            | some a2 => some (a2, if p.value_type.is_float then (0, sf) else (sf, 0))) =
            some (a1, dg, df) := h
        clear h
        rcases hInner : estimate_inner (sf - 1) s' p with _ | a2
        · rw [hInner] at h2
          exact Option.noConfusion h2
        · rw [hInner] at h2
          rcases hfl : p.value_type.is_float with _ | _
          · rw [hfl, if_neg (fun hh => Bool.noConfusion hh)] at h2
            simp only [Option.some_inj, Prod.mk.injEq] at h2
            obtain ⟨-, h4, h5⟩ := h2
            refine ⟨1, 0, ?_, by omega, by omega⟩
            exact pieces_terminal_nf 0 _ _ _ hn1 hn2 hfl
          · rw [hfl, if_pos rfl] at h2
            simp only [Option.some_inj, Prod.mk.injEq] at h2
            obtain ⟨-, h4, h5⟩ := h2
            refine ⟨0, 1, ?_, by omega, by omega⟩
            exact pieces_terminal_ff 0 _ _ _ hn1 hn2 hfl
      · exact Option.noConfusion h
  | succ f ih =>
    intro a p sf a1 dg df h
    rw [estimate_loop_eq] at h
    rcases assign_pieces_cases a p with ⟨he, hv, hs⟩ | ⟨he, hnv, hfl, hlt⟩ |
        ⟨⟨c, he, hor⟩, hn1, hn2, hflp⟩ | ⟨⟨loc', s', he⟩, hn1, hn2⟩
    · rw [he] at h
      have h2 : (match p.value_type.half_vector with
          | none => (none : Option (Args × Nat × Nat))
          | some ty1 => estimate_loop f a { p with value_type := ty1 } (sf * 2)) =
          some (a1, dg, df) := h
      clear h
      rcases hhv : p.value_type.half_vector with _ | ty1
      · rw [hhv] at h2
        exact Option.noConfusion h2
      · rw [hhv] at h2
        have h3 : estimate_loop f a { p with value_type := ty1 } (sf * 2) =
            some (a1, dg, df) := h2
        obtain ⟨nf1, ff1, hp1, hdg, hdf⟩ := ih a { p with value_type := ty1 } (sf * 2)
          a1 dg df h3
        have hp1' : pieces f a.shared_flags.enable_simd a.pointer_bits ty1 =
            some (nf1, ff1) := hp1
        refine ⟨2 * nf1, 2 * ff1, ?_, ?_, ?_⟩
        · rw [pieces_eq, if_pos ⟨hv, hs⟩]
          show (match p.value_type.half_vector with
            | none => none
            | some ty2 =>
              match pieces f a.shared_flags.enable_simd a.pointer_bits ty2 with
              | none => none
              | some (nf, ff) => some (2 * nf, 2 * ff)) = some (2 * nf1, 2 * ff1)
          rw [hhv]
          show (match pieces f a.shared_flags.enable_simd a.pointer_bits ty1 with
            | none => none
            | some (nf, ff) => some (2 * nf, 2 * ff)) = some (2 * nf1, 2 * ff1)
          rw [hp1']
        · rw [hdg]
          ring
        · rw [hdf]
          ring
    · rw [he] at h
      have h2 : (match p.value_type.half_width with
          | none => (none : Option (Args × Nat × Nat))
          | some ty1 => estimate_loop f a { p with value_type := ty1 } (sf * 2)) =
          some (a1, dg, df) := h
      clear h
      rcases hhw : p.value_type.half_width with _ | ty1
      · rw [hhw] at h2
        exact Option.noConfusion h2
      · rw [hhw] at h2
        have h3 : estimate_loop f a { p with value_type := ty1 } (sf * 2) =
            some (a1, dg, df) := h2
        obtain ⟨nf1, ff1, hp1, hdg, hdf⟩ := ih a { p with value_type := ty1 } (sf * 2)
          a1 dg df h3
        have hp1' : pieces f a.shared_flags.enable_simd a.pointer_bits ty1 =
            some (nf1, ff1) := hp1
        refine ⟨2 * nf1, 2 * ff1, ?_, ?_, ?_⟩
        · rw [pieces_eq,
            if_neg (fun hc => Bool.noConfusion (hnv.symm.trans hc.1)),
            if_pos ⟨hnv, hfl, hlt⟩]
          show (match p.value_type.half_width with
            | none => none
            | some ty2 =>
              match pieces f a.shared_flags.enable_simd a.pointer_bits ty2 with
              | none => none
              | some (nf, ff) => some (2 * nf, 2 * ff)) = some (2 * nf1, 2 * ff1)
          rw [hhw]
          show (match pieces f a.shared_flags.enable_simd a.pointer_bits ty1 with
            | none => none
            | some (nf, ff) => some (2 * nf, 2 * ff)) = some (2 * nf1, 2 * ff1)
          rw [hp1']
        · rw [hdg]
          ring
        · rw [hdf]
          ring
    · rw [he] at h
      rcases hor with rfl | rfl
      all_goals
        (have h2 : (match estimate_inner (sf - 1) a p with
            | none => (none : Option (Args × Nat × Nat))
            | some a2 => some (a2, if p.value_type.is_float then (0, sf) else (sf, 0))) =
            some (a1, dg, df) := h
         clear h
         rcases hInner : estimate_inner (sf - 1) a p with _ | a2
         · rw [hInner] at h2
           exact Option.noConfusion h2
         · rw [hInner] at h2
           rw [hflp, if_neg (fun hh => Bool.noConfusion hh)] at h2
           simp only [Option.some_inj, Prod.mk.injEq] at h2
           obtain ⟨-, h4, h5⟩ := h2
           refine ⟨1, 0, ?_, by omega, by omega⟩
           exact pieces_terminal_nf (f + 1) _ _ _ hn1 hn2 hflp)
    · rw [he] at h
      rcases loc' with _ | r | o
      · exact Option.noConfusion h
      · have h2 : (match estimate_inner (sf - 1) s' p with
            | none => (none : Option (Args × Nat × Nat))
            | some a2 => some (a2, if p.value_type.is_float then (0, sf) else (sf, 0))) =
            some (a1, dg, df) := h
        clear h
        rcases hInner : estimate_inner (sf - 1) s' p with _ | a2
        · rw [hInner] at h2
          exact Option.noConfusion h2
        · rw [hInner] at h2
          rcases hfl : p.value_type.is_float with _ | _
          · rw [hfl, if_neg (fun hh => Bool.noConfusion hh)] at h2
            simp only [Option.some_inj, Prod.mk.injEq] at h2
            obtain ⟨-, h4, h5⟩ := h2
            refine ⟨1, 0, ?_, by omega, by omega⟩
            exact pieces_terminal_nf (f + 1) _ _ _ hn1 hn2 hfl
          · rw [hfl, if_pos rfl] at h2
            simp only [Option.some_inj, Prod.mk.injEq] at h2
            obtain ⟨-, h4, h5⟩ := h2
            refine ⟨0, 1, ?_, by omega, by omega⟩
            exact pieces_terminal_ff (f + 1) _ _ _ hn1 hn2 hfl
      · exact Option.noConfusion h

/-- Register-class dominance over a whole list: the real run backed
by any pool register-assigns at most as many entries of each class as
the unbounded estimator counts. -/
lemma legalize_args_le_estimate (fuel : Nat) (l : List AbiParam) :
    ∀ (s a : Args) (out : List AbiParam) (s1 : Args) (g0 f0 g f : Nat),
      legalize_args fuel s l = some (out, s1) →
      estimate_go a l fuel g0 f0 = some (g, f) →
      (∀ p ∈ l, p.location = ArgumentLoc.Unassigned) →
      s.shared_flags.enable_simd = a.shared_flags.enable_simd →
      s.pointer_bits = a.pointer_bits →
      s.pointer_type.is_vector = false →
      s.pointer_type.is_float = false →
      IrType.bits s.pointer_type = s.pointer_bits →
      cntNF out + g0 ≤ g ∧ cntF out + f0 ≤ f := by
  induction l with
  | nil =>
    intro s a out s1 g0 f0 g f h hest hun hsimd hbits hpt hptf hptb
    simp only [legalize_args, Option.some_inj, Prod.mk.injEq] at h
    obtain ⟨rfl, rfl⟩ := h
    simp only [estimate_go, Option.some_inj, Prod.mk.injEq] at hest
    obtain ⟨rfl, rfl⟩ := hest
    constructor <;> simp [cntNF, cntF]
  | cons p rest ih =>
    intro s a out s1 g0 f0 g f h hest hun hsimd hbits hpt hptf hptb
    have hup : p.location = ArgumentLoc.Unassigned := hun p (List.mem_cons_self _ _)
    rw [legalize_args] at h
    split at h
    · exact Option.noConfusion h
    · rename_i l1 sA hL1
      split at h
      · exact Option.noConfusion h
      · rename_i l2 sB hL2
        obtain ⟨rfl, rfl⟩ := (Prod.mk.injEq _ _ _ _).mp (Option.some_inj.mp h)
        rw [estimate_go, hup] at hest
        have hest2 : (match estimate_loop fuel a p 1 with
            | none => (none : Option (Nat × Nat))
            | some (a1, dg, df) => estimate_go a1 rest fuel (g0 + dg) (f0 + df)) =
            some (g, f) := hest
        clear hest
        rcases hloop : estimate_loop fuel a p 1 with _ | ⟨aA, dg, df⟩
        · rw [hloop] at hest2
          exact Option.noConfusion hest2
        · rw [hloop] at hest2
          have hest3 : estimate_go aA rest fuel (g0 + dg) (f0 + df) = some (g, f) := hest2
          obtain ⟨nf, ff, hpA, hb1, hb1f⟩ := legalize_one_le_pieces fuel s p l1 sA hL1
            hup hpt hptf hptb
          obtain ⟨nf2, ff2, hpB, hdg, hdf⟩ := estimate_loop_pieces fuel a p 1 aA dg df hloop
          rw [← hsimd, ← hbits, hpA] at hpB
          obtain ⟨rfl, rfl⟩ := (Prod.mk.injEq _ _ _ _).mp (Option.some_inj.mp hpB)
          have hstA : StaticPres s sA := legalize_one_static fuel s p l1 sA hL1
          have hstE : StaticPres a aA := estimate_loop_static fuel a p 1 aA dg df hloop
          have hrec := ih sA aA l2 sB (g0 + dg) (f0 + df) g f hL2 hest3
            (fun q hq => hun q (List.mem_cons_of_mem _ hq))
            (by rw [hstA.2.2.2.1, hstE.2.2.2.1]; exact hsimd)
            (by rw [hstA.2.2.2.2.1, hstE.2.2.2.2.1]; exact hbits)
            (by rw [hstA.2.2.2.2.2.2.1]; exact hpt)
            (by rw [hstA.2.2.2.2.2.2.1]; exact hptf)
            (by rw [hstA.2.2.2.2.2.2.1, hstA.2.2.2.2.1]; exact hptb)
          constructor
          · rw [cntNF_append]
            omega
          · rw [cntF_append]
            omega

lemma retRegsOf_len_pos (cc : CallConv) : 1 ≤ (retRegsOf cc).length := by
  unfold retRegsOf
  split_ifs <;> decide

/-! ## Inversion and evaluation of `legalize_signature` -/

/-- Inversion of `injectionFires`. -/
lemma injectionFires_inv (fuel : Nat) (width : PointerWidth) (flags : Flags)
    (sig : Signature) (fire : Bool)
    (h : injectionFires fuel width flags sig = some fire) :
    (fire = false ∧ sig.is_multi_return = false) ∨
    (sig.is_multi_return = true ∧ ∃ g f',
      num_return_registers_required fuel (widthBits width) sig.call_conv flags
        sig.returns = some (g, f') ∧
      (fire = true ↔ ((retRegsOf sig.call_conv).length < g ∨
        retFprLimitOf sig.call_conv < f'))) := by
  unfold injectionFires at h
  rcases hm : sig.is_multi_return with _ | _
  · rw [hm] at h
    simp only [Bool.false_eq_true, if_false, Option.some_inj] at h
    exact Or.inl ⟨h.symm, rfl⟩
  · rw [hm] at h
    rw [if_pos rfl] at h
    split at h
    · exact Option.noConfusion h
    · rename_i gf hnum
      refine Or.inr ⟨rfl, gf.1, gf.2, hnum, ?_⟩
      have hfe := Option.some_inj.mp h
      constructor
      · intro hf
        rw [hf] at hfe
        rcases (Bool.or_eq_true _ _).mp hfe with d | d
        · exact Or.inl (of_decide_eq_true d)
        · exact Or.inr (of_decide_eq_true d)
      · intro hc
        rw [← hfe]
        rcases hc with c | c
        · simp [c]
        · simp [c]


set_option maxHeartbeats 1000000 in
/-- Inversion of the post-dispatch body of `legalize_signature`. -/
lemma legalize_signature_core_inv (fuel : Nat) (width : PointerWidth) (flags : Flags)
    (sig sig1 : Signature)
    (h : legalize_signature_core fuel width flags sig = some sig1) :
    (∃ g f' reg args1 reg2 rets1 params2 sa returns2 sb,
        sig.is_multi_return = true ∧
        num_return_registers_required fuel (widthBits width) sig.call_conv flags
          sig.returns = some (g, f') ∧
        ((retRegsOf sig.call_conv).length < g ∨ retFprLimitOf sig.call_conv < f') ∧
        Args.assign (paramsAssigner width sig.call_conv flags)
          (sretTemplate (widthBits width)) = (ArgAction.Assign (ArgumentLoc.Reg reg), args1) ∧
        Args.assign (retsAssigner width sig.call_conv flags)
          (sretTemplate (widthBits width)) = (ArgAction.Assign (ArgumentLoc.Reg reg2), rets1) ∧
        legalize_args fuel args1 (sig.params ++
          [{ sretTemplate (widthBits width) with location := ArgumentLoc.Reg reg }]) =
            some (params2, sa) ∧
        legalize_args fuel rets1 ((sig.returns ++
          [{ sretTemplate (widthBits width) with location := ArgumentLoc.Reg reg2 }]).filter
            (fun r => r.location.is_assigned)) = some (returns2, sb) ∧
        sig1 = { params := params2, returns := returns2, call_conv := sig.call_conv }) ∨
    ((sig.is_multi_return = false ∨
        ∃ g f', num_return_registers_required fuel (widthBits width) sig.call_conv flags
            sig.returns = some (g, f') ∧
          ¬((retRegsOf sig.call_conv).length < g ∨ retFprLimitOf sig.call_conv < f')) ∧
      ∃ params2 sa returns2 sb,
        legalize_args fuel (paramsAssigner width sig.call_conv flags) sig.params =
          some (params2, sa) ∧
        legalize_args fuel (retsAssigner width sig.call_conv flags) sig.returns =
          some (returns2, sb) ∧
        sig1 = { params := params2, returns := returns2, call_conv := sig.call_conv }) := by
  unfold legalize_signature_core at h
  split at h
  · exact Option.noConfusion h
  · rename_i hfr
    split at h
    · rename_i reg args1 hA1
      split at h
      · rename_i reg2 rets1 hA2
        split at h
        · exact Option.noConfusion h
        · rename_i params2 sa hP
          split at h
          · exact Option.noConfusion h
          · rename_i returns2 sb hR
            rcases injectionFires_inv fuel width flags sig true hfr with ⟨hf, _⟩ |
              ⟨hm, g, f', hnum, hiff⟩
            · exact Bool.noConfusion hf
            · exact Or.inl ⟨g, f', reg, args1, reg2, rets1, params2, sa, returns2, sb,
                hm, hnum, hiff.mp rfl, hA1, hA2, hP, hR, (Option.some_inj.mp h).symm⟩
      · exact Option.noConfusion h
    · exact Option.noConfusion h
  · rename_i hfr
    split at h
    · exact Option.noConfusion h
    · rename_i params2 sa hP
      split at h
      · exact Option.noConfusion h
      · rename_i returns2 sb hR
        refine Or.inr ⟨?_, params2, sa, returns2, sb, hP, hR, (Option.some_inj.mp h).symm⟩
        rcases injectionFires_inv fuel width flags sig false hfr with ⟨_, hm⟩ |
          ⟨hm, g, f', hnum, hiff⟩
        · exact Or.inl hm
        · refine Or.inr ⟨g, f', hnum, ?_⟩
          intro hc
          exact Bool.noConfusion (hiff.mpr hc)


/-- What a successful `legalize_signature` run consists of: either
struct-return injection fired (multi-return and the estimator exceeded
a budget) and both injected values got registers, or it did not fire
and the two lists were legalized directly. -/
lemma legalize_signature_inv (fuel : Nat) (width : PointerWidth) (flags : Flags)
    (sig sig1 : Signature)
    (h : legalize_signature fuel width flags sig = some sig1) :
    (width = PointerWidth.U32 ∨ width = PointerWidth.U64) ∧
    ((∃ g f' reg args1 reg2 rets1 params2 sa returns2 sb,
        sig.is_multi_return = true ∧
        num_return_registers_required fuel (widthBits width) sig.call_conv flags
          sig.returns = some (g, f') ∧
        ((retRegsOf sig.call_conv).length < g ∨ retFprLimitOf sig.call_conv < f') ∧
        Args.assign (paramsAssigner width sig.call_conv flags)
          (sretTemplate (widthBits width)) = (ArgAction.Assign (ArgumentLoc.Reg reg), args1) ∧
        Args.assign (retsAssigner width sig.call_conv flags)
          (sretTemplate (widthBits width)) = (ArgAction.Assign (ArgumentLoc.Reg reg2), rets1) ∧
        legalize_args fuel args1 (sig.params ++
          [{ sretTemplate (widthBits width) with location := ArgumentLoc.Reg reg }]) =
            some (params2, sa) ∧
        legalize_args fuel rets1 ((sig.returns ++
          [{ sretTemplate (widthBits width) with location := ArgumentLoc.Reg reg2 }]).filter
            (fun r => r.location.is_assigned)) = some (returns2, sb) ∧
        sig1 = { params := params2, returns := returns2, call_conv := sig.call_conv }) ∨
     ((sig.is_multi_return = false ∨
        ∃ g f', num_return_registers_required fuel (widthBits width) sig.call_conv flags
            sig.returns = some (g, f') ∧
          ¬((retRegsOf sig.call_conv).length < g ∨ retFprLimitOf sig.call_conv < f')) ∧
      ∃ params2 sa returns2 sb,
        legalize_args fuel (paramsAssigner width sig.call_conv flags) sig.params =
          some (params2, sa) ∧
        legalize_args fuel (retsAssigner width sig.call_conv flags) sig.returns =
          some (returns2, sb) ∧
        sig1 = { params := params2, returns := returns2, call_conv := sig.call_conv })) := by
  cases width with
  | U16 => exact Option.noConfusion h
  | U32 => exact ⟨Or.inl rfl, legalize_signature_core_inv fuel PointerWidth.U32 flags sig sig1 h⟩
  | U64 => exact ⟨Or.inr rfl, legalize_signature_core_inv fuel PointerWidth.U64 flags sig sig1 h⟩

/-! ## Field facts about the two assigners built by `legalize_signature` -/

lemma paramsAssigner_call_conv (w : PointerWidth) (cc : CallConv) (fl : Flags) :
    (paramsAssigner w cc fl).call_conv = cc := by
  unfold paramsAssigner Args.new
  split_ifs <;> rfl

lemma paramsAssigner_flags (w : PointerWidth) (cc : CallConv) (fl : Flags) :
    (paramsAssigner w cc fl).shared_flags = fl := by
  unfold paramsAssigner Args.new
  split_ifs <;> rfl

lemma paramsAssigner_ptr_not_vector (w : PointerWidth) (cc : CallConv) (fl : Flags) :
    (paramsAssigner w cc fl).pointer_type.is_vector = false := by
  unfold paramsAssigner Args.new
  split_ifs <;> rfl

lemma paramsAssigner_offset (w : PointerWidth) (cc : CallConv) (fl : Flags) :
    (paramsAssigner w cc fl).offset = if cc.extends_windows_fastcall then 32 else 0 := by
  unfold paramsAssigner Args.new
  split_ifs <;> rfl

lemma paramsAssigner_bytes (w : PointerWidth) (cc : CallConv) (fl : Flags) :
    (paramsAssigner w cc fl).pointer_bytes = widthBits w / 8 := by
  unfold paramsAssigner Args.new widthBits
  split_ifs <;> rfl

lemma paramsAssigner_gpr (w : PointerWidth) (cc : CallConv) (fl : Flags) :
    (paramsAssigner w cc fl).gpr =
      if w = PointerWidth.U32 then [] else
      if cc.extends_windows_fastcall then ARG_GPRS_WIN_FASTCALL_X64 else ARG_GPRS := by
  unfold paramsAssigner Args.new
  split_ifs <;> rfl

lemma paramsAssigner_goodGpr (w : PointerWidth) (cc : CallConv) (fl : Flags) :
    GoodGpr (paramsAssigner w cc fl).gpr := by
  rw [paramsAssigner_gpr]
  unfold GoodGpr
  split_ifs <;> decide

lemma retsAssigner_call_conv (w : PointerWidth) (cc : CallConv) (fl : Flags) :
    (retsAssigner w cc fl).call_conv = cc := rfl

lemma retsAssigner_flags (w : PointerWidth) (cc : CallConv) (fl : Flags) :
    (retsAssigner w cc fl).shared_flags = fl := rfl

lemma retsAssigner_ptr_not_vector (w : PointerWidth) (cc : CallConv) (fl : Flags) :
    (retsAssigner w cc fl).pointer_type.is_vector = false := rfl

lemma retsAssigner_offset (w : PointerWidth) (cc : CallConv) (fl : Flags) :
    (retsAssigner w cc fl).offset = if cc.extends_windows_fastcall then 32 else 0 := rfl

lemma retsAssigner_bytes (w : PointerWidth) (cc : CallConv) (fl : Flags) :
    (retsAssigner w cc fl).pointer_bytes = widthBits w / 8 := rfl

lemma retsAssigner_goodGpr (w : PointerWidth) (cc : CallConv) (fl : Flags) :
    GoodGpr (retsAssigner w cc fl).gpr := by
  show GoodGpr (retRegsOf cc)
  unfold retRegsOf GoodGpr
  split_ifs <;> decide

lemma fprIdx_retsAssigner (w : PointerWidth) (cc : CallConv) (fl : Flags) :
    fprIdx (retsAssigner w cc fl) = 0 := by
  unfold fprIdx
  split <;> rfl

lemma widthBits_bytes_pos (w : PointerWidth) : 0 < widthBits w / 8 := by
  unfold widthBits
  split_ifs <;> decide

lemma widthBits_bytes_dvd_bias (w : PointerWidth) (cc : CallConv) :
    widthBits w / 8 ∣ (if cc.extends_windows_fastcall then 32 else 0) := by
  unfold widthBits
  split_ifs <;> decide

/-! ## Helpers for the struct-return injection paths -/

lemma filter_unassigned (l : List AbiParam)
    (h : ∀ p ∈ l, p.location = ArgumentLoc.Unassigned) :
    l.filter (fun r => r.location.is_assigned) = [] := by
  rw [List.filter_eq_nil_iff]
  intro p hp
  rw [h p hp]
  simp [ArgumentLoc.is_assigned]

lemma fired_filter_returns (bits reg2 : Nat) (rets : List AbiParam)
    (hrun : ∀ p ∈ rets, p.location = ArgumentLoc.Unassigned) :
    (rets ++ [{ sretTemplate bits with location := ArgumentLoc.Reg reg2 }]).filter
      (fun r => r.location.is_assigned) =
      [{ sretTemplate bits with location := ArgumentLoc.Reg reg2 }] := by
  rw [List.filter_append, filter_unassigned rets hrun]
  rfl

/-- Legalizing a list with a pre-assigned entry appended runs the list
and keeps the entry. -/
lemma legalize_args_snoc_assigned (fuel : Nat) (s : Args) (ps : List AbiParam)
    (q : AbiParam) (out : List AbiParam) (s1 : Args)
    (hq : q.location.is_assigned = true)
    (h : legalize_args fuel s (ps ++ [q]) = some (out, s1)) :
    ∃ l1, legalize_args fuel s ps = some (l1, s1) ∧ out = l1 ++ [q] := by
  rw [legalize_args_append] at h
  split at h
  · exact Option.noConfusion h
  · rename_i l1 smid hL1
    have hid : legalize_args fuel smid [q] = some ([q], smid) :=
      legalize_args_id fuel [q] smid (by
        intro p hp
        rcases List.mem_singleton.mp hp with rfl
        exact hq)
    rw [hid] at h
    have h' : some (l1 ++ [q], smid) = some (out, s1) := h
    obtain ⟨h1, h2⟩ := (Prod.mk.injEq _ _ _ _).mp (Option.some_inj.mp h')
    exact ⟨l1, by rw [← h2]; exact hL1, h1.symm⟩

lemma injectionFires_eq_true (fuel : Nat) (width : PointerWidth) (flags : Flags)
    (sig : Signature) (g f' : Nat)
    (hm : sig.is_multi_return = true)
    (hnum : num_return_registers_required fuel (widthBits width) sig.call_conv flags
      sig.returns = some (g, f'))
    (hexc : (retRegsOf sig.call_conv).length < g ∨ retFprLimitOf sig.call_conv < f') :
    injectionFires fuel width flags sig = some true := by
  unfold injectionFires
  rw [hm, if_pos rfl, hnum]
  show some (decide ((retRegsOf sig.call_conv).length < g) ||
    decide (retFprLimitOf sig.call_conv < f')) = some true
  rcases hexc with hc | hc
  · rw [decide_eq_true hc]
    simp
  · rw [decide_eq_true hc]
    simp

lemma injectionFires_eq_false (fuel : Nat) (width : PointerWidth) (flags : Flags)
    (sig : Signature)
    (h : sig.is_multi_return = false ∨
      ∃ g f', num_return_registers_required fuel (widthBits width) sig.call_conv flags
          sig.returns = some (g, f') ∧
        ¬((retRegsOf sig.call_conv).length < g ∨ retFprLimitOf sig.call_conv < f')) :
    injectionFires fuel width flags sig = some false := by
  unfold injectionFires
  rcases hm : sig.is_multi_return with _ | _
  · rw [if_neg (by simp)]
  · rcases h with hmf | ⟨g, f', hnum, hnex⟩
    · rw [hm] at hmf
      exact Bool.noConfusion hmf
    · rw [if_pos rfl, hnum]
      show some (decide ((retRegsOf sig.call_conv).length < g) ||
        decide (retFprLimitOf sig.call_conv < f')) = some false
      rw [decide_eq_false (fun hc => hnex (Or.inl hc)),
        decide_eq_false (fun hc => hnex (Or.inr hc))]
      rfl

/-! ## The post-legalization shape of one list -/

/-- All entries assigned; register units pairwise distinct; the stack
offsets are the arithmetic progression from the convention bias in
pointer-width steps, hence non-negative multiples of the pointer width
in strictly increasing order. -/
def LegalList (bias bytes : Nat) (out : List AbiParam) : Prop :=
  (∀ q ∈ out, q.location.is_assigned = true) ∧
  (regUnitsOf out).Nodup ∧
  (∃ k, stackOffsOf out =
    (List.range k).map (fun i => ((bias + i * bytes : Nat) : Int))) ∧
  List.Pairwise (fun a b => a < b) (stackOffsOf out) ∧
  ∀ o ∈ stackOffsOf out, 0 ≤ o ∧ (bytes : Int) ∣ o

lemma runOk_legal {w : Bool} {s : Args} {out : List AbiParam} {s1 : Args}
    (h : RunOk w s out s1) (hpos : 0 < s.pointer_bytes)
    (hdvd : s.pointer_bytes ∣ s.offset) :
    LegalList s.offset s.pointer_bytes out := by
  obtain ⟨hstat, hass, hnd, hcon, hmono, k, hstack, hoff⟩ := h
  refine ⟨hass, hnd, ⟨k, hstack⟩, ?_, ?_⟩
  · rw [hstack]
    refine List.Pairwise.map _ ?_ (List.pairwise_lt_range k)
    intro a b hab
    have h2 : a * s.pointer_bytes < b * s.pointer_bytes := (mul_lt_mul_right hpos).mpr hab
    have h3 : s.offset + a * s.pointer_bytes < s.offset + b * s.pointer_bytes := by omega
    exact_mod_cast h3
  · intro o ho
    rw [hstack] at ho
    obtain ⟨i, hi, rfl⟩ := List.mem_map.mp ho
    refine ⟨Int.natCast_nonneg _, ?_⟩
    have hd : s.pointer_bytes ∣ s.offset + i * s.pointer_bytes :=
      Nat.dvd_add hdvd (dvd_mul_left _ _)
    exact_mod_cast Int.natCast_dvd_natCast.mpr hd

/-- A register-located entry moved from the front to the back of a run
keeps the invariant. -/
lemma legalList_swap_reg {bias bytes : Nat} {a : List AbiParam} {q : AbiParam} (r : Nat)
    (hq : q.location = ArgumentLoc.Reg r)
    (h : LegalList bias bytes ([q] ++ a)) : LegalList bias bytes (a ++ [q]) := by
  obtain ⟨h1, h2, h3, h4, h5⟩ := h
  have hsq : stackOffsOf [q] = [] := by simp [stackOffsOf, hq]
  have hs2 : stackOffsOf (a ++ [q]) = stackOffsOf ([q] ++ a) := by
    rw [stackOffsOf_append, stackOffsOf_append, hsq]
    simp
  refine ⟨?_, ?_, ?_, ?_, ?_⟩
  · intro p hp
    refine h1 p ?_
    rcases List.mem_append.mp hp with hh | hh
    · exact List.mem_append.mpr (Or.inr hh)
    · exact List.mem_append.mpr (Or.inl hh)
  · rw [regUnitsOf_append]
    rw [regUnitsOf_append] at h2
    exact (List.perm_append_comm.nodup_iff).mp h2
  · rw [hs2]
    exact h3
  · rw [hs2]
    exact h4
  · rw [hs2]
    exact h5

/-- Pointer-type float lemma for the parameter assigner. -/
lemma paramsAssigner_ptr_not_float (w : PointerWidth) (cc : CallConv) (fl : Flags) :
    (paramsAssigner w cc fl).pointer_type.is_float = false := by
  unfold paramsAssigner Args.new
  split_ifs <;> rfl

lemma retsAssigner_ptr_not_float (w : PointerWidth) (cc : CallConv) (fl : Flags) :
    (retsAssigner w cc fl).pointer_type.is_float = false := rfl

/-- Pick the float-window index for one list: the shared fastcall index
when the list is vector-free or SIMD is off, `fpr_used` otherwise (then
the list must be scalar-float-free so the fastcall float branch never
fires). -/
lemma chooseW (cc : CallConv) (flags : Flags) (l : List AbiParam)
    (h : cc.extends_windows_fastcall = true →
      (∀ p ∈ l, p.value_type.is_vector = false) ∨ flags.enable_simd = false ∨
      (∀ p ∈ l, p.value_type.is_float = false)) :
    ∃ w, (w = true → cc.extends_windows_fastcall = true) ∧
      (w = true → (∀ p ∈ l, p.value_type.is_vector = false) ∨ flags.enable_simd = false) ∧
      (w = false → cc.extends_windows_fastcall = false ∨
        ((∀ p ∈ l, p.value_type.is_float = false) ∧ flags.enable_simd = true)) := by
  rcases hfc : cc.extends_windows_fastcall with _ | _
  · exact ⟨false, fun hh => Bool.noConfusion hh, fun hh => Bool.noConfusion hh,
      fun _ => Or.inl rfl⟩
  · rcases hs : flags.enable_simd with _ | _
    · exact ⟨true, fun _ => rfl, fun _ => Or.inr rfl, fun hh => Bool.noConfusion hh⟩
    · rcases h hfc with hv | hsf | hff
      · exact ⟨true, fun _ => rfl, fun _ => Or.inl hv, fun hh => Bool.noConfusion hh⟩
      · rw [hs] at hsf
        exact Bool.noConfusion hsf
      · exact ⟨false, fun hh => Bool.noConfusion hh, fun hh => Bool.noConfusion hh,
          fun _ => Or.inr ⟨hff, rfl⟩⟩

set_option maxHeartbeats 800000 in
/-- C6: after signature legalization, every parameter and every return
has an assigned location, no two entries of one list share a register
unit, and the stack offsets within one list are the arithmetic
progression from the convention bias (32 for Windows fastcall, 0
otherwise) in pointer-width steps — hence non-negative multiples of
the pointer width, strictly increasing in assignment order.  The
hypotheses restrict to cleanly presented signatures (all entries
initially unassigned), away from the embedder (baldrdash) pinned
registers, and exclude only Windows-fastcall lists that mix SIMD
vectors with scalar floats — where the no-duplicate part in fact
fails (see the counterexample). -/
theorem c6_post_legalization (fuel : Nat) (width : PointerWidth) (flags : Flags)
    (sig sig1 : Signature)
    (hleg : legalize_signature fuel width flags sig = some sig1)
    (hpun : ∀ p ∈ sig.params, p.location = ArgumentLoc.Unassigned)
    (hrun : ∀ p ∈ sig.returns, p.location = ArgumentLoc.Unassigned)
    (hb : sig.call_conv.extends_baldrdash = false)
    (hfcp : sig.call_conv.extends_windows_fastcall = true →
      (∀ p ∈ sig.params, p.value_type.is_vector = false) ∨ flags.enable_simd = false ∨
      (∀ p ∈ sig.params, p.value_type.is_float = false))
    (hfcr : sig.call_conv.extends_windows_fastcall = true →
      (∀ p ∈ sig.returns, p.value_type.is_vector = false) ∨ flags.enable_simd = false ∨
      (∀ p ∈ sig.returns, p.value_type.is_float = false)) :
    LegalList (if sig.call_conv.extends_windows_fastcall then 32 else 0)
      (widthBits width / 8) sig1.params ∧
    LegalList (if sig.call_conv.extends_windows_fastcall then 32 else 0)
      (widthBits width / 8) sig1.returns := by
  obtain ⟨wp, hwp1, hwp2, hwp3⟩ := chooseW sig.call_conv flags sig.params hfcp
  obtain ⟨wr, hwr1, hwr2, hwr3⟩ := chooseW sig.call_conv flags sig.returns hfcr
  obtain ⟨hw, hcase⟩ := legalize_signature_inv fuel width flags sig sig1 hleg
  rcases hcase with ⟨g, f', reg, args1, reg2, rets1, params2, sa, returns2, sb,
      hm, hnum, hexc, hA1, hA2, hP, hR, hsig1⟩ |
    ⟨hcond, params2, sa, returns2, sb, hP, hR, hsig1⟩
  · -- injection fired
    have hbald0 : (paramsAssigner width sig.call_conv flags).call_conv.extends_baldrdash
        = false := by
      rw [paramsAssigner_call_conv]
      exact hb
    have hg0 : GoodGpr (paramsAssigner width sig.call_conv flags).gpr :=
      paramsAssigner_goodGpr width sig.call_conv flags
    have run0 : RunOk wp (paramsAssigner width sig.call_conv flags)
        [{ sretTemplate (widthBits width) with location := ArgumentLoc.Reg reg }] args1 :=
      runOk_of_assign wp _ (sretTemplate (widthBits width)) (ArgumentLoc.Reg reg) args1 hA1
        hbald0
        (by intro hwt; rw [paramsAssigner_call_conv]; exact hwp1 hwt)
        (fun _ => Or.inl rfl) (fun _ => Or.inr rfl) hg0
    obtain ⟨hgpr1, hlim1, hcc1, hfl1, hbits1, hbytes1, hpt1, _, _, _⟩ := run0.static
    obtain ⟨l1, hL1, hout⟩ := legalize_args_snoc_assigned fuel args1 sig.params
      { sretTemplate (widthBits width) with location := ArgumentLoc.Reg reg }
      params2 sa rfl hP
    have run1 : RunOk wp args1 l1 sa :=
      legalize_args_runOk fuel sig.params wp args1 l1 sa hL1 hpun
        (by rw [hcc1, paramsAssigner_call_conv]; exact hb)
        (by rw [hcc1, paramsAssigner_call_conv]; exact hwp1)
        (by rw [hfl1, paramsAssigner_flags]; exact hwp2)
        (by
          rw [hcc1, paramsAssigner_call_conv, hfl1, paramsAssigner_flags]
          exact hwp3)
        (by rw [hpt1]; exact paramsAssigner_ptr_not_vector width sig.call_conv flags)
        (by rw [hpt1]; exact paramsAssigner_ptr_not_float width sig.call_conv flags)
        (by rw [hgpr1]; exact hg0)
    have hlegal0 : LegalList (paramsAssigner width sig.call_conv flags).offset
        (paramsAssigner width sig.call_conv flags).pointer_bytes
        ([{ sretTemplate (widthBits width) with location := ArgumentLoc.Reg reg }] ++ l1) :=
      runOk_legal (runOk_comp run0 run1)
        (by rw [paramsAssigner_bytes]; exact widthBits_bytes_pos width)
        (by
          rw [paramsAssigner_bytes, paramsAssigner_offset]
          exact widthBits_bytes_dvd_bias width sig.call_conv)
    rw [paramsAssigner_offset, paramsAssigner_bytes] at hlegal0
    have hlegalP := legalList_swap_reg reg rfl hlegal0
    rw [fired_filter_returns (widthBits width) reg2 sig.returns hrun] at hR
    rw [legalize_args_id fuel
      [{ sretTemplate (widthBits width) with location := ArgumentLoc.Reg reg2 }] rets1
      (by intro p hp; rcases List.mem_singleton.mp hp with rfl; rfl)] at hR
    obtain ⟨hret2, -⟩ := (Prod.mk.injEq _ _ _ _).mp (Option.some_inj.mp hR)
    have hsq : stackOffsOf
        [{ sretTemplate (widthBits width) with location := ArgumentLoc.Reg reg2 }] =
        ([] : List Int) := rfl
    have hlegalR : LegalList (if sig.call_conv.extends_windows_fastcall then 32 else 0)
        (widthBits width / 8)
        [{ sretTemplate (widthBits width) with location := ArgumentLoc.Reg reg2 }] := by
      refine ⟨?_, ?_, ⟨0, ?_⟩, ?_, ?_⟩
      · intro p hp
        rcases List.mem_singleton.mp hp with rfl
        rfl
      · show ([reg2] : List Nat).Nodup
        exact List.nodup_singleton reg2
      · rw [hsq]
        rfl
      · rw [hsq]
        exact List.Pairwise.nil
      · rw [hsq]
        intro o ho
        exact (List.not_mem_nil o ho).elim
    rw [hsig1]
    refine ⟨?_, ?_⟩
    · show LegalList _ _ params2
      rw [hout]
      exact hlegalP
    · show LegalList _ _ returns2
      rw [← hret2]
      exact hlegalR
  · -- no injection: both lists are legalized directly
    have runP : RunOk wp (paramsAssigner width sig.call_conv flags) params2 sa :=
      legalize_args_runOk fuel sig.params wp _ params2 sa hP hpun
        (by rw [paramsAssigner_call_conv]; exact hb)
        (by rw [paramsAssigner_call_conv]; exact hwp1)
        (by rw [paramsAssigner_flags]; exact hwp2)
        (by rw [paramsAssigner_call_conv, paramsAssigner_flags]; exact hwp3)
        (paramsAssigner_ptr_not_vector width sig.call_conv flags)
        (paramsAssigner_ptr_not_float width sig.call_conv flags)
        (paramsAssigner_goodGpr width sig.call_conv flags)
    have runR : RunOk wr (retsAssigner width sig.call_conv flags) returns2 sb :=
      legalize_args_runOk fuel sig.returns wr _ returns2 sb hR hrun
        (by rw [retsAssigner_call_conv]; exact hb)
        (by rw [retsAssigner_call_conv]; exact hwr1)
        (by rw [retsAssigner_flags]; exact hwr2)
        (by rw [retsAssigner_call_conv, retsAssigner_flags]; exact hwr3)
        (retsAssigner_ptr_not_vector width sig.call_conv flags)
        (retsAssigner_ptr_not_float width sig.call_conv flags)
        (retsAssigner_goodGpr width sig.call_conv flags)
    have hlegalP := runOk_legal runP
      (by rw [paramsAssigner_bytes]; exact widthBits_bytes_pos width)
      (by
        rw [paramsAssigner_bytes, paramsAssigner_offset]
        exact widthBits_bytes_dvd_bias width sig.call_conv)
    have hlegalR := runOk_legal runR
      (by rw [retsAssigner_bytes]; exact widthBits_bytes_pos width)
      (by
        rw [retsAssigner_bytes, retsAssigner_offset]
        exact widthBits_bytes_dvd_bias width sig.call_conv)
    rw [paramsAssigner_offset, paramsAssigner_bytes] at hlegalP
    rw [retsAssigner_offset, retsAssigner_bytes] at hlegalR
    rw [hsig1]
    exact ⟨hlegalP, hlegalR⟩

def sigC6out : Signature :=
  { params := [
      { normalParam I64 with location := ArgumentLoc.Reg 7 },
      { normalParam I64 with location := ArgumentLoc.Reg 6 },
      { normalParam I64 with location := ArgumentLoc.Reg 2 },
      { normalParam I64 with location := ArgumentLoc.Reg 1 },
      { normalParam I64 with location := ArgumentLoc.Reg 8 },
      { normalParam I64 with location := ArgumentLoc.Reg 9 },
      { normalParam I64 with location := ArgumentLoc.Stack 0 },
      { normalParam I64 with location := ArgumentLoc.Stack 8 }],
    returns := [{ normalParam I64 with location := ArgumentLoc.Reg 0 }],
    call_conv := CallConv.SystemV }

set_option maxHeartbeats 2000000 in
set_option maxRecDepth 8000 in
theorem c6_post_legalization_witness :
    LegalList 0 8 sigC6out.params ∧ LegalList 0 8 sigC6out.returns :=
  c6_post_legalization 40 PointerWidth.U64 defaultFlags sigEightParams sigC6out
    (by rfl) (by decide) (by decide) (by decide) (by decide) (by decide)

/-- A Windows-fastcall signature taking a SIMD vector and then a scalar
float: with SIMD enabled the vector branch indexes the float bank by
`fpr_used` while the fastcall float branch indexes it by the shared
parameter index `gpr_used`, so both land on unit 16. -/
def sigC6cx : Signature :=
  { params := [normalParam F64X2, normalParam F32],
    returns := [normalParam I64],
    call_conv := CallConv.WindowsFastcall }

def sigC6cxOut : Signature :=
  { params := [
      { normalParam F64X2 with location := ArgumentLoc.Reg 16 },
      { normalParam F32 with location := ArgumentLoc.Reg 16 }],
    returns := [{ normalParam I64 with location := ArgumentLoc.Reg 0 }],
    call_conv := CallConv.WindowsFastcall }

set_option maxHeartbeats 1000000 in
set_option maxRecDepth 8000 in
theorem c6_counterexample :
    legalize_signature 40 PointerWidth.U64 simdFlags sigC6cx = some sigC6cxOut ∧
    regUnitsOf sigC6cxOut.params = [16, 16] ∧
    ¬ (regUnitsOf sigC6cxOut.params).Nodup :=
  ⟨rfl, rfl, by decide⟩

/-- When injection does not fire and both lists are already assigned,
the legalizer body is the identity. -/
lemma legalize_signature_core_id (fuel : Nat) (width : PointerWidth) (flags : Flags)
    (sig : Signature)
    (hfire : injectionFires fuel width flags sig = some false)
    (hp : ∀ p ∈ sig.params, p.location.is_assigned = true)
    (hr : ∀ p ∈ sig.returns, p.location.is_assigned = true) :
    legalize_signature_core fuel width flags sig = some sig := by
  unfold legalize_signature_core
  rw [hfire, legalize_args_id fuel sig.params (paramsAssigner width sig.call_conv flags) hp,
    legalize_args_id fuel sig.returns (retsAssigner width sig.call_conv flags) hr]

lemma retRegs_max_eq (cc : CallConv) :
    max (retRegsOf cc).length (retFprLimitOf cc) = (retRegsOf cc).length := by
  unfold retRegsOf retFprLimitOf
  split_ifs <;> decide

set_option maxHeartbeats 800000 in
/-- C7: on a signature whose returns are cleanly presented `Normal`
values with no pre-assigned locations, legalization is idempotent —
the second run does not re-fire struct-return injection and returns
the first run's output unchanged.  (Outside this scope the property
fails: embedder-pinned return registers are assigned without consuming
the counters, so a second run's estimator can exceed the budget; see
the counterexample.) -/
theorem c7_idempotent (fuel : Nat) (width : PointerWidth) (flags : Flags)
    (sig sig1 : Signature)
    (hleg : legalize_signature fuel width flags sig = some sig1)
    (hret : ∀ p ∈ sig.returns, p.purpose = ArgumentPurpose.Normal ∧
      p.location = ArgumentLoc.Unassigned) :
    injectionFires fuel width flags sig1 = some false ∧
    legalize_signature fuel width flags sig1 = some sig1 := by
  obtain ⟨hw, hcase⟩ := legalize_signature_inv fuel width flags sig sig1 hleg
  have hrun : ∀ p ∈ sig.returns, p.location = ArgumentLoc.Unassigned :=
    fun p hp => (hret p hp).2
  rcases hcase with ⟨g, f', reg, args1, reg2, rets1, params2, sa, returns2, sb,
      hm, hnum, hexc, hA1, hA2, hP, hR, hsig1⟩ |
    ⟨hcond, params2, sa, returns2, sb, hP, hR, hsig1⟩
  · -- injection fired: the output returns are the lone struct-return value
    have hp1 : ∀ q ∈ params2, q.location.is_assigned = true :=
      fun q hq => (legalize_args_out fuel _ args1 params2 sa hP q hq).2
    rw [fired_filter_returns (widthBits width) reg2 sig.returns hrun] at hR
    rw [legalize_args_id fuel
      [{ sretTemplate (widthBits width) with location := ArgumentLoc.Reg reg2 }] rets1
      (by intro p hp; rcases List.mem_singleton.mp hp with rfl; rfl)] at hR
    obtain ⟨hret2, -⟩ := (Prod.mk.injEq _ _ _ _).mp (Option.some_inj.mp hR)
    have hr1 : ∀ q ∈ returns2, q.location.is_assigned = true := by
      rw [← hret2]
      intro q hq
      rcases List.mem_singleton.mp hq with rfl
      rfl
    have hm1 : sig1.is_multi_return = false := by
      rw [hsig1, ← hret2]
      rfl
    have hfire := injectionFires_eq_false fuel width flags sig1 (Or.inl hm1)
    refine ⟨hfire, ?_⟩
    have hp' : ∀ p ∈ sig1.params, p.location.is_assigned = true := by
      rw [hsig1]
      exact hp1
    have hr' : ∀ p ∈ sig1.returns, p.location.is_assigned = true := by
      rw [hsig1]
      exact hr1
    rcases hw with rfl | rfl
    · exact legalize_signature_core_id fuel PointerWidth.U32 flags sig1 hfire hp' hr'
    · exact legalize_signature_core_id fuel PointerWidth.U64 flags sig1 hfire hp' hr'
  · -- no injection: the second run's counts stay within budget
    have hp1 : ∀ q ∈ params2, q.location.is_assigned = true :=
      fun q hq => (legalize_args_out fuel sig.params _ params2 sa hP q hq).2
    have hr1 : ∀ q ∈ returns2, q.location.is_assigned = true :=
      fun q hq => (legalize_args_out fuel sig.returns _ returns2 sb hR q hq).2
    have hcc1 : sig1.call_conv = sig.call_conv := by rw [hsig1]
    have hret1 : sig1.returns = returns2 := by rw [hsig1]
    have hbounds : cntNF returns2 ≤ (retRegsOf sig.call_conv).length ∧
        cntF returns2 ≤ retFprLimitOf sig.call_conv := by
      rcases hcond with hmf | ⟨g, f', hnum, hnex⟩
      · -- the first run did not consult the estimator: at most one
        -- Normal return, so at most one value's worth of registers
        rcases hrets : sig.returns with _ | ⟨p0, _ | ⟨q, rest2⟩⟩
        · rw [hrets] at hR
          simp only [legalize_args, Option.some_inj, Prod.mk.injEq] at hR
          obtain ⟨rfl, -⟩ := hR
          constructor <;> simp [cntNF, cntF]
        · have hp0 := hret p0 (by rw [hrets]; exact List.mem_cons_self _ _)
          rw [hrets] at hR
          by_cases hvs : p0.value_type.is_vector = true ∧ flags.enable_simd = true
          · -- a SIMD vector is one FPR-class piece: a single output entry
            rw [legalize_args] at hR
            split at hR
            · exact Option.noConfusion hR
            · rename_i l1 sA hL1
              split at hR
              · exact Option.noConfusion hR
              · rename_i l2 sB2 hL2
                obtain ⟨h9, -⟩ := (Prod.mk.injEq _ _ _ _).mp (Option.some_inj.mp hR)
                simp only [legalize_args, Option.some_inj, Prod.mk.injEq] at hL2
                obtain ⟨rfl, -⟩ := hL2
                rw [List.append_nil] at h9
                obtain ⟨nf, ff, hp, hbn, hbf⟩ := legalize_one_le_pieces fuel
                  (retsAssigner width sig.call_conv flags) p0 l1 sA hL1 hp0.2
                  (retsAssigner_ptr_not_vector width sig.call_conv flags)
                  (retsAssigner_ptr_not_float width sig.call_conv flags)
                  (by cases width <;> rfl)
                have hterm : pieces fuel
                    (retsAssigner width sig.call_conv flags).shared_flags.enable_simd
                    (retsAssigner width sig.call_conv flags).pointer_bits p0.value_type =
                    some (1, 0) :=
                  pieces_terminal_nf fuel _ _ _
                    (fun hc => Bool.noConfusion (hvs.2.symm.trans hc.2))
                    (fun hc => Bool.noConfusion (hvs.1.symm.trans hc.1))
                    (vector_not_float hvs.1)
                rw [hterm] at hp
                obtain ⟨h10, h11⟩ := (Prod.mk.injEq _ _ _ _).mp (Option.some_inj.mp hp)
                rw [← h9]
                have hpos := retRegsOf_len_pos sig.call_conv
                constructor
                · omega
                · omega
          · -- otherwise the run is pool-bounded (`CntOk`)
            have hnv : (∀ r ∈ [p0], r.value_type.is_vector = false) ∨
                (retsAssigner width sig.call_conv flags).shared_flags.enable_simd =
                  false := by
              rcases hv : p0.value_type.is_vector with _ | _
              · refine Or.inl (fun r hr => ?_)
                rcases List.mem_singleton.mp hr with rfl
                exact hv
              · rcases hs : flags.enable_simd with _ | _
                · exact Or.inr hs
                · exact absurd ⟨hv, hs⟩ hvs
            obtain ⟨hstat, hnf, hff, hgb, hfb⟩ :=
              legalize_args_cnt fuel [p0] (retsAssigner width sig.call_conv flags)
                returns2 sb hR
                (fun r hr => by
                  rcases List.mem_singleton.mp hr with rfl
                  exact ⟨hp0.2, hp0.1⟩)
                hnv
                (retsAssigner_ptr_not_vector width sig.call_conv flags)
            obtain ⟨hgpr, hlim, hcc, _, _, _, _, _, _, _⟩ := hstat
            have hsgu : (retsAssigner width sig.call_conv flags).gpr_used = 0 := rfl
            have hsfu : (retsAssigner width sig.call_conv flags).fpr_used = 0 := rfl
            have hsg : (retsAssigner width sig.call_conv flags).gpr =
              retRegsOf sig.call_conv := rfl
            have hsl : (retsAssigner width sig.call_conv flags).fpr_limit =
              retFprLimitOf sig.call_conv := rfl
            rw [hsgu] at hnf
            rw [fprIdx_retsAssigner width sig.call_conv flags] at hff
            rw [hsgu, hsg, hsl] at hgb
            rw [hsfu, hsl] at hfb
            rw [Nat.zero_max, retRegs_max_eq] at hgb
            rw [Nat.zero_max] at hfb
            have hb1 : cntNF returns2 ≤ (retRegsOf sig.call_conv).length := by omega
            have hfi_sb : fprIdx sb =
                if sig.call_conv.extends_windows_fastcall then sb.gpr_used
                else sb.fpr_used := by
              unfold fprIdx
              rw [hcc, retsAssigner_call_conv]
            have hb2 : cntF returns2 ≤ retFprLimitOf sig.call_conv := by
              rcases hfc : sig.call_conv.extends_windows_fastcall with _ | _
              · rw [hfi_sb, if_neg (by simp [hfc])] at hff
                omega
              · rw [hfi_sb, if_pos hfc] at hff
                have e1 : (retRegsOf sig.call_conv).length = 1 := by
                  unfold retRegsOf
                  rw [if_pos hfc]
                  rfl
                have e2 : retFprLimitOf sig.call_conv = 1 := by
                  unfold retFprLimitOf
                  rw [if_pos hfc]
                rw [e1] at hgb
                rw [e2]
                omega
            exact ⟨hb1, hb2⟩
        · -- two or more Normal returns contradict `multi = false`
          have hq0 : p0.purpose = ArgumentPurpose.Normal :=
            (hret p0 (by rw [hrets]; exact List.mem_cons_self _ _)).1
          have hq1 : q.purpose = ArgumentPurpose.Normal :=
            (hret q (by
              rw [hrets]
              exact List.mem_cons_of_mem _ (List.mem_cons_self _ _))).1
          have hm2 : sig.is_multi_return = true := by
            unfold Signature.is_multi_return
            rw [hrets]
            simp [List.filter_cons, hq0, hq1]
          exact Bool.noConfusion (hm2.symm.trans hmf)
      · -- the estimator accepted the first run's returns, and it
        -- dominates the real run's register counts
        have hnum' : estimate_go (Args.new (widthBits width) ESTIMATOR_GPRS USIZE_MAX
            sig.call_conv flags) sig.returns fuel 0 0 = some (g, f') := hnum
        have hle := legalize_args_le_estimate fuel sig.returns
          (retsAssigner width sig.call_conv flags)
          (Args.new (widthBits width) ESTIMATOR_GPRS USIZE_MAX sig.call_conv flags)
          returns2 sb 0 0 g f' hR hnum' hrun rfl rfl rfl rfl (by cases width <;> rfl)
        have hg2 : g ≤ (retRegsOf sig.call_conv).length := by
          rcases Nat.lt_or_ge (retRegsOf sig.call_conv).length g with hc | hc
          · exact absurd (Or.inl hc) hnex
          · exact hc
        have hf2 : f' ≤ retFprLimitOf sig.call_conv := by
          rcases Nat.lt_or_ge (retFprLimitOf sig.call_conv) f' with hc | hc
          · exact absurd (Or.inr hc) hnex
          · exact hc
        obtain ⟨hle1, hle2⟩ := hle
        constructor <;> omega
    obtain ⟨hb1, hb2⟩ := hbounds
    have hfire : injectionFires fuel width flags sig1 = some false := by
      refine injectionFires_eq_false fuel width flags sig1
        (Or.inr ⟨cntNF returns2, cntF returns2, ?_, ?_⟩)
      · rw [hcc1, hret1]
        exact num_return_registers_required_assigned fuel (widthBits width)
          sig.call_conv flags returns2 hr1
      · rw [hcc1]
        rintro (hc | hc) <;> omega
    refine ⟨hfire, ?_⟩
    have hp' : ∀ p ∈ sig1.params, p.location.is_assigned = true := by
      rw [hsig1]
      exact hp1
    have hr' : ∀ p ∈ sig1.returns, p.location.is_assigned = true := by
      rw [hsig1]
      exact hr1
    rcases hw with rfl | rfl
    · exact legalize_signature_core_id fuel PointerWidth.U32 flags sig1 hfire hp' hr'
    · exact legalize_signature_core_id fuel PointerWidth.U64 flags sig1 hfire hp' hr'

def sigC7wit : Signature :=
  { params := [],
    returns := [normalParam I64, normalParam I64, normalParam I64, normalParam I64],
    call_conv := CallConv.SystemV }

def sigC7witOut : Signature :=
  { params := [{ sretTemplate 64 with location := ArgumentLoc.Reg 7 }],
    returns := [{ sretTemplate 64 with location := ArgumentLoc.Reg 0 }],
    call_conv := CallConv.SystemV }

set_option maxHeartbeats 1000000 in
set_option maxRecDepth 8000 in
theorem c7_idempotent_witness :
    injectionFires 40 PointerWidth.U64 defaultFlags sigC7witOut = some false ∧
    legalize_signature 40 PointerWidth.U64 defaultFlags sigC7witOut = some sigC7witOut :=
  c7_idempotent 40 PointerWidth.U64 defaultFlags sigC7wit sigC7witOut (by rfl) (by decide)

/-- A SpiderMonkey `SignatureId` return value: the classifier assigns
it a pinned register without consuming any register counter. -/
def sigIdRet : AbiParam :=
  { value_type := I64, purpose := ArgumentPurpose.SignatureId,
    extension := ArgumentExtension.None, location := ArgumentLoc.Unassigned }

/-- One vector return that splits into two `Normal` floats plus four
pinned `SignatureId` returns: the first run assigns everything without
firing, but on the second run the signature is multi-return and the
estimator counts the four pinned registers past the three-GPR budget,
so struct-return injection fires on already-legalized input. -/
def sigC7cx : Signature :=
  { params := [],
    returns := [normalParam F64X2, sigIdRet, sigIdRet, sigIdRet, sigIdRet],
    call_conv := CallConv.BaldrdashSystemV }

def sigC7cx1 : Signature :=
  { params := [],
    returns := [
      { normalParam F64 with location := ArgumentLoc.Reg 16 },
      { normalParam F64 with location := ArgumentLoc.Reg 17 },
      { sigIdRet with location := ArgumentLoc.Reg 10 },
      { sigIdRet with location := ArgumentLoc.Reg 10 },
      { sigIdRet with location := ArgumentLoc.Reg 10 },
      { sigIdRet with location := ArgumentLoc.Reg 10 }],
    call_conv := CallConv.BaldrdashSystemV }

def sigC7cx2 : Signature :=
  { params := [{ sretTemplate 64 with location := ArgumentLoc.Reg 7 }],
    returns := [
      { normalParam F64 with location := ArgumentLoc.Reg 16 },
      { normalParam F64 with location := ArgumentLoc.Reg 17 },
      { sigIdRet with location := ArgumentLoc.Reg 10 },
      { sigIdRet with location := ArgumentLoc.Reg 10 },
      { sigIdRet with location := ArgumentLoc.Reg 10 },
      { sigIdRet with location := ArgumentLoc.Reg 10 },
      { sretTemplate 64 with location := ArgumentLoc.Reg 0 }],
    call_conv := CallConv.BaldrdashSystemV }

set_option maxHeartbeats 2000000 in
set_option maxRecDepth 8000 in
theorem c7_counterexample :
    legalize_signature 40 PointerWidth.U64 defaultFlags sigC7cx = some sigC7cx1 ∧
    legalize_signature 40 PointerWidth.U64 defaultFlags sigC7cx1 = some sigC7cx2 ∧
    sigC7cx2 ≠ sigC7cx1 :=
  ⟨rfl, rfl, by decide⟩

set_option maxHeartbeats 800000 in
/-- C1: on signatures presented without pre-existing struct-return
entries and with unassigned returns, struct-return handling is
injected if and only if the signature is multi-return AND the
estimator reports a requirement above the convention's budget in
either class (the multi-return conjunct is missing from the claim);
when it fires, exactly one struct-return parameter is added and the
return list becomes exactly the one injected struct-return value (all
unassigned returns are dropped); when it does not fire, no
struct-return entry appears. -/
theorem c1_struct_return_injection (fuel : Nat) (width : PointerWidth) (flags : Flags)
    (sig sig1 : Signature)
    (hleg : legalize_signature fuel width flags sig = some sig1)
    (hpns : ∀ p ∈ sig.params, p.purpose ≠ ArgumentPurpose.StructReturn)
    (hrns : ∀ p ∈ sig.returns, p.purpose ≠ ArgumentPurpose.StructReturn)
    (hrun : ∀ p ∈ sig.returns, p.location = ArgumentLoc.Unassigned) :
    ∃ fire, injectionFires fuel width flags sig = some fire ∧
      (fire = true ↔ sig.is_multi_return = true ∧ ∃ g f',
        num_return_registers_required fuel (widthBits width) sig.call_conv flags
          sig.returns = some (g, f') ∧
        ((retRegsOf sig.call_conv).length < g ∨ retFprLimitOf sig.call_conv < f')) ∧
      (fire = true → countSret sig1.params = 1 ∧
        ∃ reg2, sig1.returns =
          [{ sretTemplate (widthBits width) with location := ArgumentLoc.Reg reg2 }]) ∧
      (fire = false → countSret sig1.params = 0 ∧ countSret sig1.returns = 0) := by
  obtain ⟨hw, hcase⟩ := legalize_signature_inv fuel width flags sig sig1 hleg
  rcases hcase with ⟨g, f', reg, args1, reg2, rets1, params2, sa, returns2, sb,
      hm, hnum, hexc, hA1, hA2, hP, hR, hsig1⟩ |
    ⟨hcond, params2, sa, returns2, sb, hP, hR, hsig1⟩
  · -- fired
    refine ⟨true, injectionFires_eq_true fuel width flags sig g f' hm hnum hexc,
      ⟨fun _ => ⟨hm, g, f', hnum, hexc⟩, fun _ => rfl⟩, ?_, ?_⟩
    · intro _
      obtain ⟨l1, hL1, hout⟩ := legalize_args_snoc_assigned fuel args1 sig.params
        { sretTemplate (widthBits width) with location := ArgumentLoc.Reg reg }
        params2 sa rfl hP
      constructor
      · have hzero : countSret l1 = 0 := by
          refine List.countP_eq_zero.mpr ?_
          intro q hq
          obtain ⟨⟨p, hp, hqp⟩, -⟩ := legalize_args_out fuel sig.params args1 l1 sa hL1 q hq
          simp only [decide_eq_true_eq]
          rw [hqp]
          exact hpns p hp
        have hone : countSret
            [{ sretTemplate (widthBits width) with location := ArgumentLoc.Reg reg }] = 1 := rfl
        rw [hsig1]
        show countSret params2 = 1
        rw [hout]
        unfold countSret at hzero hone ⊢
        rw [List.countP_append, hzero, hone]
      · rw [fired_filter_returns (widthBits width) reg2 sig.returns hrun] at hR
        rw [legalize_args_id fuel
          [{ sretTemplate (widthBits width) with location := ArgumentLoc.Reg reg2 }] rets1
          (by intro p hp; rcases List.mem_singleton.mp hp with rfl; rfl)] at hR
        obtain ⟨hret2, -⟩ := (Prod.mk.injEq _ _ _ _).mp (Option.some_inj.mp hR)
        refine ⟨reg2, ?_⟩
        rw [hsig1]
        show returns2 = _
        rw [← hret2]
    · intro hcon
      exact Bool.noConfusion hcon
  · -- did not fire
    refine ⟨false, injectionFires_eq_false fuel width flags sig hcond, ?_, ?_, ?_⟩
    · constructor
      · intro hcon
        exact Bool.noConfusion hcon
      · rintro ⟨hm', g0, f0, hnum0, hexc0⟩
        rcases hcond with hmf | ⟨g, f', hnum, hnex⟩
        · rw [hm'] at hmf
          exact Bool.noConfusion hmf
        · obtain ⟨he1, he2⟩ := (Prod.mk.injEq _ _ _ _).mp
            (Option.some_inj.mp (hnum0.symm.trans hnum))
          rw [← he1, ← he2] at hnex
          exact (hnex hexc0).elim
    · intro hcon
      exact Bool.noConfusion hcon
    · intro _
      constructor
      · have hzero : countSret params2 = 0 := by
          refine List.countP_eq_zero.mpr ?_
          intro q hq
          obtain ⟨⟨p, hp, hqp⟩, -⟩ :=
            legalize_args_out fuel sig.params _ params2 sa hP q hq
          simp only [decide_eq_true_eq]
          rw [hqp]
          exact hpns p hp
        rw [hsig1]
        exact hzero
      · have hzero : countSret returns2 = 0 := by
          refine List.countP_eq_zero.mpr ?_
          intro q hq
          obtain ⟨⟨p, hp, hqp⟩, -⟩ :=
            legalize_args_out fuel sig.returns _ returns2 sb hR q hq
          simp only [decide_eq_true_eq]
          rw [hqp]
          exact hrns p hp
        rw [hsig1]
        exact hzero

def sigC1wit : Signature :=
  { params := [normalParam I64],
    returns := [normalParam I64, normalParam I64, normalParam I64, normalParam I64],
    call_conv := CallConv.SystemV }

def sigC1witOut : Signature :=
  { params := [
      { normalParam I64 with location := ArgumentLoc.Reg 6 },
      { sretTemplate 64 with location := ArgumentLoc.Reg 7 }],
    returns := [{ sretTemplate 64 with location := ArgumentLoc.Reg 0 }],
    call_conv := CallConv.SystemV }

set_option maxHeartbeats 1000000 in
set_option maxRecDepth 8000 in
theorem c1_struct_return_injection_witness :
    ∃ fire, injectionFires 40 PointerWidth.U64 defaultFlags sigC1wit = some fire ∧
      (fire = true ↔ sigC1wit.is_multi_return = true ∧ ∃ g f',
        num_return_registers_required 40 (widthBits PointerWidth.U64) sigC1wit.call_conv
          defaultFlags sigC1wit.returns = some (g, f') ∧
        ((retRegsOf sigC1wit.call_conv).length < g ∨
          retFprLimitOf sigC1wit.call_conv < f')) ∧
      (fire = true → countSret sigC1witOut.params = 1 ∧
        ∃ reg2, sigC1witOut.returns =
          [{ sretTemplate (widthBits PointerWidth.U64) with
            location := ArgumentLoc.Reg reg2 }]) ∧
      (fire = false → countSret sigC1witOut.params = 0 ∧
        countSret sigC1witOut.returns = 0) :=
  c1_struct_return_injection 40 PointerWidth.U64 defaultFlags sigC1wit sigC1witOut
    (by rfl) (by decide) (by decide) (by decide)

/-- A single vector return: the estimator (simulating the SIMD-off
split) reports four general-purpose registers, above the three the
System V convention provides, yet no struct-return handling is
injected, because the signature is not multi-return. -/
def sigC1cx : Signature :=
  { params := [], returns := [normalParam I64X4], call_conv := CallConv.SystemV }

def sigC1cxOut : Signature :=
  { params := [],
    returns := [
      { normalParam I64 with location := ArgumentLoc.Reg 0 },
      { normalParam I64 with location := ArgumentLoc.Reg 2 },
      { normalParam I64 with location := ArgumentLoc.Reg 1 },
      { normalParam I64 with location := ArgumentLoc.Stack 0 }],
    call_conv := CallConv.SystemV }

set_option maxHeartbeats 1000000 in
set_option maxRecDepth 8000 in
theorem c1_counterexample :
    num_return_registers_required 40 64 CallConv.SystemV defaultFlags sigC1cx.returns =
      some (4, 0) ∧
    ((retRegsOf CallConv.SystemV).length < 4 ∨ retFprLimitOf CallConv.SystemV < 0) ∧
    legalize_signature 40 PointerWidth.U64 defaultFlags sigC1cx = some sigC1cxOut ∧
    countSret sigC1cxOut.params = 0 ∧ countSret sigC1cxOut.returns = 0 :=
  ⟨rfl, Or.inl (by decide), rfl, rfl, rfl⟩
